import Mathlib

/-!
# go-event-store/mysql : persistence strategy, query builder and cursor

A shallow embedding of `persistence_strategy.go`, `event_iterator.go` and
`projection_manager.go`.

Conventions of the embedding

* Go `int` is `Int`; no arithmetic of the program comes near the machine word size.
* Go `error` values are the inductive `Error`; a `nil` error is `none`.
* A Go run-time panic is an explicit outcome, never an error value.
* The relational backend (MySQL through `database/sql`) is not part of the repository.
  Its tables are explicit state (`DB`), its failures are injected through `Faults`,
  the answers a cursor gets are a parameter (`Backend`), and so is the meaning of a
  generated `SELECT` text (`Engine`).
* `crypto/sha1` is a parameter (`sha1`), `encoding/hex` is embedded.
* JSON documents of metadata are represented by their key/value content; a number of a
  document is `Value.int`, and `json.Unmarshal` into `map[string]interface{}` turns it
  into a `float64` (`Value.float`).
* `uuid.UUID` values are represented by their canonical text, the result of `String()`.
-/

namespace EventStore

/-! ## Values, errors, matchers (types of the `eventstore` package used by the code) -/

/-- Comparison values and metadata values: the dynamic Go values stored in `interface{}`.
The constructor `float` is a `float64` whose value is the integer `v`, which is what JSON
decoding makes of an integer number. -/
inductive Value where
  | bool (b : Bool)
  | int (n : Int)
  | str (s : String)
  | float (v : Int)
  deriving DecidableEq, Repr

/-- Go `error` values that the code can return. `StreamNotFound` and `ProjectionNotFound`
are the typed errors of the `eventstore` package that the code constructs. `ConcurrencyConflict`
is named by the specification only; no code of the repository constructs it. `mysql` is an
error reported by the backend (server error number and text), `json` an `encoding/json`
error, `conn` a connection, driver or context error. -/
inductive Error where
  | StreamNotFound (Stream : String)
  | ProjectionNotFound (Name : String)
  | ConcurrencyConflict (aggregateType aggregateId : String) (version : Int)
  | mysql (code : Nat) (text : String)
  | json (text : String)
  | conn (text : String)
  deriving DecidableEq, Repr

/-- Field domain of a matcher (`eventstore.FieldType`). The Go type is an open named type, so
values outside the two declared constants exist; they are `other`. -/
inductive FieldType where
  | MetadataField
  | MessagePropertyField
  | other (tag : Nat)
  deriving DecidableEq, Repr

/-- The type `eventstore.MetadataOperator` is a named string type. -/
abbrev MetadataOperator := String

/-- Modelled from the spec: the constant `eventstore.InOperator` (membership); its text is
declared in the `eventstore` package. -/
def InOperator : MetadataOperator := "in"
/-- Modelled from the spec: the constant `eventstore.NotInOperator` (non-membership). -/
def NotInOperator : MetadataOperator := "nin"
/-- Modelled from the spec: the constant `eventstore.RegexOperator` (regular-expression match). -/
def RegexOperator : MetadataOperator := "regex"

/-- Modelled from the spec: the fixed operator set of the `eventstore` package (equals,
not-equals, greater, greater-equal, less, less-equal, membership, non-membership, regex). -/
def knownOperators : List MetadataOperator :=
  ["=", "!=", ">", ">=", "<", "<=", InOperator, NotInOperator, RegexOperator]

/-- One metadata matcher (`eventstore.MetadataMatch`). -/
structure MetadataMatch where
  Field : String
  FieldType : FieldType
  Value : Value
  Operation : MetadataOperator
  deriving DecidableEq, Repr

/-- A list of matchers (`eventstore.MetadataMatcher`). -/
abbrev MetadataMatcher := List MetadataMatch

/-! ## Library functions used by the query builder -/

/-- Go `strings.Join`. -/
def stringsJoin : List String → String → String
  | [], _ => ""
  | [a], _ => a
  | a :: b :: rest, sep => a ++ sep ++ stringsJoin (b :: rest) sep

/-- Go `strconv.FormatBool`. -/
def FormatBool (b : Bool) : String := if b then "true" else "false"

/-- One lower-case hexadecimal digit. -/
def hexDigit (n : Nat) : Char :=
  if n < 10 then Char.ofNat (48 + n) else Char.ofNat (87 + n)

/-- Go `hex.EncodeToString` over a list of bytes. -/
def hexEncodeToString (bytes : List Nat) : String :=
  String.mk (bytes.flatMap (fun b => [hexDigit ((b % 256) / 16), hexDigit ((b % 256) % 16)]))

/-- Number of `?` placeholders in a statement text. -/
def placeholders (s : String) : Nat := s.toList.count '?'

/-- Difference of the numbers of opening and closing parentheses after reading a text, or
`none` when a closing parenthesis comes before its opening one. -/
def parenDepth : List Char → Nat → Option Nat
  | [], d => some d
  | c :: cs, d =>
    if c = '(' then parenDepth cs (d + 1)
    else if c = ')' then (if d = 0 then none else parenDepth cs (d - 1))
    else parenDepth cs d

/-- A text has balanced parentheses. -/
def balanced (s : String) : Bool := parenDepth s.toList 0 == some 0

/-! ## Table names -/

def EventStreamsTable : String := "event_streams"
def ProjectionsTable : String := "projections"

section Hash

variable (sha1 : String → List Nat)

/-- The function `GenerateTableName`: `"_"` followed by the hexadecimal SHA-1 digest. -/
def GenerateTableName (streamName : String) : String :=
  "_" ++ hexEncodeToString (sha1 streamName)

end Hash

/-! ## Query builder: `createWhereClause` -/

/-- The closure `expression` selected by the `switch match.Operation`. -/
def expression (op : MetadataOperator) (value : String) : String :=
  if op = InOperator then "IN " ++ value
  else if op = NotInOperator then "NOT IN " ++ value
  else if op = RegexOperator then "REGEXP " ++ value
  else op ++ " " ++ value

/-- The first `if` of the loop body: the metadata domain. -/
def whereMetadata (m : MetadataMatch) (acc : List String × List Value) :
    List String × List Value :=
  if m.FieldType = FieldType.MetadataField then
    match m.Value with
    | Value.bool v =>
      (acc.1 ++ ["metadata->\"$." ++ m.Field ++ "\" " ++ expression m.Operation (FormatBool v)],
        acc.2)
    | _ =>
      (acc.1 ++ ["JSON_UNQUOTE(metadata->>\"$." ++ m.Field ++ "\" " ++ expression m.Operation "?"],
        acc.2 ++ [m.Value])
  else acc

/-- The second `if` of the loop body: the message-property domain. In the non-boolean branch
the source calls `append(wheres, "%s %s", match.Field, expression("?"))`, which appends three
separate strings. -/
def whereMessageProperty (m : MetadataMatch) (acc : List String × List Value) :
    List String × List Value :=
  if m.FieldType = FieldType.MessagePropertyField then
    match m.Value with
    | Value.bool v =>
      (acc.1 ++ [m.Field ++ " " ++ expression m.Operation (FormatBool v)], acc.2)
    | _ =>
      (acc.1 ++ ["%s %s", m.Field, expression m.Operation "?"], acc.2 ++ [m.Value])
  else acc

/-- One iteration of the loop of `createWhereClause`. -/
def whereStep (acc : List String × List Value) (m : MetadataMatch) :
    List String × List Value :=
  whereMessageProperty m (whereMetadata m acc)

/-- The function `createWhereClause`: predicate fragments and bound values. Its error result
is always `nil` and is left out. -/
def createWhereClause (matcher : MetadataMatcher) : List String × List Value :=
  if matcher.length = 0 then ([], [])
  else matcher.foldl whereStep ([], [])

/-! ## Domain events (the `eventstore.DomainEvent` record) -/

/-- A metadata map `map[string]interface{}`, and equally the JSON object that encodes it,
represented by its key/value content. -/
abbrev Metadata := List (String × Value)

/-- Look a key up in a metadata map. -/
def Metadata.get? (m : Metadata) (k : String) : Option Value :=
  (m.find? (fun kv => kv.1 = k)).map (fun kv => kv.2)

/-- Go map assignment `m[k] = v`. -/
def Metadata.set (m : Metadata) (k : String) (v : Value) : Metadata :=
  if m.any (fun kv => kv.1 = k) then m.map (fun kv => if kv.1 = k then (k, v) else kv)
  else m ++ [(k, v)]

/-- A Go payload value as the store observes it: its type name, and either its JSON encoding
or the reason `json.Marshal` rejects it. -/
inductive Payload where
  | value (typeName : String) (json : String)
  | unencodable (typeName : String) (reason : String)
  deriving DecidableEq, Repr

/-- The record `eventstore.DomainEvent`. Event identifiers are UUIDs in canonical text form;
timestamps are counted in microseconds, the resolution of the `DATETIME(6)` column. -/
structure DomainEvent where
  number : Int
  uuid : String
  payload : Payload
  metadata : Metadata
  createdAt : Nat
  deriving DecidableEq, Repr

/-- The type name of the Go value. -/
def Payload.typeName : Payload → String
  | Payload.value n _ => n
  | Payload.unencodable n _ => n

/-- Modelled from the spec: the accessor `DomainEvent.Name` of the `eventstore` package, the
event type name, which is the key of the payload's type in the type resolver. -/
def DomainEvent.Name (ev : DomainEvent) : String := ev.payload.typeName

/-- Go `json.Marshal` of a payload. -/
def jsonMarshalPayload : Payload → Except Error String
  | Payload.value _ json => Except.ok json
  | Payload.unencodable _ reason => Except.error (Error.json reason)

/-- Go `json.Marshal` of a metadata map; every `Value` is encodable. -/
def jsonMarshalMetadata (m : Metadata) : Except Error Metadata := Except.ok m

/-! ## The relational backend: stream catalog and physical stream logs -/

/-- One row of a physical stream log (the columns the code writes; `no` is assigned by the
backend; the three generated columns are functions of `metadata`). -/
structure Row where
  no : Int
  event_id : String
  event_name : String
  payload : String
  metadata : Metadata
  created_at : Nat
  deriving DecidableEq, Repr

/-- A physical stream log created by `CreateSchema`: its rows in insertion order and the next
`AUTO_INCREMENT` value. -/
structure Table where
  name : String
  rows : List Row
  autoInc : Int
  deriving DecidableEq, Repr

/-- Backend state: the `real_stream_name` column of the stream catalog `event_streams`, and
the physical stream logs. The two are written by separate statements
(`AddStreamToStreamsTable`, `CreateSchema`) and are independent. -/
structure DB where
  streams : List String
  tables : List Table
  deriving DecidableEq, Repr

/-- Injected backend failures for one call: of `BeginTx`, of `PrepareContext`, of the catalog
count query, of the `k`-th `ExecContext` of the call, and of `Commit`. -/
structure Faults where
  begin : Option Error := none
  prepare : Option Error := none
  query : Option Error := none
  exec : Option (Nat × Error) := none
  commit : Option Error := none
  deriving DecidableEq, Repr

/-- No injected failure. -/
def Faults.none : Faults := {}

/-- Look a physical table up by name. -/
def DB.table? (db : DB) (name : String) : Option Table :=
  db.tables.find? (fun t => t.name = name)

/-- Replace the table of the same name. -/
def DB.setTable (db : DB) (t : Table) : DB :=
  { db with tables := db.tables.map (fun u => if u.name = t.name then t else u) }

/-- MySQL `JSON_UNQUOTE` of a scalar. -/
def jsonUnquote : Value → String
  | Value.str s => s
  | Value.int n => toString n
  | Value.bool b => FormatBool b
  | Value.float v => toString v

/-- The generated columns `(aggregate_type, aggregate_id, aggregate_version)` of `CreateSchema`,
or `none` when one of them would be `NULL` or the version is not an unsigned integer. -/
def generatedColumns (m : Metadata) : Option (String × String × Int) :=
  match m.get? "_aggregate_type", m.get? "_aggregate_id", m.get? "_aggregate_version" with
  | some t, some i, some (Value.int v) =>
    if 0 ≤ v then some (jsonUnquote t, jsonUnquote i, v) else none
  | some t, some i, some (Value.float v) =>
    if 0 ≤ v then some (jsonUnquote t, jsonUnquote i, v) else none
  | _, _, _ => none

/-- The backend executing the prepared `INSERT` on a table inside the transaction: the
`NOT NULL` generated columns, then `UNIQUE KEY ix_event_id`, then
`UNIQUE KEY ix_unique_event (aggregate_type, aggregate_id, aggregate_version)`. A new row gets
the next `AUTO_INCREMENT` value. -/
def Table.insert (t : Table) (event_id event_name payload : String) (metadata : Metadata)
    (created_at : Nat) : Except Error Table :=
  match generatedColumns metadata with
  | none => Except.error (Error.mysql 1048 "Column cannot be null")
  | some key =>
    if t.rows.any (fun r => r.event_id = event_id) then
      Except.error (Error.mysql 1062 "Duplicate entry for key 'ix_event_id'")
    else if t.rows.any (fun r => generatedColumns r.metadata = some key) then
      Except.error (Error.mysql 1062 "Duplicate entry for key 'ix_unique_event'")
    else
      Except.ok { t with
        rows := t.rows ++ [⟨t.autoInc, event_id, event_name, payload, metadata, created_at⟩]
        autoInc := t.autoInc + 1 }

/-- The call `stmt.ExecContext` number `k` of an `AppendTo`. -/
def execInsert (f : Faults) (k : Nat) (t : Table) (event_id event_name payload : String)
    (metadata : Metadata) (created_at : Nat) : Except Error Table :=
  match f.exec with
  | some (j, e) =>
    if j = k then Except.error e else t.insert event_id event_name payload metadata created_at
  | none => t.insert event_id event_name payload metadata created_at

/-- The call `tx.PrepareContext` of `AppendTo`: fails when the table does not exist. -/
def prepareInsert (f : Faults) (db : DB) (tableName : String) : Except Error Table :=
  match f.prepare with
  | some e => Except.error e
  | none =>
    match db.table? tableName with
    | none => Except.error (Error.mysql 1146 "Table doesn't exist")
    | some t => Except.ok t

/-- The loop of `AppendTo` over the batch, on the transaction's view of the table; `k` counts
the `ExecContext` calls. Returns the view reached and the error that stopped the loop. -/
def appendLoop (f : Faults) : Table → List DomainEvent → Nat → Table × Option Error
  | t, [], _ => (t, none)
  | t, ev :: rest, k =>
    match jsonMarshalPayload ev.payload with
    | Except.error e => (t, some e)
    | Except.ok payload =>
      match jsonMarshalMetadata ev.metadata with
      | Except.error e => (t, some e)
      | Except.ok metadata =>
        match execInsert f k t ev.uuid ev.Name payload metadata ev.createdAt with
        | Except.error e => (t, some e)
        | Except.ok t1 => appendLoop f t1 rest (k + 1)

/-- The call `tx.Rollback`: the rows of the table are those before the transaction; the
`AUTO_INCREMENT` values handed out inside it stay consumed. -/
def DB.rollback (db : DB) (before view : Table) : DB :=
  db.setTable { before with autoInc := view.autoInc }

section Hash

variable (sha1 : String → List Nat)

/-- The method `PersistenceStrategy.AppendTo`: the backend state after the call and the
returned error. -/
def AppendTo (f : Faults) (db : DB) (streamName : String) (events : List DomainEvent) :
    DB × Option Error :=
  let tableName := GenerateTableName sha1 streamName
  match f.begin with
  | some e => (db, some e)
  | none =>
    match prepareInsert f db tableName with
    | Except.error e => (db, some e)
    | Except.ok t =>
      match appendLoop f t events 0 with
      | (view, some e) => (db.rollback t view, some e)
      | (view, none) =>
        match f.commit with
        | some e => (db.rollback t view, some e)
        | none => (db.setTable view, none)

/-- The method `PersistenceStrategy.CreateSchema`: one `CREATE TABLE` statement; the backend
rejects it when the table exists. A new table is empty and its `AUTO_INCREMENT` starts at 1. -/
def CreateSchema (f : Faults) (db : DB) (streamName : String) : DB × Option Error :=
  let tableName := GenerateTableName sha1 streamName
  match f.exec with
  | some (_, e) => (db, some e)
  | none =>
    match db.table? tableName with
    | some _ => (db, some (Error.mysql 1050 "Table already exists"))
    | none => ({ db with tables := db.tables ++ [⟨tableName, [], 1⟩] }, none)

/-- The rows of a stream's physical log (empty when the table does not exist). -/
def DB.log (db : DB) (streamName : String) : List Row :=
  match db.table? (GenerateTableName sha1 streamName) with
  | some t => t.rows
  | none => []

/-- The catalog count query of `createQuery`:
`SELECT COUNT(stream_name) FROM event_streams WHERE real_stream_name = ?`. -/
def countStream (f : Faults) (db : DB) (streamName : String) : Except Error Int :=
  match f.prepare with
  | some e => Except.error e
  | none =>
    match f.query with
    | some e => Except.error e
    | none => Except.ok (db.streams.count streamName)

/-- The method `PersistenceStrategy.createQuery`. -/
def createQuery (f : Faults) (db : DB) (streamName : String) (fromNumber : Int)
    (matcher : MetadataMatcher) : Except Error (String × List Value) :=
  match countStream f db streamName with
  | Except.error e => Except.error e
  | Except.ok count =>
    if count = 0 then Except.error (Error.StreamNotFound streamName)
    else
      let tableName := GenerateTableName sha1 streamName
      let wheres := (createWhereClause matcher).1 ++ ["no >= ?"]
      let values := (createWhereClause matcher).2 ++ [Value.int fromNumber]
      let whereCondition := "WHERE " ++ stringsJoin wheres " AND "
      let query :=
        "SELECT no, event_id, event_name, payload, metadata, created_at, '" ++ streamName ++
          "' as stream FROM " ++ tableName ++ " " ++ whereCondition ++ " ORDER BY no ASC"
      Except.ok (query, values)

end Hash

/-! ## The cursor `DomainEventIterator` -/

/-- What the driver delivers for one result row of a built query: the seven selected columns,
and the error of `rows.Scan` on it, if any. The metadata document is `some m` when it is a
JSON object with content `m`, and `none` when it decodes to no map (the Go map stays `nil`). -/
structure RawRow where
  number : Int
  eventID : String
  name : String
  payload : String
  metastring : Option Metadata
  createdAt : Nat
  stream : String
  scanErr : Option Error
  deriving DecidableEq, Repr

/-- One statement sent by `fetchEvents`: the cursor's query, the `LIMIT` and `OFFSET` it
formats into the text, and the bound parameters. -/
structure PagedQuery where
  query : String
  limit : Int
  offset : Int
  parameters : List Value
  deriving DecidableEq, Repr

/-- The statement text `fmt.Sprintf("%s LIMIT %d OFFSET %d", query, limit, it.offset)`. -/
def PagedQuery.text (p : PagedQuery) : String :=
  p.query ++ " LIMIT " ++ toString p.limit ++ " OFFSET " ++ toString p.offset

/-- The connection as a cursor sees it: the answer of `QueryContext` to a statement, which may
depend on how many statements the cursor has sent before. -/
abbrev Backend := Nat → PagedQuery → Except Error (List RawRow)

/-- A backend whose query has the fixed result `rows`; `LIMIT`/`OFFSET` select a page of it. -/
def staticBackend (rows : List RawRow) : Backend :=
  fun _ p => Except.ok ((rows.drop p.offset.toNat).take p.limit.toNat)

/-- The meaning the backend gives to a query text without paging suffix. -/
abbrev Engine := String → List Value → Except Error (List RawRow)

/-- The backend that evaluates the query text with `eng` and applies `LIMIT`/`OFFSET`. -/
def Engine.backend (eng : Engine) : Backend :=
  fun _ p =>
    match eng p.query p.parameters with
    | Except.error e => Except.error e
    | Except.ok rows => Except.ok ((rows.drop p.offset.toNat).take p.limit.toNat)

/-- A registered payload type: `json.Unmarshal` of stored bytes into a new value of the type
gives the value left in place and the decoding error, if any. -/
abbrev Decoder := String → Payload × Option Error

/-- The type resolver `eventstore.TypeRegistry`: `GetTypeByName`, `none` for an unknown name. -/
abbrev TypeRegistry := String → Option Decoder

/-- Outcome of a call that may panic. -/
inductive Ret (α : Type) where
  | returned (a : α)
  | panicked
  deriving DecidableEq, Repr

/-- The struct `DomainEventIterator`. The fields `db`, `typeRegistry` and `ctx` are the
parameters `Backend` and `TypeRegistry` of the methods; `issued` records the statements sent
through `db` so far. -/
structure DomainEventIterator where
  limit : Int
  offset : Int
  count : Int
  position : Int
  length : Int
  done : Bool
  err : Option Error
  current : Option DomainEvent
  events : List DomainEvent
  query : String
  parameters : List Value
  issued : List PagedQuery
  deriving DecidableEq, Repr

/-- The constructor `NewDomainEventIterator`. -/
def NewDomainEventIterator (query : String) (parameters : List Value) (count : Int) :
    DomainEventIterator :=
  { limit := 1000, offset := 0, count := count, position := -1, length := 0, current := none,
    done := false, err := none, events := [], query := query, parameters := parameters,
    issued := [] }

/-- The number of low bits a natural number has beyond the 53 bits of a `float64`
significand; `fuel` bounds the halvings and any `fuel` not below the bit length is enough. -/
def excessBits : Nat → Nat → Nat
  | 0, _ => 0
  | fuel + 1, a => if a < 2 ^ 53 then 0 else excessBits fuel (a / 2) + 1

/-- Go `strconv.ParseFloat(s, 64)` on the decimal text of a natural number: the nearest
number with a significand of 53 bits, ties to the even significand. (The exponent range of
`float64` is not reached by a Go `int`.) -/
def roundFloat64Nat (a : Nat) : Nat :=
  let e := excessBits a a
  let q := a / 2 ^ e
  let r := a % 2 ^ e
  if 2 * r > 2 ^ e ∨ (2 * r = 2 ^ e ∧ q % 2 = 1) then (q + 1) * 2 ^ e else q * 2 ^ e

/-- The `float64` nearest to an integer. -/
def roundFloat64 (n : Int) : Int :=
  if n < 0 then -((roundFloat64Nat n.natAbs : Nat) : Int)
  else ((roundFloat64Nat n.natAbs : Nat) : Int)

/-- Go `json.Unmarshal` of one member of a JSON object into `interface{}`: booleans and
strings keep their value, every number becomes a `float64`. -/
def jsonUnmarshalValue : Value → Value
  | Value.bool b => Value.bool b
  | Value.str s => Value.str s
  | Value.int n => Value.float (roundFloat64 n)
  | Value.float v => Value.float (roundFloat64 v)

/-- Go `json.Unmarshal` of a metadata document into a `map[string]interface{}`. -/
def jsonUnmarshalMetadata (m : Metadata) : Metadata :=
  m.map (fun kv => (kv.1, jsonUnmarshalValue kv.2))

/-- The nil UUID `uuid.Nil` in canonical text. -/
def nilUUID : String := "00000000-0000-0000-0000-000000000000"

/-- A hexadecimal digit of either case, as `hex.Decode` accepts it. -/
def isHexDigit (c : Char) : Bool :=
  ('0' ≤ c && c ≤ '9') || ('a' ≤ c && c ≤ 'f') || ('A' ≤ c && c ≤ 'F')

/-- A hexadecimal digit in lower case, as `UUID.String` prints it. -/
def isLowerHexDigit (c : Char) : Bool :=
  ('0' ≤ c && c ≤ '9') || ('a' ≤ c && c ≤ 'f')

/-- The lower-case form of a hexadecimal digit. -/
def lowerHexDigit (c : Char) : Char :=
  if 'A' ≤ c ∧ c ≤ 'F' then Char.ofNat (c.toNat + 32) else c

/-- The 32 hexadecimal digits of a text of 36 characters in the canonical layout
`xxxxxxxx-xxxx-xxxx-xxxx-xxxxxxxxxxxx`, or `none` when a dash is not in its place. -/
def canonicalDigits (t : List Char) : Option (List Char) :=
  if t.get? 8 = some '-' ∧ t.get? 13 = some '-' ∧ t.get? 18 = some '-' ∧
      t.get? 23 = some '-' then
    some (t.take 8 ++ (t.drop 9).take 4 ++ (t.drop 14).take 4 ++ (t.drop 19).take 4 ++
      (t.drop 24).take 12)
  else none

/-- The layouts `uuid.FromString` of `satori/go.uuid` accepts, selected by the length of the
text: 32 digits, the canonical layout, the canonical layout in braces, and either of the first
two after `urn:uuid:`. The result is the list of the 32 digits. (The library counts bytes; a
text with a character outside ASCII has no hexadecimal digit in that place and is rejected
under either count.) -/
def uuidDigits (t : List Char) : Option (List Char) :=
  if t.length = 32 then some t
  else if t.length = 36 then canonicalDigits t
  else if t.length = 38 then
    (if t.head? = some '\x7b' ∧ t.getLast? = some '\x7d' then
        canonicalDigits ((t.drop 1).take 36)
      else none)
  else if t.length = 41 then
    (if t.take 9 = "urn:uuid:".toList then some (t.drop 9) else none)
  else if t.length = 45 then
    (if t.take 9 = "urn:uuid:".toList then canonicalDigits (t.drop 9) else none)
  else none

/-- The canonical text of 32 digits: groups of 8, 4, 4, 4 and 12 joined by dashes. -/
def canonicalText (d : List Char) : String :=
  String.mk (d.take 8 ++ '-' :: (d.drop 8).take 4 ++ '-' :: (d.drop 12).take 4 ++
    '-' :: (d.drop 16).take 4 ++ '-' :: d.drop 20)

/-- The library function `uuid.FromStringOrNil`: the UUID a text denotes, and `uuid.Nil`
when the text is no UUID. The UUID is given by its canonical text, in lower case. -/
def FromStringOrNil (s : String) : String :=
  match uuidDigits s.toList with
  | some d => if d.all isHexDigit then canonicalText (d.map lowerHexDigit) else nilUUID
  | none => nilUUID

/-- A text is the canonical text of a UUID, the form `UUID.String` returns: 36 characters,
dashes after the groups of 8, 4, 4 and 4, and lower-case hexadecimal digits elsewhere. -/
def isCanonicalUUID (s : String) : Bool :=
  decide (s.toList.length = 36) &&
    match canonicalDigits s.toList with
    | some d => d.all isLowerHexDigit
    | none => false

/-- Modelled from the spec: the last step of row materialisation, "assemble the final
immutable event record with its stored sequence number and identifier", which the code does
with `eventstore.NewDomainEvent(..).WithUUID(..).WithNumber(..)` of the `eventstore` package. -/
def assembleEvent (number : Int) (eventID : String) (payload : Payload) (metadata : Metadata)
    (createdAt : Nat) : DomainEvent :=
  { number := number, uuid := eventID, payload := payload, metadata := metadata,
    createdAt := createdAt }

/-- The method `appendRows`: the loop over the rows of one page; `counter` is the running
count. It panics in `reflect.New` when the type name is unknown (the resolver's error is
discarded) and in `metadata["stream"] = stream` when the metadata map is `nil`. The metadata
document is decoded with `json.Unmarshal` and the identifier text with
`uuid.FromStringOrNil`. -/
def appendRows (reg : TypeRegistry) :
    DomainEventIterator → List RawRow → Int → DomainEventIterator × Ret Int
  | it, [], counter => (it, Ret.returned counter)
  | it, row :: rows, counter =>
    match row.scanErr with
    | some e => ({ it with err := some e }, Ret.returned counter)
    | none =>
      match reg row.name with
      | none => ({ it with err := none }, Ret.panicked)
      | some decode =>
        match row.metastring with
        | none => ({ it with err := (decode row.payload).2 }, Ret.panicked)
        | some metadata =>
          let event := assembleEvent row.number (FromStringOrNil row.eventID)
            (decode row.payload).1
            ((jsonUnmarshalMetadata metadata).set "stream" (Value.str row.stream)) row.createdAt
          appendRows reg { it with err := (decode row.payload).2, events := it.events ++ [event] }
            rows (counter + 1)

/-- The page size `fetchEvents` asks for. -/
def pageLimit (it : DomainEventIterator) : Int :=
  if it.count > 0 ∧ it.count < it.limit then it.count else it.limit

/-- The method `fetchEvents`. -/
def fetchEvents (db : Backend) (reg : TypeRegistry) (it : DomainEventIterator) :
    DomainEventIterator × Ret Unit :=
  if it.done then (it, Ret.returned ())
  else
    let limit := pageLimit it
    let q : PagedQuery := ⟨it.query, limit, it.offset, it.parameters⟩
    match db it.issued.length q with
    | Except.error e => ({ it with issued := it.issued ++ [q], err := some e }, Ret.returned ())
    | Except.ok rows =>
      match appendRows reg { it with issued := it.issued ++ [q] } rows 0 with
      | (it2, Ret.panicked) => (it2, Ret.panicked)
      | (it2, Ret.returned counter) =>
        ({ it2 with
            done := if counter < limit then true else it2.done
            count := it2.count - counter
            offset := it2.offset + counter
            length := it2.length + counter }, Ret.returned ())

/-- Go slice indexing `events[i]`; `none` is the index-out-of-range panic. -/
def index (events : List DomainEvent) (i : Int) : Option DomainEvent :=
  if i < 0 then none else events.get? i.toNat

/-- The method `Close`. -/
def Close (it : DomainEventIterator) : DomainEventIterator :=
  { it with current := none, events := [] }

/-- The two identical blocks of `Next` that position the cursor on `events[position]`. -/
def positionOn (it : DomainEventIterator) : DomainEventIterator × Ret Bool :=
  match index it.events it.position with
  | some e => ({ it with current := some e }, Ret.returned true)
  | none => (it, Ret.panicked)

/-- The method `Next`. -/
def Next (db : Backend) (reg : TypeRegistry) (it : DomainEventIterator) :
    DomainEventIterator × Ret Bool :=
  let it0 := { it with position := it.position + 1 }
  if it0.length ≥ it0.position + 1 then positionOn it0
  else
    match fetchEvents db reg it0 with
    | (it1, Ret.panicked) => (it1, Ret.panicked)
    | (it1, Ret.returned _) =>
      if it1.length ≥ it1.position + 1 then positionOn it1
      else (Close it1, Ret.returned false)

/-- The method `Rewind`. -/
def Rewind (it : DomainEventIterator) : DomainEventIterator :=
  { it with current := none, err := none, position := -1 }

/-- The method `Error`. -/
def DomainEventIterator.Error (it : DomainEventIterator) : Option Error := it.err

/-- The method `Current`. -/
def Current (db : Backend) (reg : TypeRegistry) (it : DomainEventIterator) :
    DomainEventIterator × Ret (Option DomainEvent × Option Error) :=
  if it.position = -1 then
    match Next db reg it with
    | (it1, Ret.panicked) => (it1, Ret.panicked)
    | (it1, Ret.returned _) => (it1, Ret.returned (it1.current, it1.err))
  else (it, Ret.returned (it.current, it.err))

/-- The method `IsEmpty`. -/
def IsEmpty (db : Backend) (reg : TypeRegistry) (it : DomainEventIterator) :
    DomainEventIterator × Ret (Bool × Option Error) :=
  match Next db reg it with
  | (it1, Ret.panicked) => (it1, Ret.panicked)
  | (it1, Ret.returned _) => (it1, Ret.returned (decide (it1.length = 0), it1.err))

/-- The loop of `ToList`, with `fuel` bounding the number of `Next` calls; `none` means the
fuel ran out before the loop ended. -/
def ToListLoop (db : Backend) (reg : TypeRegistry) :
    Nat → DomainEventIterator → List DomainEvent →
      Option (DomainEventIterator × Ret (List DomainEvent × Option Error))
  | 0, _, _ => none
  | fuel + 1, it, list =>
    match Next db reg it with
    | (it1, Ret.panicked) => some (it1, Ret.panicked)
    | (it1, Ret.returned false) => some (it1, Ret.returned (list, none))
    | (it1, Ret.returned true) =>
      match it1.err with
      | some e => some (it1, Ret.returned (list, some e))
      | none =>
        match it1.current with
        | none => some (it1, Ret.panicked)
        | some e => ToListLoop db reg fuel it1 (list ++ [e])

/-- The method `ToList`. -/
def ToList (db : Backend) (reg : TypeRegistry) (fuel : Nat) (it : DomainEventIterator) :
    Option (DomainEventIterator × Ret (List DomainEvent × Option Error)) :=
  ToListLoop db reg fuel it []

/-! ## `Load` and `MergeAndLoad` -/

/-- The record `eventstore.LoadStreamParameter`. -/
structure LoadStreamParameter where
  StreamName : String
  FromNumber : Int
  Matcher : MetadataMatcher
  deriving DecidableEq, Repr

section Hash

variable (sha1 : String → List Nat)

/-- The method `PersistenceStrategy.Load`. -/
def Load (f : Faults) (db : DB) (streamName : String) (fromNumber count : Int)
    (matcher : MetadataMatcher) : Except Error DomainEventIterator :=
  match createQuery sha1 f db streamName fromNumber matcher with
  | Except.error e => Except.error e
  | Except.ok (query, values) => Except.ok (NewDomainEventIterator query values count)

/-- The loop of `MergeAndLoad` over the stream specs. -/
def mergeLoop (f : Faults) (db : DB) :
    List LoadStreamParameter → List String → List Value →
      Except Error (List String × List Value)
  | [], queries, parameters => Except.ok (queries, parameters)
  | stream :: rest, queries, parameters =>
    match createQuery sha1 f db stream.StreamName stream.FromNumber stream.Matcher with
    | Except.error e => Except.error e
    | Except.ok (query, values) =>
      mergeLoop f db rest (queries ++ ["(" ++ query ++ ")"]) (parameters ++ values)

/-- The method `PersistenceStrategy.MergeAndLoad`; `queries[0]` panics on an empty list. -/
def MergeAndLoad (f : Faults) (db : DB) (count : Int) (streams : List LoadStreamParameter) :
    Ret (Except Error DomainEventIterator) :=
  match mergeLoop sha1 f db streams [] [] with
  | Except.error e => Ret.returned (Except.error e)
  | Except.ok (queries, parameters) =>
    match queries with
    | [] => Ret.panicked
    | q0 :: _ =>
      let groupedQuery :=
        if queries.length > 1 then
          stringsJoin queries " UNION ALL " ++ " ORDER BY created_at ASC"
        else q0
      Ret.returned (Except.ok (NewDomainEventIterator groupedQuery parameters count))

end Hash

/-! ## Vocabulary of the statements -/

/-- The fragments one matcher contributes to `wheres`. -/
def matchFragments (m : MetadataMatch) : List String := (whereStep ([], []) m).1

/-- The bound values one matcher contributes to `values`. -/
def matchValues (m : MetadataMatch) : List Value := (whereStep ([], []) m).2

/-- A comparison value is a Go `bool`. -/
def Value.isBool : Value → Bool
  | Value.bool _ => true
  | _ => false

/-- The field expression a matcher's fragment starts with, by field domain. -/
def fieldExpression (m : MetadataMatch) : String :=
  match m.FieldType, m.Value with
  | FieldType.MetadataField, Value.bool _ => "metadata->\"$." ++ m.Field ++ "\""
  | FieldType.MetadataField, _ => "JSON_UNQUOTE(metadata->>\"$." ++ m.Field ++ "\""
  | _, _ => m.Field

/-- A stand-in digest used in worked examples; the theorems hold for every digest function. -/
def sampleDigest : String → List Nat := fun s => s.toList.map Char.toNat

/-- The JSON encoding of a payload that `json.Marshal` accepts. -/
def Payload.json : Payload → String
  | Payload.value _ json => json
  | Payload.unencodable _ _ => ""

/-- The rows a batch becomes when every insert succeeds: one row per event in input order,
numbered consecutively from `start`. -/
def insertedRows (start : Int) : List DomainEvent → List Row
  | [] => []
  | ev :: rest =>
    ⟨start, ev.uuid, ev.Name, ev.payload.json, ev.metadata, ev.createdAt⟩ ::
      insertedRows (start + 1) rest

/-- An event of aggregate `user`/`a1` with the given identifier and aggregate version. -/
def sampleEvent (uuid : String) (version : Int) : DomainEvent :=
  ⟨0, uuid, Payload.value "TestEvent" "{}",
    [("_aggregate_type", Value.str "user"), ("_aggregate_id", Value.str "a1"),
      ("_aggregate_version", Value.int version)], 0⟩

/-- The physical log of `foo-stream` holding one event of aggregate `user`/`a1`, version 1. -/
def conflictTable : Table :=
  ⟨GenerateTableName sampleDigest "foo-stream",
    [⟨1, "e1", "TestEvent", "{}", (sampleEvent "e1" 1).metadata, 0⟩], 2⟩

/-- A backend with the stream `foo-stream` and the log `conflictTable`. -/
def conflictDB : DB := ⟨["foo-stream"], [conflictTable]⟩

/-- Row materialisation of `appendRows` for one row, when it neither fails nor panics: the
scan succeeds, the type name is registered, the payload decodes without error and the
metadata document is an object. -/
def materialize (reg : TypeRegistry) (row : RawRow) : Option DomainEvent :=
  match row.scanErr, reg row.name, row.metastring with
  | none, some decode, some metadata =>
    match (decode row.payload).2 with
    | none =>
      some (assembleEvent row.number (FromStringOrNil row.eventID) (decode row.payload).1
        ((jsonUnmarshalMetadata metadata).set "stream" (Value.str row.stream)) row.createdAt)
    | some _ => none
  | _, _, _ => none

/-- The results of `n` successive calls of `Next`, and the cursor after them. -/
def NextN (db : Backend) (reg : TypeRegistry) :
    Nat → DomainEventIterator → DomainEventIterator × List (Ret Bool)
  | 0, it => (it, [])
  | n + 1, it =>
    ((NextN db reg n (Next db reg it).1).1, (Next db reg it).2 :: (NextN db reg n (Next db reg it).1).2)

/-- The page of a result list that `fetchEvents` asks for in the state `it`. -/
def pageOf {α : Type} (l : List α) (it : DomainEventIterator) : List α :=
  (l.drop it.offset.toNat).take (pageLimit it).toNat

/-- The state of a cursor over a query whose rows materialise to `evs`, with the first `L`
events fetched, between two calls of `Next`. -/
structure CursorInv (q : String) (params : List Value) (evs : List DomainEvent)
    (it : DomainEventIterator) (L : Nat) : Prop where
  query : it.query = q
  parameters : it.parameters = params
  limit : it.limit = 1000
  err : it.err = none
  length : it.length = L
  offset : it.offset = L
  le : L ≤ evs.length
  events : it.events = evs.take L
  low : -1 ≤ it.position
  high : it.position + 1 ≤ L
  done : it.done = true → L = evs.length

/-- A type resolver that knows `TestEvent` only. -/
def sampleRegistry : TypeRegistry :=
  fun n => if n = "TestEvent" then some (fun b => (Payload.value "TestEvent" b, none)) else none

/-- A result row of `foo-stream` with sequence number `n`. -/
def sampleRow (n : Int) : RawRow :=
  ⟨n, "6ba7b810-9dad-11d1-80b4-00c04fd430c8", "TestEvent", "{}", some [], 0, "foo-stream",
    none⟩

/-- The event `sampleRow n` materialises to. -/
def sampleLoaded (n : Int) : DomainEvent :=
  ⟨n, "6ba7b810-9dad-11d1-80b4-00c04fd430c8", Payload.value "TestEvent" "{}",
    [("stream", Value.str "foo-stream")], 0⟩

/-- The row the backend returns for a row of a stream's log, with the constant stream column
`'<streamName>' as stream` of the query. -/
def Row.toRaw (stream : String) (r : Row) : RawRow :=
  ⟨r.no, r.event_id, r.event_name, r.payload, some r.metadata, r.created_at, stream, none⟩

/-- The SQL meaning of the query `createQuery` builds from an empty matcher list, on a log:
`WHERE no >= ?`, `ORDER BY no ASC`, and the constant stream column. -/
def selectFrom (rows : List Row) (stream : String) (fromNumber : Int) : List RawRow :=
  ((rows.filter (fun r => fromNumber ≤ r.no)).insertionSort (fun a b => a.no ≤ b.no)).map
    (Row.toRaw stream)

/-- The events a reader of `stream` gets back for a batch appended to it when its first row
got the number `start`: each event with its sequence number, and with its metadata as
`json.Unmarshal` returns them (numbers as `float64`) and the stream name added under the key
`stream` (the last steps of row materialisation). -/
def loadedEvents (stream : String) (start : Int) : List DomainEvent → List DomainEvent
  | [] => []
  | ev :: rest =>
    { ev with
        number := start
        metadata := (jsonUnmarshalMetadata ev.metadata).set "stream" (Value.str stream) } ::
      loadedEvents stream (start + 1) rest

/-- A backend with the stream `foo-stream` in the catalog and its log just created. -/
def freshDB : DB := (CreateSchema sampleDigest Faults.none ⟨["foo-stream"], []⟩ "foo-stream").1

/-- An engine that answers the single-stream query of `foo-stream` on the backend `db`, and
rejects every other text. -/
def sampleEngine (db : DB) : Engine :=
  fun q parameters =>
    if q = "SELECT no, event_id, event_name, payload, metadata, created_at, 'foo-stream' " ++
        "as stream FROM " ++ GenerateTableName sampleDigest "foo-stream" ++
        " WHERE no >= ? ORDER BY no ASC" then
      match parameters with
      | [Value.int n] => Except.ok (selectFrom (db.log sampleDigest "foo-stream") "foo-stream" n)
      | _ => Except.error (Error.mysql 1210 "Incorrect arguments to mysqld_stmt_execute")
    else Except.error (Error.mysql 1064 "You have an error in your SQL syntax")

/-- An event of aggregate `user`/`a1`, version 1, whose metadata hold the integer
`2^53 + 1` under the key `big`. -/
def bigEvent : DomainEvent :=
  ⟨0, "6ba7b810-9dad-11d1-80b4-00c04fd430c8", Payload.value "TestEvent" "\x7b\x7d",
    [("_aggregate_type", Value.str "user"), ("_aggregate_id", Value.str "a1"),
      ("_aggregate_version", Value.int 1), ("big", Value.int 9007199254740993)], 0⟩

/-- A catalog with the two streams `foo-stream` and `bar-stream`. -/
def mergeDB : DB := ⟨["foo-stream", "bar-stream"], []⟩

/-- The statements a cursor with count 0 sends for its first `k` pages: `LIMIT 1000` at the
offsets 0, 1000, 2000, and so on. -/
def pagesIssued (q : String) (params : List Value) (k : Nat) : List PagedQuery :=
  (List.range k).map (fun i => ⟨q, 1000, 1000 * (i : Int), params⟩)

/-- A backend that fails every statement with `e`. -/
def failingBackend (e : Error) : Backend := fun _ _ => Except.error e

/-- A backend that fails the first statement a cursor sends with `e` and answers the later ones
from the fixed result `rows`. -/
def flakyBackend (e : Error) (rows : List RawRow) : Backend :=
  fun k p => if k = 0 then Except.error e else staticBackend rows k p

/-- A type resolver that knows `TestEvent` only, a type with one string field `foo`:
decoding a document whose `foo` is a number leaves the zero value and gives the error of
`json.Unmarshal`. -/
def strictRegistry : TypeRegistry :=
  fun n =>
    if n = "TestEvent" then
      some (fun b =>
        if b = "\x7b\"foo\":1\x7d" then
          (Payload.value "TestEvent" "\x7b\"foo\":\"\"\x7d",
            some (Error.json "json: cannot unmarshal number into Go struct field TestEvent.foo"))
        else (Payload.value "TestEvent" b, none))
    else none

/-- A result row whose payload does not decode into `TestEvent` under `strictRegistry`. -/
def undecodableRow (n : Int) : RawRow :=
  ⟨n, "6ba7b810-9dad-11d1-80b4-00c04fd430c8", "TestEvent", "\x7b\"foo\":1\x7d", some [], 0,
    "foo-stream", none⟩

/-- A backend over a result of two rows that fails the first statement a cursor sends. -/
def retryBackend : Backend :=
  flakyBackend (Error.conn "bad connection") [sampleRow 1, sampleRow 2]

/-- A result row whose event type name is not registered in `sampleRegistry`. -/
def unknownRow : RawRow :=
  ⟨1, "e", "UnknownEvent", "{}", some [], 0, "foo-stream", none⟩

/-- A result row on which `rows.Scan` fails. -/
def unscannableRow : RawRow :=
  ⟨0, "", "", "", none, 0, "", some (Error.conn "sql: Scan error on column index 0")⟩

/-- The state of a cursor with count 0 between two calls of `Next`, with the statements sent so
far: `k` pages of 1000 at the offsets 0, 1000, and so on; while the cursor is not done, all of
them were full. -/
structure PageInv (q : String) (params : List Value) (evs : List DomainEvent)
    (it : DomainEventIterator) (L k : Nat) : Prop where
  base : CursorInv q params evs it L
  count : it.count ≤ 0
  issued : it.issued = pagesIssued q params k
  full : it.done = false → L = 1000 * k
  last : it.done = true → k = evs.length / 1000 + 1

/-- The type `eventstore.Status` is a named string type. -/
abbrev Status := String

/-- Modelled from the spec: the constant `eventstore.StatusIdle`; its text is declared in the
`eventstore` package. -/
def StatusIdle : Status := "idle"

/-- A Go state value `interface{}` as the store observes it: either its JSON encoding or the
reason `json.Marshal` rejects it. -/
inductive StateValue where
  | encodable (json : String)
  | unencodable (reason : String)
  deriving DecidableEq, Repr

/-- Go `json.Marshal` of a projection state. -/
def jsonMarshalState : StateValue → Except Error String
  | StateValue.encodable json => Except.ok json
  | StateValue.unencodable reason => Except.error (Error.json reason)

/-- One row of the projection registry `projections` (the columns the code reads and writes).
The position document is represented by its key/value content, the state document by its
text. -/
structure ProjectionRow where
  name : String
  position : List (String × Int)
  state : String
  status : Status
  locked_until : Option String
  deriving DecidableEq, Repr

/-- The backend as the projection manager sees it: the rows of `projections`, and whether the
connection was opened with the client flag `CLIENT_FOUND_ROWS` (DSN parameter
`clientFoundRows`, off by default). With the flag, the affected-rows count of an `UPDATE` is
the number of rows matched by its `WHERE` clause; without it, MySQL counts the rows whose
values the statement actually changed. -/
structure ProjectionDB where
  rows : List ProjectionRow
  clientFoundRows : Bool
  deriving DecidableEq, Repr

/-- The value `sql.ErrNoRows` of `database/sql`. -/
def ErrNoRows : Error := Error.conn "sql: no rows in result set"

/-- The call `pm.db.ExecContext` with an `UPDATE projections SET .. WHERE name = ?`: the
registry after the statement and the Go result pair. The `sql.Result` is `nil` (`none`) when
the call fails, and otherwise carries the affected-rows count. -/
def execUpdate (f : Faults) (db : ProjectionDB) (name : String)
    (change : ProjectionRow → ProjectionRow) : ProjectionDB × Option Nat × Option Error :=
  match f.exec with
  | some (_, e) => (db, none, some e)
  | none =>
    let found := db.rows.filter (fun r => r.name = name)
    let changed := found.filter (fun r => change r ≠ r)
    ({ db with rows := db.rows.map (fun r => if r.name = name then change r else r) },
      some (if db.clientFoundRows then found.length else changed.length), none)

/-- The call `pm.db.ExecContext` with `DELETE FROM projections WHERE name = ?`. -/
def execDelete (f : Faults) (db : ProjectionDB) (name : String) :
    ProjectionDB × Option Nat × Option Error :=
  match f.exec with
  | some (_, e) => (db, none, some e)
  | none =>
    ({ db with rows := db.rows.filter (fun r => ¬ r.name = name) },
      some (db.rows.filter (fun r => r.name = name)).length, none)

/-- The common tail of the four mutating methods: `c, err := r.RowsAffected()` dereferences
the result, which panics when it is `nil`; the driver's `RowsAffected` returns no error, and
this `err` replaces the one of `ExecContext`. Then `if c == 0` gives `ProjectionNotFound`,
else `err` is returned. -/
def rowsAffectedTail (projectionName : String) (r : Option Nat) : Ret (Option Error) :=
  match r with
  | none => Ret.panicked
  | some c =>
    if c = 0 then Ret.returned (some (Error.ProjectionNotFound projectionName))
    else Ret.returned none

/-- The method `ProjectionManager.CreateProjection`; the `INSERT` is rejected when the unique
key `ix_name` already holds the name. -/
def CreateProjection (f : Faults) (db : ProjectionDB) (projectionName : String)
    (state : StateValue) (status : Status) : ProjectionDB × Option Error :=
  match jsonMarshalState state with
  | Except.error e => (db, some e)
  | Except.ok data =>
    match f.exec with
    | some (_, e) => (db, some e)
    | none =>
      if db.rows.any (fun r => r.name = projectionName) then
        (db, some (Error.mysql 1062 "Duplicate entry for key 'ix_name'"))
      else
        ({ db with rows := db.rows ++ [⟨projectionName, [], data, status, none⟩] }, none)

/-- The method `ProjectionManager.DeleteProjection`. -/
def DeleteProjection (f : Faults) (db : ProjectionDB) (projectionName : String) :
    ProjectionDB × Ret (Option Error) :=
  ((execDelete f db projectionName).1,
    rowsAffectedTail projectionName (execDelete f db projectionName).2.1)

/-- The method `ProjectionManager.ResetProjection`. -/
def ResetProjection (f : Faults) (db : ProjectionDB) (projectionName : String)
    (state : StateValue) : ProjectionDB × Ret (Option Error) :=
  match jsonMarshalState state with
  | Except.error e => (db, Ret.returned (some e))
  | Except.ok data =>
    ((execUpdate f db projectionName
        (fun r => { r with status := StatusIdle, state := data, position := [] })).1,
      rowsAffectedTail projectionName (execUpdate f db projectionName
        (fun r => { r with status := StatusIdle, state := data, position := [] })).2.1)

/-- The method `ProjectionManager.PersistProjection`; `json.Marshal` of a `map[string]int`
does not fail. -/
def PersistProjection (f : Faults) (db : ProjectionDB) (projectionName : String)
    (state : StateValue) (streamPositions : List (String × Int)) :
    ProjectionDB × Ret (Option Error) :=
  match jsonMarshalState state with
  | Except.error e => (db, Ret.returned (some e))
  | Except.ok data =>
    ((execUpdate f db projectionName
        (fun r => { r with status := StatusIdle, state := data, position := streamPositions })).1,
      rowsAffectedTail projectionName (execUpdate f db projectionName
        (fun r => { r with status := StatusIdle, state := data,
                           position := streamPositions })).2.1)

/-- The method `ProjectionManager.UpdateProjectionStatus`. -/
def UpdateProjectionStatus (f : Faults) (db : ProjectionDB) (projectionName : String)
    (status : Status) : ProjectionDB × Ret (Option Error) :=
  ((execUpdate f db projectionName (fun r => { r with status := status })).1,
    rowsAffectedTail projectionName
      (execUpdate f db projectionName (fun r => { r with status := status })).2.1)

/-- The method `ProjectionManager.LoadProjection`: position, decoded state (`none` is the
`nil` interface) and error. A scan error other than `sql.ErrNoRows` is returned with the
values the two `json.Unmarshal` calls leave untouched. -/
def LoadProjection (f : Faults) (db : ProjectionDB) (projectionName : String) :
    List (String × Int) × Option String × Option Error :=
  match f.query with
  | some e => ([], none, some e)
  | none =>
    match db.rows.find? (fun r => r.name = projectionName) with
    | none => ([], none, some (Error.ProjectionNotFound projectionName))
    | some r => (r.position, some r.state, none)

/-- The method `ProjectionManager.FetchProjectionStatus`. -/
def FetchProjectionStatus (f : Faults) (db : ProjectionDB) (projectionName : String) :
    Status × Option Error :=
  match f.query with
  | some e => ("", some e)
  | none =>
    match db.rows.find? (fun r => r.name = projectionName) with
    | none => ("", some ErrNoRows)
    | some r => (r.status, none)

/-- Outcome of a call that may panic or end the process with `log.Fatal`. -/
inductive Run (α : Type) where
  | returned (a : α)
  | panicked
  | exited
  deriving DecidableEq, Repr

/-- The method `PersistenceStrategy.RemoveStreamFromStreamsTable`: `log.Fatal` when the
statement cannot be prepared; `r.RowsAffected()` on the `nil` result of a failed
`ExecContext` panics. -/
def RemoveStreamFromStreamsTable (f : Faults) (db : DB) (streamName : String) :
    DB × Run (Option Error) :=
  match f.prepare with
  | some _ => (db, Run.exited)
  | none =>
    match f.exec with
    | some _ => (db, Run.panicked)
    | none =>
      if (db.streams.filter (fun s => s = streamName)).length = 0 then
        (db, Run.returned (some (Error.StreamNotFound streamName)))
      else
        ({ db with streams := db.streams.filter (fun s => ¬ s = streamName) }, Run.returned none)

/-- A registry holding the idle projection `p` with empty position and state `{}`, on a
connection opened with the default flags. -/
def idleRegistry : ProjectionDB := ⟨[⟨"p", [], "{}", StatusIdle, none⟩], false⟩

/-- The checkpoint of the repository's test: projection `p` at position `s: 5`. -/
def checkpointRegistry : ProjectionDB := ⟨[⟨"p", [("s", 5)], "{}", StatusIdle, none⟩], false⟩

/-- A text holds no parenthesis. -/
def parenFree (s : String) : Bool := s.toList.all (fun c => c ≠ '(' ∧ c ≠ ')')

/-- The matcher of the repository's test "Load from Stream with bool and integer
Metamatcher": metadata `integer <= 2` and metadata `bool = true`. -/
def integerBoolMatcher : MetadataMatcher :=
  [⟨"integer", FieldType.MetadataField, Value.int 2, "<="⟩,
    ⟨"bool", FieldType.MetadataField, Value.bool true, "="⟩]

/-! # Theorems -/

/-! ## Query builder -/

theorem placeholders_append (a b : String) :
    placeholders (a ++ b) = placeholders a + placeholders b := by
  simp [placeholders, String.toList, List.count_append]

theorem hexDigit_ne (n : Nat) (h : n < 16) : hexDigit n ≠ '?' := by
  interval_cases n <;> decide

theorem placeholders_hex (bytes : List Nat) : placeholders (hexEncodeToString bytes) = 0 := by
  unfold placeholders hexEncodeToString
  simp only [String.toList]
  rw [List.count_eq_zero]
  intro hmem
  simp only [List.mem_flatMap] at hmem
  obtain ⟨b, _, hb⟩ := hmem
  simp only [List.mem_cons, List.mem_singleton, List.not_mem_nil, or_false] at hb
  rcases hb with hb | hb
  · exact hexDigit_ne _ (by omega) hb.symm
  · exact hexDigit_ne _ (by omega) hb.symm

theorem placeholders_join (l : List String) (sep : String) (hsep : placeholders sep = 0) :
    placeholders (stringsJoin l sep) = (l.map placeholders).sum := by
  induction l with
  | nil => simp [stringsJoin]; decide
  | cons a rest ih =>
    cases rest with
    | nil => simp [stringsJoin]
    | cons b rest2 =>
      simp only [stringsJoin, placeholders_append, hsep, ih]
      simp

theorem whereStep_eq (acc : List String × List Value) (m : MetadataMatch) :
    whereStep acc m = (acc.1 ++ matchFragments m, acc.2 ++ matchValues m) := by
  unfold matchFragments matchValues whereStep whereMessageProperty whereMetadata
  cases hv : m.Value <;> by_cases h1 : m.FieldType = FieldType.MetadataField <;>
    by_cases h2 : m.FieldType = FieldType.MessagePropertyField <;> simp [h1, h2]

theorem foldl_whereStep (matcher : MetadataMatcher) (acc : List String × List Value) :
    matcher.foldl whereStep acc =
      (acc.1 ++ matcher.flatMap matchFragments, acc.2 ++ matcher.flatMap matchValues) := by
  induction matcher generalizing acc with
  | nil => simp
  | cons m rest ih =>
    rw [List.foldl_cons, ih, whereStep_eq]
    simp [List.flatMap_cons, List.append_assoc]

theorem createWhereClause_eq (matcher : MetadataMatcher) :
    createWhereClause matcher =
      (matcher.flatMap matchFragments, matcher.flatMap matchValues) := by
  unfold createWhereClause
  split
  · have : matcher = [] := List.length_eq_zero.mp (by assumption)
    subst this
    rfl
  · rw [foldl_whereStep]
    simp

theorem placeholders_expression_mark (op : MetadataOperator) (h : op ∈ knownOperators) :
    placeholders (expression op "?") = 1 := by
  simp only [knownOperators, List.mem_cons, List.mem_singleton, List.not_mem_nil, or_false] at h
  rcases h with h | h | h | h | h | h | h | h | h <;> subst h <;> decide

theorem placeholders_expression_bool (op : MetadataOperator) (h : op ∈ knownOperators)
    (b : Bool) : placeholders (expression op (FormatBool b)) = 0 := by
  simp only [knownOperators, List.mem_cons, List.mem_singleton, List.not_mem_nil, or_false] at h
  rcases h with h | h | h | h | h | h | h | h | h <;> subst h <;> cases b <;> decide

theorem matchValues_eq (m : MetadataMatch)
    (hdom : m.FieldType = FieldType.MetadataField ∨
      m.FieldType = FieldType.MessagePropertyField) :
    matchValues m = if m.Value.isBool then [] else [m.Value] := by
  unfold matchValues whereStep whereMessageProperty whereMetadata
  rcases hdom with h | h <;> cases hv : m.Value <;> simp [h, Value.isBool]

theorem matchFragments_placeholders (m : MetadataMatch)
    (hdom : m.FieldType = FieldType.MetadataField ∨
      m.FieldType = FieldType.MessagePropertyField)
    (hop : m.Operation ∈ knownOperators) (hfield : placeholders m.Field = 0) :
    ((matchFragments m).map placeholders).sum = (matchValues m).length := by
  have hq := placeholders_expression_mark m.Operation hop
  have hb := placeholders_expression_bool m.Operation hop
  have c1 : placeholders "metadata->\"$." = 0 := by decide
  have c2 : placeholders "JSON_UNQUOTE(metadata->>\"$." = 0 := by decide
  have c3 : placeholders "\" " = 0 := by decide
  have c4 : placeholders "%s %s" = 0 := by decide
  have c5 : placeholders " " = 0 := by decide
  unfold matchFragments matchValues whereStep whereMessageProperty whereMetadata
  rcases hdom with h | h <;> cases hv : m.Value <;>
    simp [h, placeholders_append, hq, hb, c1, c2, c3, c4, c5, hfield]

theorem sum_placeholders_flatMap (matcher : MetadataMatcher)
    (hdom : ∀ m ∈ matcher, m.FieldType = FieldType.MetadataField ∨
      m.FieldType = FieldType.MessagePropertyField)
    (hop : ∀ m ∈ matcher, m.Operation ∈ knownOperators)
    (hfield : ∀ m ∈ matcher, placeholders m.Field = 0) :
    ((matcher.flatMap matchFragments).map placeholders).sum =
      (matcher.flatMap matchValues).length := by
  induction matcher with
  | nil => simp
  | cons m rest ih =>
    simp only [List.flatMap_cons, List.map_append, List.sum_append, List.length_append]
    rw [matchFragments_placeholders m (hdom m (List.mem_cons_self _ _))
      (hop m (List.mem_cons_self _ _)) (hfield m (List.mem_cons_self _ _))]
    rw [ih (fun x hx => hdom x (List.mem_cons_of_mem _ hx))
      (fun x hx => hop x (List.mem_cons_of_mem _ hx))
      (fun x hx => hfield x (List.mem_cons_of_mem _ hx))]

theorem flatMap_matchValues (matcher : MetadataMatcher)
    (hdom : ∀ m ∈ matcher, m.FieldType = FieldType.MetadataField ∨
      m.FieldType = FieldType.MessagePropertyField) :
    matcher.flatMap matchValues =
      (matcher.filter (fun m => !m.Value.isBool)).map (fun m => m.Value) := by
  induction matcher with
  | nil => simp
  | cons m rest ih =>
    rw [List.flatMap_cons, ih (fun x hx => hdom x (List.mem_cons_of_mem _ hx)),
      matchValues_eq m (hdom m (List.mem_cons_self _ _))]
    cases hb : m.Value.isBool <;> simp [List.filter_cons, hb]

section Hash

variable (sha1 : String → List Nat)

theorem createQuery_ok (f : Faults) (db : DB) (streamName : String) (fromNumber : Int)
    (matcher : MetadataMatcher) (hp : f.prepare = none) (hq : f.query = none)
    (hex : streamName ∈ db.streams) :
    createQuery sha1 f db streamName fromNumber matcher =
      Except.ok
        ("SELECT no, event_id, event_name, payload, metadata, created_at, '" ++ streamName ++
          "' as stream FROM " ++ GenerateTableName sha1 streamName ++ " " ++
          ("WHERE " ++ stringsJoin ((createWhereClause matcher).1 ++ ["no >= ?"]) " AND ") ++
          " ORDER BY no ASC",
        (createWhereClause matcher).2 ++ [Value.int fromNumber]) := by
  have hc : ((db.streams.count streamName : Nat) : Int) ≠ 0 := by
    have := List.count_pos_iff.mpr hex
    omega
  simp [createQuery, countStream, hp, hq, hc]

theorem createQuery_absent (f : Faults) (db : DB) (streamName : String) (fromNumber : Int)
    (matcher : MetadataMatcher) (hp : f.prepare = none) (hq : f.query = none)
    (hex : streamName ∉ db.streams) :
    createQuery sha1 f db streamName fromNumber matcher =
      Except.error (Error.StreamNotFound streamName) := by
  have hc : db.streams.count streamName = 0 := List.count_eq_zero.mpr hex
  simp [createQuery, countStream, hp, hq, hc]

theorem mergeLoop_first_absent (f : Faults) (db : DB) (hp : f.prepare = none)
    (hq : f.query = none) (spec : LoadStreamParameter) (post : List LoadStreamParameter)
    (habs : spec.StreamName ∉ db.streams) :
    ∀ (pre : List LoadStreamParameter) (queries : List String) (parameters : List Value),
      (∀ s ∈ pre, s.StreamName ∈ db.streams) →
      mergeLoop sha1 f db (pre ++ spec :: post) queries parameters =
        Except.error (Error.StreamNotFound spec.StreamName) := by
  intro pre
  induction pre with
  | nil =>
    intro queries parameters _
    simp [mergeLoop, createQuery_absent sha1 f db _ _ _ hp hq habs]
  | cons s rest ih =>
    intro queries parameters hall
    have hs := hall s (List.mem_cons_self _ _)
    simp only [List.cons_append, mergeLoop, createQuery_ok sha1 f db _ _ _ hp hq hs]
    exact ih _ _ (fun x hx => hall x (List.mem_cons_of_mem _ hx))

/-- C5: when the catalog lookup is answered, a stream name without a catalog row makes
`createQuery` and `Load` return `StreamNotFound{Stream: name}` and no iterator, for every
`fromNumber`, count and matcher list; and `MergeAndLoad` returns `StreamNotFound` for the
first spec, in list order, whose stream has no catalog row. -/
theorem C5_unknown_stream_not_found (f : Faults) (db : DB) (name : String)
    (hp : f.prepare = none) (hq : f.query = none) (habs : name ∉ db.streams) :
    (∀ (fromNumber : Int) (matcher : MetadataMatcher),
      createQuery sha1 f db name fromNumber matcher =
        Except.error (Error.StreamNotFound name)) ∧
    (∀ (fromNumber count : Int) (matcher : MetadataMatcher),
      Load sha1 f db name fromNumber count matcher =
        Except.error (Error.StreamNotFound name)) ∧
    (∀ (count : Int) (pre post : List LoadStreamParameter) (spec : LoadStreamParameter),
      (∀ s ∈ pre, s.StreamName ∈ db.streams) → spec.StreamName = name →
      MergeAndLoad sha1 f db count (pre ++ spec :: post) =
        Ret.returned (Except.error (Error.StreamNotFound name))) := by
  refine ⟨fun fromNumber matcher => createQuery_absent sha1 f db _ _ _ hp hq habs, ?_, ?_⟩
  · intro fromNumber count matcher
    simp [Load, createQuery_absent sha1 f db _ _ _ hp hq habs]
  · intro count pre post spec hpre hname
    subst hname
    simp [MergeAndLoad, mergeLoop_first_absent sha1 f db hp hq spec post habs pre [] [] hpre]

/-- C6: for an existing stream and matchers in the metadata or message-property domain
(operators of the fixed set, no `?` in field names or stream name), `createQuery` returns a
query whose `WHERE` clause is the matcher fragments followed by the last conjunct `no >= ?`,
the parameter list is the values of the non-boolean matchers in matcher order followed by
`fromNumber`, the number of `?` in the query text equals the length of the parameter list, no
boolean is a parameter, and every boolean matcher has a fragment ending in its literal
`true`/`false`. -/
theorem C6_createQuery_placeholders_match_parameters (f : Faults) (db : DB)
    (streamName : String) (fromNumber : Int) (matcher : MetadataMatcher)
    (hp : f.prepare = none) (hq : f.query = none) (hex : streamName ∈ db.streams)
    (hdom : ∀ m ∈ matcher, m.FieldType = FieldType.MetadataField ∨
      m.FieldType = FieldType.MessagePropertyField)
    (hop : ∀ m ∈ matcher, m.Operation ∈ knownOperators)
    (hfield : ∀ m ∈ matcher, placeholders m.Field = 0)
    (hstream : placeholders streamName = 0) :
    ∃ (query : String) (values : List Value) (wheres : List String),
      createQuery sha1 f db streamName fromNumber matcher = Except.ok (query, values) ∧
      wheres = (createWhereClause matcher).1 ∧
      query =
        "SELECT no, event_id, event_name, payload, metadata, created_at, '" ++ streamName ++
          "' as stream FROM " ++ GenerateTableName sha1 streamName ++ " " ++
          ("WHERE " ++ stringsJoin (wheres ++ ["no >= ?"]) " AND ") ++ " ORDER BY no ASC" ∧
      (wheres ++ ["no >= ?"]).getLast? = some "no >= ?" ∧
      values =
        (matcher.filter (fun m => !m.Value.isBool)).map (fun m => m.Value) ++
          [Value.int fromNumber] ∧
      placeholders query = values.length ∧
      (∀ b, Value.bool b ∉ values) ∧
      (∀ m ∈ matcher, ∀ b, m.Value = Value.bool b →
        fieldExpression m ++ " " ++ expression m.Operation (FormatBool b) ∈ wheres) := by
  refine ⟨_, _, _, createQuery_ok sha1 f db streamName fromNumber matcher hp hq hex, rfl, rfl,
    by simp, ?_, ?_, ?_, ?_⟩
  · rw [createWhereClause_eq, flatMap_matchValues matcher hdom]
  · have c1 : placeholders
        "SELECT no, event_id, event_name, payload, metadata, created_at, '" = 0 := by decide
    have c2 : placeholders "' as stream FROM " = 0 := by decide
    have c3 : placeholders " " = 0 := by decide
    have c4 : placeholders "WHERE " = 0 := by decide
    have c5 : placeholders " ORDER BY no ASC" = 0 := by decide
    have c6 : placeholders " AND " = 0 := by decide
    have c7 : placeholders "_" = 0 := by decide
    have c8 : placeholders "no >= ?" = 1 := by decide
    simp only [placeholders_append, placeholders_join _ _ c6, GenerateTableName,
      placeholders_hex, c1, c2, c3, c4, c5, c7, hstream, List.map_append, List.sum_append,
      List.length_append, createWhereClause_eq,
      sum_placeholders_flatMap matcher hdom hop hfield]
    simp [c8]
  · intro b hb
    rw [createWhereClause_eq, flatMap_matchValues matcher hdom] at hb
    simp only [List.mem_append, List.mem_map, List.mem_filter, List.mem_singleton] at hb
    rcases hb with ⟨m, ⟨_, hnb⟩, hv⟩ | hb
    · rw [hv] at hnb
      simp [Value.isBool] at hnb
    · cases hb
  · intro m hm b hv
    rw [createWhereClause_eq, List.mem_flatMap]
    refine ⟨m, hm, ?_⟩
    unfold matchFragments whereStep whereMessageProperty whereMetadata fieldExpression
    rcases hdom m hm with h | h <;> simp [h, hv, String.append_assoc]

end Hash

/-- Witness for C6: the matcher list of the repository's test (integer `<=` 2 and bool `=`
true, both in the metadata domain) on the existing stream `foo-stream`. -/
theorem C6_createQuery_placeholders_match_parameters_witness :
    ∃ (query : String) (values : List Value),
      createQuery sampleDigest Faults.none ⟨["foo-stream"], []⟩ "foo-stream" 0
        [⟨"integer", FieldType.MetadataField, Value.int 2, "<="⟩,
          ⟨"bool", FieldType.MetadataField, Value.bool true, "="⟩] = Except.ok (query, values) ∧
      values = [Value.int 2, Value.int 0] ∧ placeholders query = values.length := by
  obtain ⟨query, values, wheres, h1, _, _, _, h5, h6, _, _⟩ :=
    C6_createQuery_placeholders_match_parameters sampleDigest Faults.none
      ⟨["foo-stream"], []⟩ "foo-stream" 0
      [⟨"integer", FieldType.MetadataField, Value.int 2, "<="⟩,
        ⟨"bool", FieldType.MetadataField, Value.bool true, "="⟩]
      rfl rfl (by decide) (by decide) (by decide) (by decide) (by decide)
  exact ⟨query, values, h1, by rw [h5]; decide, h6⟩

/-- Witness for C5: `bar-stream` is absent from a catalog that holds `foo-stream` only. -/
theorem C5_unknown_stream_not_found_witness :
    Load sampleDigest Faults.none ⟨["foo-stream"], []⟩ "bar-stream" 1 0 [] =
      Except.error (Error.StreamNotFound "bar-stream") :=
  (C5_unknown_stream_not_found sampleDigest Faults.none ⟨["foo-stream"], []⟩ "bar-stream"
    rfl rfl (by decide)).2.1 1 0 []

/-- C7 (evaluation at the failing input): one message-property matcher with a non-boolean
value makes `createWhereClause` return three fragments, the unformatted pattern `%s %s`, the
field and the operator with its placeholder, and none of them is `event_name = ?`; the
metadata matcher and the boolean message-property matcher give one fragment each. -/
theorem C7_message_property_matcher_gives_three_fragments :
    (createWhereClause
        [⟨"event_name", FieldType.MessagePropertyField, Value.str "TestEvent", "="⟩]).1 =
      ["%s %s", "event_name", "= ?"] ∧
    (createWhereClause
        [⟨"event_name", FieldType.MessagePropertyField, Value.str "TestEvent", "="⟩]).1.length
      ≠ 1 ∧
    "event_name = ?" ∉ (createWhereClause
        [⟨"event_name", FieldType.MessagePropertyField, Value.str "TestEvent", "="⟩]).1 ∧
    (createWhereClause
        [⟨"flag", FieldType.MessagePropertyField, Value.bool true, "="⟩]).1 = ["flag = true"] ∧
    (createWhereClause [⟨"integer", FieldType.MetadataField, Value.int 2, "<="⟩]).1 =
      ["JSON_UNQUOTE(metadata->>\"$.integer\" <= ?"] := by
  decide

/-! ## Append -/

theorem table?_setTable (db : DB) (t : Table) (name : String) :
    (db.setTable t).table? name =
      if t.name = name then (db.table? name).map (fun _ => t) else db.table? name := by
  unfold DB.setTable DB.table?
  simp only
  induction db.tables with
  | nil => simp
  | cons u rest ih =>
    by_cases hu : u.name = t.name
    · by_cases hn : t.name = name
      · simp [List.find?_cons, hu, hn]
      · have : ¬ u.name = name := by rw [hu]; exact hn
        simp only [List.map_cons, hu, if_true, List.find?_cons, hn, this, decide_False, ih, if_false]
    · by_cases hn : u.name = name
      · have : ¬ t.name = name := by rw [← hn]; exact fun h => hu h.symm
        have hu2 : ¬ name = t.name := fun h => this h.symm
        simp only [List.map_cons, hu, if_false, List.find?_cons, hn, decide_True, this, hu2]
      · simp only [List.map_cons, hu, if_false, List.find?_cons, hn, decide_False, ih]

theorem Table.insert_ok (t t1 : Table) (event_id event_name payload : String) (metadata : Metadata)
    (created_at : Nat) (h : t.insert event_id event_name payload metadata created_at = Except.ok t1) :
    t1 = { t with rows := t.rows ++ [⟨t.autoInc, event_id, event_name, payload, metadata, created_at⟩],
                  autoInc := t.autoInc + 1 } ∧
    (∀ r ∈ t.rows, r.event_id ≠ event_id) ∧
    (∃ key, generatedColumns metadata = some key) ∧
    (∀ r ∈ t.rows, generatedColumns r.metadata ≠ generatedColumns metadata) := by
  unfold Table.insert at h
  split at h
  · cases h
  · rename_i key hkey
    split at h
    · cases h
    · split at h
      · cases h
      · rename_i h1 h2
        simp only [List.any_eq_true, decide_eq_true_eq, not_exists, not_and] at h1 h2
        injection h with h
        exact ⟨h.symm, h1, ⟨key, hkey⟩, fun r hr => by rw [hkey]; exact h2 r hr⟩


theorem table?_name (db : DB) (name : String) (t : Table) (h : db.table? name = some t) :
    t.name = name := by
  have := List.find?_some h
  simpa using this

theorem prepareInsert_ok (f : Faults) (db : DB) (tableName : String) (t : Table)
    (h : prepareInsert f db tableName = Except.ok t) :
    db.table? tableName = some t ∧ t.name = tableName := by
  unfold prepareInsert at h
  split at h
  · cases h
  · split at h
    · cases h
    · rename_i t0 ht0
      injection h with h
      subst h
      exact ⟨ht0, table?_name db tableName _ ht0⟩

theorem execInsert_ok (f : Faults) (k : Nat) (t t1 : Table) (event_id event_name payload : String)
    (metadata : Metadata) (created_at : Nat)
    (h : execInsert f k t event_id event_name payload metadata created_at = Except.ok t1) :
    t.insert event_id event_name payload metadata created_at = Except.ok t1 ∧
      ∀ j e, f.exec = some (j, e) → j ≠ k := by
  unfold execInsert at h
  split at h
  · rename_i j e hje
    split at h
    · cases h
    · rename_i hne
      refine ⟨h, fun j2 e2 h2 => ?_⟩
      rw [hje] at h2
      injection h2 with h2
      injection h2 with h3 h4
      subst h3
      exact hne
  · rename_i hnone
    exact ⟨h, fun j e h2 => by rw [hnone] at h2; cases h2⟩

theorem jsonMarshalPayload_ok (p : Payload) (json : String)
    (h : jsonMarshalPayload p = Except.ok json) : json = p.json := by
  cases p <;> simp [jsonMarshalPayload, Payload.json] at h ⊢
  exact h.symm

theorem appendLoop_ok (f : Faults) :
    ∀ (evs : List DomainEvent) (t : Table) (k : Nat) (v : Table),
      appendLoop f t evs k = (v, none) →
      v = { t with rows := t.rows ++ insertedRows t.autoInc evs,
                   autoInc := t.autoInc + evs.length } ∧
      (∀ ev ∈ evs, ∃ json, jsonMarshalPayload ev.payload = Except.ok json) ∧
      (∀ ev ∈ evs, ∀ r ∈ t.rows, generatedColumns r.metadata ≠ generatedColumns ev.metadata) ∧
      evs.Pairwise (fun a b => generatedColumns a.metadata ≠ generatedColumns b.metadata) ∧
      (∀ j e, f.exec = some (j, e) → j < k ∨ k + evs.length ≤ j) := by
  intro evs
  induction evs with
  | nil =>
    intro t k v h
    simp only [appendLoop, Prod.mk.injEq, and_true] at h
    subst h
    refine ⟨by simp [insertedRows], by simp, by simp, List.Pairwise.nil, fun j e _ => by simp; omega⟩
  | cons ev rest ih =>
    intro t k v h
    unfold appendLoop at h
    split at h
    · cases h
    · rename_i payload hpay
      simp only [jsonMarshalMetadata] at h
      split at h
      · cases h
      · rename_i t1 hex
        obtain ⟨hins, hfault⟩ := execInsert_ok f k t t1 _ _ _ _ _ hex
        obtain ⟨ht1, _, _, hkey⟩ := Table.insert_ok t t1 _ _ _ _ _ hins
        obtain ⟨hv, henc, hold, hpw, hf2⟩ := ih t1 (k + 1) v h
        have hjson := jsonMarshalPayload_ok _ _ hpay
        refine ⟨?_, ?_, ?_, ?_, ?_⟩
        · rw [hv, ht1, hjson]
          simp [insertedRows, List.append_assoc]
          omega
        · intro e he
          rcases List.mem_cons.mp he with rfl | he
          · exact ⟨payload, hpay⟩
          · exact henc e he
        · intro e he r hr
          rcases List.mem_cons.mp he with rfl | he
          · exact hkey r hr
          · exact hold e he r (by rw [ht1]; simp [hr])
        · refine List.Pairwise.cons ?_ hpw
          intro e he
          have := hold e he ⟨t.autoInc, ev.uuid, ev.Name, payload, ev.metadata, ev.createdAt⟩
            (by rw [ht1]; simp)
          exact this
        · intro j e hje
          have h1 := hfault j e hje
          have h2 := hf2 j e hje
          simp only [List.length_cons]
          omega


theorem appendLoop_append (f : Faults) :
    ∀ (pre rest : List DomainEvent) (t : Table) (k : Nat) (view : Table),
      appendLoop f t pre k = (view, none) →
      appendLoop f t (pre ++ rest) k = appendLoop f view rest (k + pre.length) := by
  intro pre
  induction pre with
  | nil =>
    intro rest t k view h
    simp only [appendLoop, Prod.mk.injEq, and_true] at h
    subst h
    simp
  | cons ev pre2 ih =>
    intro rest t k view h
    simp only [List.cons_append, appendLoop, jsonMarshalMetadata] at h ⊢
    cases hpay : jsonMarshalPayload ev.payload with
    | error e => simp [hpay] at h
    | ok payload =>
      simp only [hpay] at h ⊢
      cases hex : execInsert f k t ev.uuid ev.Name payload ev.metadata ev.createdAt with
      | error e => simp [hex] at h
      | ok t1 =>
        simp only [hex] at h ⊢
        show appendLoop f t1 (pre2 ++ rest) (k + 1) = _
        rw [ih rest t1 (k + 1) view h]
        congr 1
        simp only [List.length_cons]
        omega

section Hash

variable (sha1 : String → List Nat)

theorem log_setTable (db : DB) (t0 t : Table) (tn : String) (h0 : db.table? tn = some t0)
    (hn : t.name = tn) (s : String) :
    (db.setTable t).log sha1 s =
      if GenerateTableName sha1 s = tn then t.rows else db.log sha1 s := by
  unfold DB.log
  rw [table?_setTable]
  by_cases h : GenerateTableName sha1 s = tn
  · simp [h, hn, h0]
  · have : ¬ t.name = GenerateTableName sha1 s := by rw [hn]; exact fun h2 => h h2.symm
    simp [h, this]

theorem log_rollback (db : DB) (t view : Table) (tn : String) (h0 : db.table? tn = some t)
    (s : String) : (db.rollback t view).log sha1 s = db.log sha1 s := by
  unfold DB.rollback
  rw [log_setTable sha1 db t { t with autoInc := view.autoInc } tn h0 (table?_name db tn t h0)]
  by_cases h : GenerateTableName sha1 s = tn
  · simp [h, DB.log, h0]
  · simp [h]

theorem AppendTo_error (f : Faults) (db : DB) (streamName : String) (events : List DomainEvent)
    (e : Error) (h : (AppendTo sha1 f db streamName events).2 = some e) :
    (AppendTo sha1 f db streamName events).1 = db ∨
      ∃ t view, db.table? (GenerateTableName sha1 streamName) = some t ∧
        (AppendTo sha1 f db streamName events).1 = db.rollback t view := by
  unfold AppendTo at h ⊢
  simp only at h ⊢
  cases hb : f.begin with
  | some e1 => simp only [hb]; exact Or.inl trivial
  | none =>
    simp only [hb] at h ⊢
    cases hprep : prepareInsert f db (GenerateTableName sha1 streamName) with
    | error e1 => simp only [hprep]; exact Or.inl trivial
    | ok t =>
      simp only [hprep] at h ⊢
      have ht0 := (prepareInsert_ok f db _ t hprep).1
      cases hloop : appendLoop f t events 0 with
      | mk view oe =>
        cases oe with
        | some e1 => simp only [hloop]; exact Or.inr ⟨t, view, ht0, rfl⟩
        | none =>
          simp only [hloop] at h ⊢
          cases hc : f.commit with
          | some e1 => simp only [hc]; exact Or.inr ⟨t, view, ht0, rfl⟩
          | none => simp [hc] at h

theorem AppendTo_success (f : Faults) (db : DB) (streamName : String)
    (events : List DomainEvent) (h : (AppendTo sha1 f db streamName events).2 = none) :
    ∃ t view, db.table? (GenerateTableName sha1 streamName) = some t ∧
      appendLoop f t events 0 = (view, none) ∧
      (AppendTo sha1 f db streamName events).1 = db.setTable view := by
  unfold AppendTo at h ⊢
  simp only at h ⊢
  cases hb : f.begin with
  | some e1 => simp [hb] at h
  | none =>
    simp only [hb] at h ⊢
    cases hprep : prepareInsert f db (GenerateTableName sha1 streamName) with
    | error e1 => simp [hprep] at h
    | ok t =>
      simp only [hprep] at h ⊢
      have ht0 := (prepareInsert_ok f db _ t hprep).1
      cases hloop : appendLoop f t events 0 with
      | mk view oe =>
        cases oe with
        | some e1 => simp [hloop] at h
        | none =>
          simp only [hloop] at h ⊢
          cases hc : f.commit with
          | some e1 => simp [hc] at h
          | none => exact ⟨t, view, ht0, hloop, rfl⟩

/-- C2: `AppendTo` is all-or-nothing. If it returns an error, the log of every stream is what
it was before the call. If it returns `nil`, the stream's log is the old log followed by one
row per event of the batch, in input order. It returns an error whenever an event of the
batch cannot be marshalled, has the (aggregate type, id, version) of a row of the log or of
another event of the batch, or has its insert failed by the backend. -/
theorem C2_appendTo_all_or_nothing (f : Faults) (db : DB) (streamName : String)
    (events : List DomainEvent) :
    (∀ e, (AppendTo sha1 f db streamName events).2 = some e →
      ∀ s, (AppendTo sha1 f db streamName events).1.log sha1 s = db.log sha1 s) ∧
    ((AppendTo sha1 f db streamName events).2 = none →
      ∃ start, (AppendTo sha1 f db streamName events).1.log sha1 streamName =
        db.log sha1 streamName ++ insertedRows start events) ∧
    (∀ ev ∈ events, (∃ e, jsonMarshalPayload ev.payload = Except.error e) →
      (AppendTo sha1 f db streamName events).2 ≠ none) ∧
    (∀ ev ∈ events, ∀ row ∈ db.log sha1 streamName,
      generatedColumns row.metadata = generatedColumns ev.metadata →
      (AppendTo sha1 f db streamName events).2 ≠ none) ∧
    (∀ a b, List.Sublist [a, b] events →
      generatedColumns a.metadata = generatedColumns b.metadata →
      (AppendTo sha1 f db streamName events).2 ≠ none) ∧
    (∀ j e, f.exec = some (j, e) → j < events.length →
      (AppendTo sha1 f db streamName events).2 ≠ none) := by
  refine ⟨?_, ?_, ?_, ?_, ?_, ?_⟩
  · intro e he s
    rcases AppendTo_error sha1 f db streamName events e he with h | ⟨t, view, ht, h⟩
    · rw [h]
    · rw [h, log_rollback sha1 db t view _ ht]
  · intro h
    obtain ⟨t, view, ht, hloop, hdb⟩ := AppendTo_success sha1 f db streamName events h
    obtain ⟨hv, _⟩ := appendLoop_ok f events t 0 view hloop
    refine ⟨t.autoInc, ?_⟩
    rw [hdb, log_setTable sha1 db t view _ ht (by rw [hv]; exact table?_name db _ t ht)]
    simp [DB.log, ht, hv]
  · intro ev hev ⟨e, hfail⟩ h
    obtain ⟨t, view, _, hloop, _⟩ := AppendTo_success sha1 f db streamName events h
    obtain ⟨_, henc, _⟩ := appendLoop_ok f events t 0 view hloop
    obtain ⟨json, hj⟩ := henc ev hev
    rw [hj] at hfail
    cases hfail
  · intro ev hev row hrow hkey h
    obtain ⟨t, view, ht, hloop, _⟩ := AppendTo_success sha1 f db streamName events h
    obtain ⟨_, _, hold, _⟩ := appendLoop_ok f events t 0 view hloop
    simp only [DB.log, ht] at hrow
    exact hold ev hev row hrow hkey
  · intro a b hsub hkey h
    obtain ⟨t, view, _, hloop, _⟩ := AppendTo_success sha1 f db streamName events h
    obtain ⟨_, _, _, hpw, _⟩ := appendLoop_ok f events t 0 view hloop
    have := List.pairwise_iff_forall_sublist.mp hpw hsub
    exact this hkey
  · intro j e hje hj h
    obtain ⟨t, view, _, hloop, _⟩ := AppendTo_success sha1 f db streamName events h
    obtain ⟨_, _, _, _, hf⟩ := appendLoop_ok f events t 0 view hloop
    have := hf j e hje
    omega

/-- C4 (amended): when the insert of an event is rejected because a row with the same
(aggregate type, aggregate id, aggregate version) is already in the stream (in the log or
earlier in the batch), `AppendTo` returns the backend's own duplicate-key error of that
insert, unchanged, and no `ConcurrencyConflict`; the stream's log is what it was. -/
theorem C4_duplicate_version_returns_backend_error (db : DB) (streamName : String)
    (t view : Table) (pre post : List DomainEvent) (ev : DomainEvent)
    (key : String × String × Int)
    (ht : db.table? (GenerateTableName sha1 streamName) = some t)
    (hpre : appendLoop Faults.none t pre 0 = (view, none))
    (henc : ∃ json, jsonMarshalPayload ev.payload = Except.ok json)
    (hid : ∀ r ∈ view.rows, r.event_id ≠ ev.uuid)
    (hkey : generatedColumns ev.metadata = some key)
    (hdup : ∃ r ∈ view.rows, generatedColumns r.metadata = some key) :
    (AppendTo sha1 Faults.none db streamName (pre ++ ev :: post)).2 =
        some (Error.mysql 1062 "Duplicate entry for key 'ix_unique_event'") ∧
    (∀ a i v, (AppendTo sha1 Faults.none db streamName (pre ++ ev :: post)).2 ≠
        some (Error.ConcurrencyConflict a i v)) ∧
    (AppendTo sha1 Faults.none db streamName (pre ++ ev :: post)).1.log sha1 streamName =
        db.log sha1 streamName := by
  obtain ⟨json, hjson⟩ := henc
  have hins : view.insert ev.uuid ev.Name json ev.metadata ev.createdAt =
      Except.error (Error.mysql 1062 "Duplicate entry for key 'ix_unique_event'") := by
    unfold Table.insert
    have h1 : (view.rows.any fun r => decide (r.event_id = ev.uuid)) = false := by
      simp only [List.any_eq_false, decide_eq_true_eq]
      exact hid
    have h2 : (view.rows.any fun r => decide (generatedColumns r.metadata = some key)) = true := by
      simp only [List.any_eq_true, decide_eq_true_eq]
      exact hdup
    simp [hkey, h1, h2]
  have hloop : appendLoop Faults.none t (pre ++ ev :: post) 0 =
      (view, some (Error.mysql 1062 "Duplicate entry for key 'ix_unique_event'")) := by
    rw [appendLoop_append Faults.none pre (ev :: post) t 0 view hpre]
    simp [appendLoop, hjson, jsonMarshalMetadata, execInsert, Faults.none, hins]
  have hres : AppendTo sha1 Faults.none db streamName (pre ++ ev :: post) =
      (db.rollback t view, some (Error.mysql 1062 "Duplicate entry for key 'ix_unique_event'")) := by
    have hb : Faults.none.begin = none := rfl
    have hp : Faults.none.prepare = none := rfl
    simp only [AppendTo, prepareInsert, hb, hp, ht, hloop]
  rw [hres]
  exact ⟨rfl, fun a i v h => by simp at h, log_rollback sha1 db t view _ ht _⟩

end Hash

/-- C3 (evaluation at the failing input): with no catalog row and no physical table for
`bar-stream`, `AppendTo` returns the backend's error 1146 of `PrepareContext`, not
`StreamNotFound`; with no catalog row but the physical table of `bar-stream` created by
`CreateSchema`, `AppendTo` returns `nil` and writes the row. `AppendTo` never reads the
catalog. -/
theorem C3_appendTo_does_not_check_catalog :
    AppendTo sampleDigest Faults.none ⟨[], []⟩ "bar-stream" [sampleEvent "e1" 1] =
      (⟨[], []⟩, some (Error.mysql 1146 "Table doesn't exist")) ∧
    (AppendTo sampleDigest Faults.none ⟨[], []⟩ "bar-stream" [sampleEvent "e1" 1]).2 ≠
      some (Error.StreamNotFound "bar-stream") ∧
    (CreateSchema sampleDigest Faults.none ⟨[], []⟩ "bar-stream").2 = none ∧
    (AppendTo sampleDigest Faults.none
        (CreateSchema sampleDigest Faults.none ⟨[], []⟩ "bar-stream").1 "bar-stream"
        [sampleEvent "e1" 1]).2 = none ∧
    ((AppendTo sampleDigest Faults.none
        (CreateSchema sampleDigest Faults.none ⟨[], []⟩ "bar-stream").1 "bar-stream"
        [sampleEvent "e1" 1]).1.log sampleDigest "bar-stream").length = 1 := by
  decide

/-- C4 (counterexample): appending a second event of aggregate `user`/`a1` at version 1 to a
stream that holds one returns the backend's error 1062, which is not the
`ConcurrencyConflict` of that aggregate type, id and version. -/
theorem C4_duplicate_version_is_not_concurrency_conflict :
    AppendTo sampleDigest Faults.none conflictDB "foo-stream" [sampleEvent "e2" 1] =
      (conflictDB, some (Error.mysql 1062 "Duplicate entry for key 'ix_unique_event'")) ∧
    (AppendTo sampleDigest Faults.none conflictDB "foo-stream" [sampleEvent "e2" 1]).2 ≠
      some (Error.ConcurrencyConflict "user" "a1" 1) := by
  decide

/-- Witness for C4 (amended): the second event of aggregate `user`/`a1` at version 1. -/
theorem C4_duplicate_version_returns_backend_error_witness :
    conflictDB.table? (GenerateTableName sampleDigest "foo-stream") = some conflictTable ∧
    (AppendTo sampleDigest Faults.none conflictDB "foo-stream"
        ([] ++ sampleEvent "e2" 1 :: [])).2 =
      some (Error.mysql 1062 "Duplicate entry for key 'ix_unique_event'") :=
  ⟨by decide,
    (C4_duplicate_version_returns_backend_error sampleDigest conflictDB "foo-stream"
      conflictTable conflictTable [] [] (sampleEvent "e2" 1) ("user", "a1", 1)
      (by decide) (by decide) ⟨"{}", rfl⟩ (by decide) (by decide) (by decide)).1⟩

/-! ## Cursor -/

theorem materialize_some (reg : TypeRegistry) (row : RawRow) (e : DomainEvent)
    (h : materialize reg row = some e) :
    row.scanErr = none ∧ ∃ decode metadata, reg row.name = some decode ∧
      row.metastring = some metadata ∧ (decode row.payload).2 = none ∧
      e = assembleEvent row.number (FromStringOrNil row.eventID) (decode row.payload).1
        ((jsonUnmarshalMetadata metadata).set "stream" (Value.str row.stream))
        row.createdAt := by
  unfold materialize at h
  split at h
  · rename_i decode metadata h1 h2 h3
    split at h
    · rename_i h4
      injection h with h
      exact ⟨h1, decode, metadata, h2, h3, h4, h.symm⟩
    · cases h
  · cases h

theorem appendRows_clean (reg : TypeRegistry) :
    ∀ (rows : List RawRow) (evs : List DomainEvent) (it : DomainEventIterator) (c : Int),
      rows.map (materialize reg) = evs.map some → it.err = none →
      appendRows reg it rows c =
        ({ it with events := it.events ++ evs }, Ret.returned (c + rows.length)) := by
  intro rows
  induction rows with
  | nil =>
    intro evs it c h herr
    cases evs with
    | nil => cases it; simp [appendRows]
    | cons e es => simp at h
  | cons r rs ih =>
    intro evs it c h herr
    cases evs with
    | nil => simp at h
    | cons e es =>
      simp only [List.map_cons, List.cons.injEq] at h
      obtain ⟨hr, hrs⟩ := h
      obtain ⟨h1, decode, metadata, h2, h3, h4, h5⟩ := materialize_some reg r e hr
      unfold appendRows
      simp only [h1, h2, h3, h4]
      rw [ih es _ (c + 1) hrs rfl]
      cases it
      subst h5
      simp only at herr
      subst herr
      simp [List.append_assoc]
      omega

theorem pageOf_clean (reg : TypeRegistry) (rows : List RawRow) (evs : List DomainEvent)
    (hclean : rows.map (materialize reg) = evs.map some) (it : DomainEventIterator) :
    (pageOf rows it).map (materialize reg) = (pageOf evs it).map some := by
  unfold pageOf
  rw [List.map_take, List.map_drop, hclean, ← List.map_drop, ← List.map_take]

theorem pageOf_length (reg : TypeRegistry) (rows : List RawRow) (evs : List DomainEvent)
    (hclean : rows.map (materialize reg) = evs.map some) (it : DomainEventIterator) :
    (pageOf rows it).length = (pageOf evs it).length := by
  have := congrArg List.length (pageOf_clean reg rows evs hclean it)
  simpa using this

theorem fetchEvents_clean (bk : Backend) (reg : TypeRegistry) (q : String)
    (params : List Value) (rows : List RawRow) (evs : List DomainEvent)
    (hbk : ∀ k l o, bk k ⟨q, l, o, params⟩ = Except.ok ((rows.drop o.toNat).take l.toNat))
    (hclean : rows.map (materialize reg) = evs.map some)
    (it : DomainEventIterator) (hq : it.query = q) (hp : it.parameters = params)
    (herr : it.err = none) (hdone : it.done = false) :
    fetchEvents bk reg it =
      ({ it with
          issued := it.issued ++ [⟨q, pageLimit it, it.offset, params⟩]
          events := it.events ++ pageOf evs it
          done := decide (((pageOf evs it).length : Int) < pageLimit it)
          count := it.count - (pageOf evs it).length
          offset := it.offset + (pageOf evs it).length
          length := it.length + (pageOf evs it).length }, Ret.returned ()) := by
  subst hq hp
  have hpage := pageOf_clean reg rows evs hclean it
  have hlen := pageOf_length reg rows evs hclean it
  obtain ⟨limit, offset, count, position, length, done, err, current, events, query,
    parameters, issued⟩ := it
  simp only at herr hdone hbk
  subst herr hdone
  have happ := appendRows_clean reg
    (pageOf rows ⟨limit, offset, count, position, length, false, none, current, events, query,
      parameters, issued⟩)
    (pageOf evs ⟨limit, offset, count, position, length, false, none, current, events, query,
      parameters, issued⟩)
    ⟨limit, offset, count, position, length, false, none, current, events, query,
      parameters, issued ++ [⟨query, pageLimit ⟨limit, offset, count, position, length, false,
        none, current, events, query, parameters, issued⟩, offset, parameters⟩]⟩
    0 hpage rfl
  simp only [pageOf, pageLimit, zero_add] at happ hlen ⊢
  simp only [fetchEvents, pageLimit, Bool.false_eq_true, if_false, hbk, happ, hlen]
  simp

theorem pageLimit_pos (it : DomainEventIterator) (h : it.limit = 1000) : 0 < pageLimit it := by
  unfold pageLimit
  split
  · omega
  · omega

theorem take_append_page {α : Type} (l : List α) (L m : Nat) :
    l.take L ++ (l.drop L).take m = l.take (L + ((l.drop L).take m).length) := by
  rw [← List.take_add, List.take_eq_take]
  simp only [List.length_take, List.length_drop]
  omega

theorem index_take (evs : List DomainEvent) (L : Nat) (p : Int) (h0 : 0 ≤ p) (h1 : p < L)
    (h2 : L ≤ evs.length) :
    ∃ e, index (evs.take L) p = some e ∧ evs.get? p.toNat = some e := by
  have hn : p.toNat < L := by omega
  have hlt : p.toNat < evs.length := by omega
  refine ⟨evs[p.toNat], ?_, ?_⟩
  · unfold index
    rw [if_neg (by omega), List.get?_eq_getElem?, List.getElem?_take_of_lt hn,
      List.getElem?_eq_getElem hlt]
  · rw [List.get?_eq_getElem?, List.getElem?_eq_getElem hlt]

theorem Next_step (bk : Backend) (reg : TypeRegistry) (q : String)
    (params : List Value) (rows : List RawRow) (evs : List DomainEvent)
    (hbk : ∀ k l o, bk k ⟨q, l, o, params⟩ = Except.ok ((rows.drop o.toNat).take l.toNat))
    (hclean : rows.map (materialize reg) = evs.map some)
    (it : DomainEventIterator) (L : Nat) (hinv : CursorInv q params evs it L) :
    (it.position + 1 < evs.length →
      ∃ it1 L1 e, Next bk reg it = (it1, Ret.returned true) ∧ CursorInv q params evs it1 L1 ∧
        it1.position = it.position + 1 ∧ it1.current = some e ∧
        evs.get? (it.position + 1).toNat = some e) ∧
    ((evs.length : Int) ≤ it.position + 1 →
      ∃ it1, Next bk reg it = (it1, Ret.returned false)) := by
  obtain ⟨hq, hp, hlim, herr, hlen, hoff, hle, hev, hlow, hhigh, hdone⟩ := hinv
  by_cases hbuf : it.position + 1 + 1 ≤ it.length
  · -- the next event is buffered
    obtain ⟨e, he1, he2⟩ := index_take evs L (it.position + 1) (by omega) (by omega) hle
    have hnext : Next bk reg it =
        ({ it with position := it.position + 1, current := some e }, Ret.returned true) := by
      unfold Next
      simp only [ge_iff_le, hbuf, if_true, positionOn, hev, he1]
    refine ⟨fun _ => ⟨_, L, e, hnext, ⟨hq, hp, hlim, herr, hlen, hoff, hle, hev, ?_, ?_, hdone⟩,
      rfl, rfl, he2⟩, fun h => ?_⟩
    · show -1 ≤ it.position + 1
      omega
    · show it.position + 1 + 1 ≤ L
      omega
    · omega
  · by_cases hd : it.done = true
    · -- nothing buffered, cursor done
      have hL := hdone hd
      have hfetch : fetchEvents bk reg { it with position := it.position + 1 } =
          ({ it with position := it.position + 1 }, Ret.returned ()) := by
        unfold fetchEvents
        simp [hd]
      have hnext : Next bk reg it =
          (Close { it with position := it.position + 1 }, Ret.returned false) := by
        unfold Next
        simp only [ge_iff_le, hbuf, if_false, hfetch]
      exact ⟨fun h => by omega, fun _ => ⟨_, hnext⟩⟩
    · -- nothing buffered, one more page is fetched
      have hd2 : it.done = false := by simpa using hd
      have hfetch := fetchEvents_clean bk reg q params rows evs hbk hclean
        { it with position := it.position + 1 } hq hp herr hd2
      have hpos := pageLimit_pos { it with position := it.position + 1 } hlim
      have hpl : pageLimit { it with position := it.position + 1 } = pageLimit it := rfl
      have hpage : pageOf evs { it with position := it.position + 1 } =
          (evs.drop L).take (pageLimit it).toNat := by
        unfold pageOf
        rw [hpl]
        simp only [hoff, Int.toNat_ofNat]
      rw [hpl] at hpos
      rw [hpage, hpl] at hfetch
      have hclen : ((evs.drop L).take (pageLimit it).toNat).length =
          min (pageLimit it).toNat (evs.length - L) := by simp
      by_cases hc : ((evs.drop L).take (pageLimit it).toNat).length = 0
      · -- the page is empty
        have hnext : ∃ it1, Next bk reg it = (it1, Ret.returned false) := by
          unfold Next
          simp only [ge_iff_le, hbuf, if_false, hfetch, hc, Nat.cast_zero, add_zero]
          exact ⟨_, rfl⟩
        refine ⟨fun h => ?_, fun _ => hnext⟩
        rw [hclen] at hc
        omega
      · -- the page holds the next event
        have hcpos : 0 < ((evs.drop L).take (pageLimit it).toNat).length := Nat.pos_of_ne_zero hc
        have hL1 : L + ((evs.drop L).take (pageLimit it).toNat).length ≤ evs.length := by
          rw [hclen]; omega
        obtain ⟨e, he1, he2⟩ := index_take evs
          (L + ((evs.drop L).take (pageLimit it).toNat).length) (it.position + 1)
          (by omega) (by push_cast; omega) hL1
        have hbuf2 : it.position + 1 + 1 ≤
            it.length + (((evs.drop L).take (pageLimit it).toNat).length : Int) := by omega
        have hnext : Next bk reg it =
            ({ it with
                position := it.position + 1
                issued := it.issued ++ [⟨q, pageLimit it, it.offset, params⟩]
                events := it.events ++ (evs.drop L).take (pageLimit it).toNat
                done := decide ((((evs.drop L).take (pageLimit it).toNat).length : Int)
                  < pageLimit it)
                count := it.count - ((evs.drop L).take (pageLimit it).toNat).length
                offset := it.offset + ((evs.drop L).take (pageLimit it).toNat).length
                length := it.length + ((evs.drop L).take (pageLimit it).toNat).length
                current := some e }, Ret.returned true) := by
          unfold Next
          simp only [ge_iff_le, hbuf, if_false, hfetch]
          simp only [hbuf2, if_true, positionOn, hev, take_append_page, he1]
        refine ⟨fun _ => ⟨_, L + ((evs.drop L).take (pageLimit it).toNat).length, e, hnext,
          ⟨hq, hp, hlim, herr, ?_, ?_, hL1, ?_, ?_, ?_, ?_⟩, rfl, rfl, he2⟩, fun h => ?_⟩
        · show it.length + _ = _
          rw [hlen]; push_cast; rfl
        · show it.offset + _ = _
          rw [hoff]; push_cast; rfl
        · show it.events ++ _ = _
          rw [hev, take_append_page]
        · show -1 ≤ it.position + 1
          omega
        · show it.position + 1 + 1 ≤ _
          push_cast; omega
        · intro hdn
          have hlt : (((evs.drop L).take (pageLimit it).toNat).length : Int) < pageLimit it := by
            simpa using hdn
          rw [hclen] at hlt ⊢
          omega
        · rw [hclen] at hcpos
          omega

theorem ToListLoop_drain (bk : Backend) (reg : TypeRegistry) (q : String)
    (params : List Value) (rows : List RawRow) (evs : List DomainEvent)
    (hbk : ∀ k l o, bk k ⟨q, l, o, params⟩ = Except.ok ((rows.drop o.toNat).take l.toNat))
    (hclean : rows.map (materialize reg) = evs.map some) :
    ∀ (n : Nat) (it : DomainEventIterator) (L : Nat) (list : List DomainEvent) (fuel : Nat),
      CursorInv q params evs it L → evs.length - (it.position + 1).toNat = n → n < fuel →
      ∃ it1, ToListLoop bk reg fuel it list =
        some (it1, Ret.returned (list ++ evs.drop (it.position + 1).toNat, none)) := by
  intro n
  induction n with
  | zero =>
    intro it L list fuel hinv hn hfuel
    obtain ⟨f, rfl⟩ : ∃ f, fuel = f + 1 := ⟨fuel - 1, by omega⟩
    have hlow := hinv.low
    obtain ⟨it1, hnext⟩ := (Next_step bk reg q params rows evs hbk hclean it L hinv).2 (by omega)
    refine ⟨it1, ?_⟩
    rw [List.drop_eq_nil_of_le (by omega)]
    simp [ToListLoop, hnext]
  | succ m ih =>
    intro it L list fuel hinv hn hfuel
    obtain ⟨f, rfl⟩ : ∃ f, fuel = f + 1 := ⟨fuel - 1, by omega⟩
    have hlow := hinv.low
    obtain ⟨it1, L1, e, hnext, hinv1, hpos1, hcur1, hget⟩ :=
      (Next_step bk reg q params rows evs hbk hclean it L hinv).1 (by omega)
    have hlt : (it.position + 1).toNat < evs.length := by omega
    rw [List.get?_eq_getElem?, List.getElem?_eq_getElem hlt] at hget
    injection hget with hget
    obtain ⟨it2, h2⟩ := ih it1 L1 (list ++ [e]) f hinv1 (by rw [hpos1]; omega) (by omega)
    refine ⟨it2, ?_⟩
    have hdrop : evs.drop (it.position + 1).toNat =
        e :: evs.drop (it1.position + 1).toNat := by
      rw [List.drop_eq_getElem_cons hlt, hget, hpos1]
      congr 2
      omega
    rw [hdrop]
    simp only [ToListLoop, hnext, hinv1.err, hcur1, h2, List.append_assoc, List.singleton_append]

theorem ToList_drain (bk : Backend) (reg : TypeRegistry) (q : String)
    (params : List Value) (rows : List RawRow) (evs : List DomainEvent)
    (hbk : ∀ k l o, bk k ⟨q, l, o, params⟩ = Except.ok ((rows.drop o.toNat).take l.toNat))
    (hclean : rows.map (materialize reg) = evs.map some) (count : Int) (fuel : Nat)
    (hfuel : evs.length < fuel) :
    ∃ it1, ToList bk reg fuel (NewDomainEventIterator q params count) =
      some (it1, Ret.returned (evs, none)) := by
  have hinv : CursorInv q params evs (NewDomainEventIterator q params count) 0 :=
    ⟨rfl, rfl, rfl, rfl, rfl, rfl, Nat.zero_le _, rfl, by simp [NewDomainEventIterator],
      by simp [NewDomainEventIterator], by intro h; cases h⟩
  obtain ⟨it1, h⟩ := ToListLoop_drain bk reg q params rows evs hbk hclean evs.length
    (NewDomainEventIterator q params count) 0 [] fuel hinv (by simp [NewDomainEventIterator])
    hfuel
  refine ⟨it1, ?_⟩
  unfold ToList
  rw [h]
  simp [NewDomainEventIterator]

theorem appendRows_frame (reg : TypeRegistry) :
    ∀ (rows : List RawRow) (it : DomainEventIterator) (c : Int) (it1 : DomainEventIterator)
      (r : Ret Int), appendRows reg it rows c = (it1, r) →
      it1.done = it.done ∧ it1.issued = it.issued := by
  intro rows
  induction rows with
  | nil =>
    intro it c it1 r h
    simp only [appendRows, Prod.mk.injEq] at h
    rw [← h.1]
    exact ⟨rfl, rfl⟩
  | cons row rs ih =>
    intro it c it1 r h
    unfold appendRows at h
    split at h
    · simp only [Prod.mk.injEq] at h
      rw [← h.1]
      exact ⟨rfl, rfl⟩
    · split at h
      · simp only [Prod.mk.injEq] at h
        rw [← h.1]
        exact ⟨rfl, rfl⟩
      · split at h
        · simp only [Prod.mk.injEq] at h
          rw [← h.1]
          exact ⟨rfl, rfl⟩
        · have := ih _ _ _ _ h
          exact this

theorem appendRows_counter (reg : TypeRegistry) :
    ∀ (rows : List RawRow) (it : DomainEventIterator) (c : Int) (it1 : DomainEventIterator)
      (n : Int), appendRows reg it rows c = (it1, Ret.returned n) →
      n ≤ c + rows.length ∧ ((∀ r ∈ rows, r.scanErr = none) → n = c + rows.length) := by
  intro rows
  induction rows with
  | nil =>
    intro it c it1 n h
    simp only [appendRows, Prod.mk.injEq, Ret.returned.injEq] at h
    simp [h.2]
  | cons row rs ih =>
    intro it c it1 n h
    unfold appendRows at h
    split at h
    · rename_i e he
      simp only [Prod.mk.injEq, Ret.returned.injEq] at h
      refine ⟨by rw [← h.2]; simp only [List.length_cons]; omega, fun hall => ?_⟩
      have := hall row (List.mem_cons_self _ _)
      rw [he] at this
      cases this
    · split at h
      · simp at h
      · split at h
        · simp at h
        · obtain ⟨h1, h2⟩ := ih _ _ _ _ h
          refine ⟨by simp only [List.length_cons]; push_cast; omega, fun hall => ?_⟩
          have := h2 (fun r hr => hall r (List.mem_cons_of_mem _ hr))
          simp only [List.length_cons]
          push_cast
          omega

theorem fetchEvents_done_flag (bk : Backend) (reg : TypeRegistry) (it it1 : DomainEventIterator)
    (rows : List RawRow) (hd : it.done = false)
    (hbk : bk it.issued.length ⟨it.query, pageLimit it, it.offset, it.parameters⟩ =
      Except.ok rows)
    (hf : fetchEvents bk reg it = (it1, Ret.returned ())) :
    (((rows.length : Int) < pageLimit it) → it1.done = true) ∧
    ((rows.length : Int) = pageLimit it → (∀ r ∈ rows, r.scanErr = none) →
      it1.done = false) := by
  unfold fetchEvents at hf
  simp only [hd, Bool.false_eq_true, if_false, hbk] at hf
  generalize happ : appendRows reg _ rows 0 = res at hf
  obtain ⟨it2, r⟩ := res
  · cases r with
    | panicked => simp at hf
    | returned counter =>
      simp only [Prod.mk.injEq, and_true] at hf
      obtain ⟨hle, heq⟩ := appendRows_counter reg rows _ 0 it2 counter happ
      obtain ⟨hdone2, _⟩ := appendRows_frame reg rows _ 0 it2 _ happ
      rw [← hf]
      constructor
      · intro hlt
        have : counter < pageLimit it := by omega
        simp [this]
      · intro hlen hall
        have := heq hall
        have hnot : ¬ counter < pageLimit it := by omega
        simp only [hnot, if_false, hdone2]

theorem positionOn_frame (it it1 : DomainEventIterator) (r : Ret Bool)
    (h : positionOn it = (it1, r)) : it1.issued = it.issued ∧ it1.done = it.done := by
  unfold positionOn at h
  split at h <;> simp only [Prod.mk.injEq] at h <;> rw [← h.1] <;> exact ⟨rfl, rfl⟩

theorem Next_when_done (bk : Backend) (reg : TypeRegistry) (it : DomainEventIterator)
    (hd : it.done = true) :
    (Next bk reg it).1.issued = it.issued ∧ (Next bk reg it).1.done = true := by
  have hfetch : fetchEvents bk reg { it with position := it.position + 1 } =
      ({ it with position := it.position + 1 }, Ret.returned ()) := by
    unfold fetchEvents
    simp [hd]
  unfold Next
  simp only [hfetch]
  split
  · have := positionOn_frame _ _ _ (Prod.mk.eta (p := positionOn { it with position := it.position + 1 })).symm
    exact ⟨this.1, by rw [this.2]; exact hd⟩
  · exact ⟨rfl, hd⟩

theorem NextN_when_done (bk : Backend) (reg : TypeRegistry) :
    ∀ (n : Nat) (it : DomainEventIterator), it.done = true →
      (NextN bk reg n it).1.issued = it.issued ∧ (NextN bk reg n it).1.done = true := by
  intro n
  induction n with
  | zero => intro it hd; exact ⟨rfl, hd⟩
  | succ m ih =>
    intro it hd
    obtain ⟨h1, h2⟩ := Next_when_done bk reg it hd
    obtain ⟨h3, h4⟩ := ih (Next bk reg it).1 h2
    exact ⟨by simp only [NextN]; rw [h3, h1], by simp only [NextN]; exact h4⟩

theorem Next_first_page (bk : Backend) (reg : TypeRegistry) (q : String)
    (params : List Value) (rows : List RawRow) (evs : List DomainEvent)
    (hbk : ∀ k l o, bk k ⟨q, l, o, params⟩ = Except.ok ((rows.drop o.toNat).take l.toNat))
    (hclean : rows.map (materialize reg) = evs.map some) (hlen : evs.length = 1000) :
    ∃ c, Next bk reg (NewDomainEventIterator q params 0) =
      (⟨1000, 1000, -1000, 0, 1000, false, none, c, evs, q, params, [⟨q, 1000, 0, params⟩]⟩,
        Ret.returned true) := by
  have htake : evs.take 1000 = evs := List.take_of_length_le (by omega)
  have hfetch := fetchEvents_clean bk reg q params rows evs hbk hclean
    { NewDomainEventIterator q params 0 with
      position := (NewDomainEventIterator q params 0).position + 1 } rfl rfl rfl rfl
  obtain ⟨e, he⟩ : ∃ e, index evs 0 = some e := by
    refine ⟨evs[0], ?_⟩
    unfold index
    simp
  refine ⟨some e, ?_⟩
  unfold Next
  simp only [hfetch]
  simp [NewDomainEventIterator, pageOf, pageLimit, htake, hlen, positionOn, he]

theorem NextN_add (bk : Backend) (reg : TypeRegistry) :
    ∀ (a b : Nat) (it : DomainEventIterator),
      NextN bk reg (a + b) it =
        ((NextN bk reg b (NextN bk reg a it).1).1,
          (NextN bk reg a it).2 ++ (NextN bk reg b (NextN bk reg a it).1).2) := by
  intro a
  induction a with
  | zero => intro b it; simp [NextN]
  | succ m ih =>
    intro b it
    have : m + 1 + b = (m + b) + 1 := by omega
    rw [this]
    simp only [NextN, ih, List.cons_append]

theorem Next_buffered (bk : Backend) (reg : TypeRegistry) (it : DomainEventIterator)
    (h0 : -1 ≤ it.position) (h1 : it.position + 1 + 1 ≤ it.length)
    (h2 : it.length ≤ it.events.length) :
    ∃ c, Next bk reg it =
      ({ it with position := it.position + 1, current := c }, Ret.returned true) := by
  have hlt : (it.position + 1).toNat < it.events.length := by omega
  refine ⟨some it.events[(it.position + 1).toNat], ?_⟩
  have hidx : index it.events (it.position + 1) = some it.events[(it.position + 1).toNat] := by
    unfold index
    rw [if_neg (by omega), List.get?_eq_getElem?, List.getElem?_eq_getElem hlt]
  unfold Next
  simp only [ge_iff_le, h1, if_true, positionOn, hidx]

theorem NextN_buffered (bk : Backend) (reg : TypeRegistry) :
    ∀ (k : Nat) (it : DomainEventIterator), -1 ≤ it.position →
      it.position + 1 + k ≤ it.length → it.length ≤ it.events.length →
      ∃ c, NextN bk reg k it =
        ({ it with position := it.position + k, current := c },
          List.replicate k (Ret.returned true)) := by
  intro k
  induction k with
  | zero =>
    intro it _ _ _
    refine ⟨it.current, ?_⟩
    cases it
    simp [NextN]
  | succ m ih =>
    intro it h0 h1 h2
    obtain ⟨c, hc⟩ := Next_buffered bk reg it h0 (by push_cast at h1; omega) h2
    obtain ⟨c2, hc2⟩ := ih { it with position := it.position + 1, current := c }
      (by show -1 ≤ it.position + 1; omega)
      (by show it.position + 1 + 1 + (m : Int) ≤ it.length; push_cast at h1; omega) h2
    refine ⟨c2, ?_⟩
    simp only [NextN, hc, hc2, List.replicate_succ]
    congr 2
    push_cast
    omega

theorem Next_past_last_page (bk : Backend) (reg : TypeRegistry) (q : String)
    (params : List Value) (rows : List RawRow) (evs : List DomainEvent)
    (hbk : ∀ k l o, bk k ⟨q, l, o, params⟩ = Except.ok ((rows.drop o.toNat).take l.toNat))
    (hclean : rows.map (materialize reg) = evs.map some) (hlen : evs.length = 1000)
    (c : Option DomainEvent) :
    Next bk reg
        ⟨1000, 1000, -1000, 999, 1000, false, none, c, evs, q, params, [⟨q, 1000, 0, params⟩]⟩ =
      (⟨1000, 1000, -1000, 1000, 1000, true, none, none, [], q, params,
          [⟨q, 1000, 0, params⟩, ⟨q, 1000, 1000, params⟩]⟩, Ret.returned false) := by
  have hdrop : evs.drop 1000 = [] := List.drop_eq_nil_of_le (by omega)
  have hfetch := fetchEvents_clean bk reg q params rows evs hbk hclean
    ⟨1000, 1000, -1000, 999 + 1, 1000, false, none, c, evs, q, params, [⟨q, 1000, 0, params⟩]⟩
    rfl rfl rfl rfl
  unfold Next
  simp only [hfetch]
  simp [pageOf, pageLimit, hdrop, Close]

/-- C9 (evaluation at the failing input): a cursor constructed with a maximum count of 1 over
a query result of three rows yields all three events. The first fetch asks for `LIMIT 1`; it
leaves `count` at 0, which `fetchEvents` reads as "no maximum", so the second fetch asks for
`LIMIT 1000 OFFSET 1`. Both `ToList` and `Next` until `false` give three events. -/
theorem C9_count_one_yields_three_events :
    (ToList (staticBackend [sampleRow 1, sampleRow 2, sampleRow 3]) sampleRegistry 10
        (NewDomainEventIterator "q" [] 1)).map (fun r => r.2) =
      some (Ret.returned ([sampleLoaded 1, sampleLoaded 2, sampleLoaded 3], none)) ∧
    (ToList (staticBackend [sampleRow 1, sampleRow 2, sampleRow 3]) sampleRegistry 10
        (NewDomainEventIterator "q" [] 1)).map (fun r => r.1.issued) =
      some [⟨"q", 1, 0, []⟩, ⟨"q", 1000, 1, []⟩] ∧
    (NextN (staticBackend [sampleRow 1, sampleRow 2, sampleRow 3]) sampleRegistry 4
        (NewDomainEventIterator "q" [] 1)).2 =
      [Ret.returned true, Ret.returned true, Ret.returned true, Ret.returned false] := by
  decide

/-- C10: page boundary of the cursor with page size 1000 and count 0. (a) A fetch that
returns exactly 1000 rows, all scanned, leaves the cursor not done. (b) Over a result of
exactly 1000 rows the first 1000 calls of `Next` return `true` after one fetch
(`LIMIT 1000 OFFSET 0`), and call 1001 issues exactly one more fetch (`LIMIT 1000 OFFSET 1000`,
answered with zero rows), marks the cursor done and returns `false`. (c) A fetch that returns
fewer rows than requested marks the cursor done at once, and on a done cursor no number of
later `Next` calls issues another statement. -/
theorem C10_page_boundary (bk : Backend) (reg : TypeRegistry) :
    (∀ (it it1 : DomainEventIterator) (rows : List RawRow),
      it.limit = 1000 → it.count ≤ 0 → it.done = false →
      bk it.issued.length ⟨it.query, 1000, it.offset, it.parameters⟩ = Except.ok rows →
      rows.length = 1000 → (∀ r ∈ rows, r.scanErr = none) →
      fetchEvents bk reg it = (it1, Ret.returned ()) → it1.done = false) ∧
    (∀ (q : String) (params : List Value) (rows : List RawRow) (evs : List DomainEvent),
      (∀ k l o, bk k ⟨q, l, o, params⟩ = Except.ok ((rows.drop o.toNat).take l.toNat)) →
      rows.map (materialize reg) = evs.map some → rows.length = 1000 →
      (NextN bk reg 1000 (NewDomainEventIterator q params 0)).2 =
          List.replicate 1000 (Ret.returned true) ∧
      (NextN bk reg 1000 (NewDomainEventIterator q params 0)).1.issued =
          [⟨q, 1000, 0, params⟩] ∧
      (NextN bk reg 1000 (NewDomainEventIterator q params 0)).1.done = false ∧
      (NextN bk reg 1001 (NewDomainEventIterator q params 0)).2 =
          List.replicate 1000 (Ret.returned true) ++ [Ret.returned false] ∧
      (NextN bk reg 1001 (NewDomainEventIterator q params 0)).1.issued =
          [⟨q, 1000, 0, params⟩, ⟨q, 1000, 1000, params⟩] ∧
      (NextN bk reg 1001 (NewDomainEventIterator q params 0)).1.done = true ∧
      bk 1 ⟨q, 1000, 1000, params⟩ = Except.ok []) ∧
    (∀ (it it1 : DomainEventIterator) (rows : List RawRow), it.done = false →
      bk it.issued.length ⟨it.query, pageLimit it, it.offset, it.parameters⟩ =
        Except.ok rows →
      (rows.length : Int) < pageLimit it →
      fetchEvents bk reg it = (it1, Ret.returned ()) → it1.done = true) ∧
    (∀ (it : DomainEventIterator), it.done = true → ∀ n,
      (NextN bk reg n it).1.issued = it.issued ∧ (NextN bk reg n it).1.done = true) := by
  refine ⟨?_, ?_, ?_, ?_⟩
  · intro it it1 rows hlim hcount hd hbk hlen hscan hf
    have hpl : pageLimit it = 1000 := by
      unfold pageLimit
      rw [if_neg (by omega), hlim]
    rw [← hpl] at hbk
    exact (fetchEvents_done_flag bk reg it it1 rows hd hbk hf).2 (by rw [hpl, hlen]; rfl) hscan
  · intro q params rows evs hbk hclean hlen
    have hlen2 : evs.length = 1000 := by
      have := congrArg List.length hclean
      simp only [List.length_map] at this
      omega
    obtain ⟨c, h1⟩ := Next_first_page bk reg q params rows evs hbk hclean hlen2
    obtain ⟨c2, h2⟩ := NextN_buffered bk reg 999
      ⟨1000, 1000, -1000, 0, 1000, false, none, c, evs, q, params, [⟨q, 1000, 0, params⟩]⟩
      (by show (-1 : Int) ≤ 0; omega) (by show (0 : Int) + 1 + (999 : Nat) ≤ 1000; omega)
      (by show (1000 : Int) ≤ evs.length; omega)
    have h3 := Next_past_last_page bk reg q params rows evs hbk hclean hlen2 c2
    have e1000 : NextN bk reg 1000 (NewDomainEventIterator q params 0) =
        (⟨1000, 1000, -1000, 999, 1000, false, none, c2, evs, q, params,
            [⟨q, 1000, 0, params⟩]⟩, List.replicate 1000 (Ret.returned true)) := by
      have e1 : NextN bk reg 1 (NewDomainEventIterator q params 0) =
          (⟨1000, 1000, -1000, 0, 1000, false, none, c, evs, q, params,
              [⟨q, 1000, 0, params⟩]⟩, [Ret.returned true]) := by
        show ((NextN bk reg 0 (Next bk reg (NewDomainEventIterator q params 0)).1).1,
          (Next bk reg (NewDomainEventIterator q params 0)).2 ::
            (NextN bk reg 0 (Next bk reg (NewDomainEventIterator q params 0)).1).2) = _
        rw [h1]
        rfl
      have hrep : Ret.returned true :: List.replicate 999 (Ret.returned true) =
          List.replicate 1000 (Ret.returned true) :=
        (List.replicate_succ (n := 999) (a := Ret.returned true)).symm
      have hsplit := NextN_add bk reg 1 999 (NewDomainEventIterator q params 0)
      rw [e1] at hsplit
      simp only [h2, List.singleton_append, hrep] at hsplit
      rw [show (1000 : Nat) = 1 + 999 from rfl, hsplit]
      norm_num
    have e1001 : NextN bk reg 1001 (NewDomainEventIterator q params 0) =
        (⟨1000, 1000, -1000, 1000, 1000, true, none, none, [], q, params,
            [⟨q, 1000, 0, params⟩, ⟨q, 1000, 1000, params⟩]⟩,
          List.replicate 1000 (Ret.returned true) ++ [Ret.returned false]) := by
      have hsplit := NextN_add bk reg 1000 1 (NewDomainEventIterator q params 0)
      rw [e1000] at hsplit
      rw [show (1001 : Nat) = 1000 + 1 from rfl, hsplit]
      simp only [NextN, h3]
    refine ⟨by rw [e1000], by rw [e1000], by rw [e1000], by rw [e1001], by rw [e1001],
      by rw [e1001], ?_⟩
    rw [hbk]
    simp [List.drop_eq_nil_of_le (show rows.length ≤ 1000 by omega)]
  · intro it it1 rows hd hbk hlt hf
    exact (fetchEvents_done_flag bk reg it it1 rows hd hbk hf).1 hlt
  · intro it hd n
    exact NextN_when_done bk reg n it hd

/-- Witness for C10 (b): a result of exactly 1000 rows, each `sampleRow 1`. -/
theorem C10_page_boundary_witness :
    (List.replicate 1000 (sampleRow 1)).length = 1000 ∧
    (NextN (staticBackend (List.replicate 1000 (sampleRow 1))) sampleRegistry 1001
        (NewDomainEventIterator "q" [] 0)).1.issued =
      [⟨"q", 1000, 0, []⟩, ⟨"q", 1000, 1000, []⟩] ∧
    (NextN (staticBackend (List.replicate 1000 (sampleRow 1))) sampleRegistry 1001
        (NewDomainEventIterator "q" [] 0)).2 =
      List.replicate 1000 (Ret.returned true) ++ [Ret.returned false] :=
  have h := (C10_page_boundary (staticBackend (List.replicate 1000 (sampleRow 1)))
    sampleRegistry).2.1 "q" [] (List.replicate 1000 (sampleRow 1))
    (List.replicate 1000 (sampleLoaded 1)) (fun _ _ _ => rfl)
    (by rw [List.map_replicate, List.map_replicate]; rfl) (List.length_replicate _ _)
  ⟨List.length_replicate _ _, h.2.2.2.2.1, h.2.2.2.1⟩

/-! ## Append, then load; merged load -/

theorem insertedRows_ge : ∀ (evs : List DomainEvent) (start : Int),
    ∀ r ∈ insertedRows start evs, start ≤ r.no := by
  intro evs
  induction evs with
  | nil => intro start r hr; simp [insertedRows] at hr
  | cons ev rest ih =>
    intro start r hr
    simp only [insertedRows, List.mem_cons] at hr
    rcases hr with rfl | hr
    · exact le_refl _
    · have := ih (start + 1) r hr
      omega

theorem insertedRows_sorted : ∀ (evs : List DomainEvent) (start : Int),
    List.Sorted (fun a b : Row => a.no ≤ b.no) (insertedRows start evs) := by
  intro evs
  induction evs with
  | nil => intro start; simp [insertedRows]
  | cons ev rest ih =>
    intro start
    simp only [insertedRows, List.sorted_cons]
    refine ⟨fun r hr => ?_, ih (start + 1)⟩
    have := insertedRows_ge rest (start + 1) r hr
    show start ≤ r.no
    omega

theorem selectFrom_insertedRows (evs : List DomainEvent) (stream : String) (start : Int) :
    selectFrom (insertedRows start evs) stream start =
      (insertedRows start evs).map (Row.toRaw stream) := by
  unfold selectFrom
  rw [List.filter_eq_self.mpr (fun r hr => by simpa using insertedRows_ge evs start r hr),
    List.Sorted.insertionSort_eq (insertedRows_sorted evs start)]

theorem loadedEvents_length (stream : String) :
    ∀ (evs : List DomainEvent) (start : Int),
      (loadedEvents stream start evs).length = evs.length := by
  intro evs
  induction evs with
  | nil => intro start; rfl
  | cons e r ih => intro start; simp only [loadedEvents, List.length_cons, ih]

theorem loadedEvents_fields (stream : String) :
    ∀ (evs : List DomainEvent) (start : Int),
      (loadedEvents stream start evs).map (fun e => e.number) =
        (List.range evs.length).map (fun (i : Nat) => start + (i : Int)) ∧
      (loadedEvents stream start evs).map (fun e => (e.uuid, e.payload, e.createdAt)) =
        evs.map (fun e => (e.uuid, e.payload, e.createdAt)) ∧
      (loadedEvents stream start evs).map (fun e => e.metadata) =
        evs.map (fun e =>
          (jsonUnmarshalMetadata e.metadata).set "stream" (Value.str stream)) := by
  intro evs
  induction evs with
  | nil => intro start; exact ⟨rfl, rfl, rfl⟩
  | cons ev rest ih =>
    intro start
    obtain ⟨h1, h2, h3⟩ := ih (start + 1)
    refine ⟨?_, ?_, ?_⟩
    · rw [show (loadedEvents stream start (ev :: rest)).map (fun e => e.number) =
          start :: (loadedEvents stream (start + 1) rest).map (fun e => e.number) from rfl,
        h1, List.length_cons, List.range_succ_eq_map, List.map_cons, List.map_map]
      congr 1
      · simp
      · apply List.map_congr_left
        intro i _
        simp only [Function.comp, Nat.succ_eq_add_one, Nat.cast_add, Nat.cast_one]
        omega
    · simp only [loadedEvents, List.map_cons, h2]
    · simp only [loadedEvents, List.map_cons, h3]

theorem char_le_iff (a b : Char) : a ≤ b ↔ a.toNat ≤ b.toNat := by
  rw [Char.le_def]
  exact Iff.rfl

theorem lowerHexDigit_lower (c : Char) (h : isLowerHexDigit c = true) : lowerHexDigit c = c := by
  unfold lowerHexDigit
  rw [if_neg]
  intro hc
  simp only [isLowerHexDigit, Bool.or_eq_true, Bool.and_eq_true, decide_eq_true_eq,
    char_le_iff] at h hc
  have h0 : ('0' : Char).toNat = 48 := rfl
  have h9 : ('9' : Char).toNat = 57 := rfl
  have ha : ('a' : Char).toNat = 97 := rfl
  have hf : ('f' : Char).toNat = 102 := rfl
  have hA : ('A' : Char).toNat = 65 := rfl
  have hF : ('F' : Char).toNat = 70 := rfl
  omega

theorem isHexDigit_of_lower (c : Char) (h : isLowerHexDigit c = true) : isHexDigit c = true := by
  unfold isHexDigit
  unfold isLowerHexDigit at h
  rw [h]
  rfl

theorem FromStringOrNil_canonical (s : String) (h : isCanonicalUUID s = true) :
    FromStringOrNil s = s := by
  obtain ⟨t⟩ := s
  unfold isCanonicalUUID at h
  simp only [String.toList, Bool.and_eq_true, decide_eq_true_eq] at h
  obtain ⟨hlen, hd⟩ := h
  unfold FromStringOrNil uuidDigits
  simp only [String.toList, hlen]
  simp only [show ¬ (36 = 32) by decide, if_false, if_true]
  cases hc : canonicalDigits t with
  | none => rw [hc] at hd; cases hd
  | some d =>
    rw [hc] at hd
    simp only at hd ⊢
    have hhex : d.all isHexDigit = true := by
      rw [List.all_eq_true] at hd ⊢
      exact fun c hcm => isHexDigit_of_lower c (hd c hcm)
    have hmap : d.map lowerHexDigit = d := by
      rw [List.all_eq_true] at hd
      rw [List.map_congr_left (fun c hcm => lowerHexDigit_lower c (hd c hcm)), List.map_id']
    rw [hhex, hmap, if_pos rfl]
    rcases t with _ | ⟨a0, t⟩
    · simp at hlen
    rcases t with _ | ⟨a1, t⟩
    · simp at hlen
    rcases t with _ | ⟨a2, t⟩
    · simp at hlen
    rcases t with _ | ⟨a3, t⟩
    · simp at hlen
    rcases t with _ | ⟨a4, t⟩
    · simp at hlen
    rcases t with _ | ⟨a5, t⟩
    · simp at hlen
    rcases t with _ | ⟨a6, t⟩
    · simp at hlen
    rcases t with _ | ⟨a7, t⟩
    · simp at hlen
    rcases t with _ | ⟨a8, t⟩
    · simp at hlen
    rcases t with _ | ⟨a9, t⟩
    · simp at hlen
    rcases t with _ | ⟨a10, t⟩
    · simp at hlen
    rcases t with _ | ⟨a11, t⟩
    · simp at hlen
    rcases t with _ | ⟨a12, t⟩
    · simp at hlen
    rcases t with _ | ⟨a13, t⟩
    · simp at hlen
    rcases t with _ | ⟨a14, t⟩
    · simp at hlen
    rcases t with _ | ⟨a15, t⟩
    · simp at hlen
    rcases t with _ | ⟨a16, t⟩
    · simp at hlen
    rcases t with _ | ⟨a17, t⟩
    · simp at hlen
    rcases t with _ | ⟨a18, t⟩
    · simp at hlen
    rcases t with _ | ⟨a19, t⟩
    · simp at hlen
    rcases t with _ | ⟨a20, t⟩
    · simp at hlen
    rcases t with _ | ⟨a21, t⟩
    · simp at hlen
    rcases t with _ | ⟨a22, t⟩
    · simp at hlen
    rcases t with _ | ⟨a23, t⟩
    · simp at hlen
    rcases t with _ | ⟨a24, t⟩
    · simp at hlen
    rcases t with _ | ⟨a25, t⟩
    · simp at hlen
    rcases t with _ | ⟨a26, t⟩
    · simp at hlen
    rcases t with _ | ⟨a27, t⟩
    · simp at hlen
    rcases t with _ | ⟨a28, t⟩
    · simp at hlen
    rcases t with _ | ⟨a29, t⟩
    · simp at hlen
    rcases t with _ | ⟨a30, t⟩
    · simp at hlen
    rcases t with _ | ⟨a31, t⟩
    · simp at hlen
    rcases t with _ | ⟨a32, t⟩
    · simp at hlen
    rcases t with _ | ⟨a33, t⟩
    · simp at hlen
    rcases t with _ | ⟨a34, t⟩
    · simp at hlen
    rcases t with _ | ⟨a35, t⟩
    · simp at hlen
    have hnil : t = [] := List.length_eq_zero.mp (by simpa using hlen)
    subst hnil
    unfold canonicalDigits at hc
    simp only [List.get?, Option.some.injEq] at hc
    split at hc
    · rename_i hdash
      obtain ⟨h8, h13, h18, h23⟩ := hdash
      subst h8 h13 h18 h23
      injection hc with hc
      subst hc
      rfl
    · cases hc

theorem excessBits_small (a : Nat) (h : a < 2 ^ 53) : excessBits a a = 0 := by
  cases a with
  | zero => rfl
  | succ k => simp only [excessBits, h, if_true]

theorem roundFloat64_exact (n : Int) (h : n.natAbs < 2 ^ 53) : roundFloat64 n = n := by
  have hnat : roundFloat64Nat n.natAbs = n.natAbs := by
    unfold roundFloat64Nat
    simp only [excessBits_small _ h, pow_zero, Nat.div_one, Nat.mod_one, mul_zero, mul_one]
    simp
  unfold roundFloat64
  rw [hnat]
  split_ifs <;> omega

theorem materialize_insertedRows (reg : TypeRegistry) (stream : String) :
    ∀ (evs : List DomainEvent) (start : Int),
      (∀ ev ∈ evs, ∃ json, jsonMarshalPayload ev.payload = Except.ok json) →
      (∀ ev ∈ evs, ∀ json, jsonMarshalPayload ev.payload = Except.ok json →
        ∃ decode, reg ev.Name = some decode ∧ decode json = (ev.payload, none)) →
      (∀ ev ∈ evs, isCanonicalUUID ev.uuid = true) →
      ((insertedRows start evs).map (Row.toRaw stream)).map (materialize reg) =
        (loadedEvents stream start evs).map some := by
  intro evs
  induction evs with
  | nil => intro start _ _ _; rfl
  | cons ev rest ih =>
    intro start henc hreg huuid
    obtain ⟨json, hjson⟩ := henc ev (List.mem_cons_self _ _)
    obtain ⟨decode, hdec, hval⟩ := hreg ev (List.mem_cons_self _ _) json hjson
    have hj := jsonMarshalPayload_ok _ _ hjson
    subst hj
    have hid := FromStringOrNil_canonical ev.uuid (huuid ev (List.mem_cons_self _ _))
    simp only [insertedRows, loadedEvents, List.map_cons, List.cons.injEq]
    refine ⟨?_, ih (start + 1) (fun e he => henc e (List.mem_cons_of_mem _ he))
      (fun e he => hreg e (List.mem_cons_of_mem _ he))
      (fun e he => huuid e (List.mem_cons_of_mem _ he))⟩
    simp [materialize, Row.toRaw, hdec, hval, assembleEvent, hid]

section Hash

variable (sha1 : String → List Nat)

theorem CreateSchema_fresh (db0 db : DB) (streamName : String)
    (h : CreateSchema sha1 Faults.none db0 streamName = (db, none)) :
    db.table? (GenerateTableName sha1 streamName) =
      some ⟨GenerateTableName sha1 streamName, [], 1⟩ := by
  unfold CreateSchema at h
  have hx : Faults.none.exec = none := rfl
  simp only [hx] at h
  cases ht : db0.table? (GenerateTableName sha1 streamName) with
  | some t => simp [ht] at h
  | none =>
    simp only [ht, Prod.mk.injEq, and_true] at h
    rw [← h]
    unfold DB.table? at ht ⊢
    simp only [List.find?_append, ht, Option.none_or]
    simp

theorem createQuery_no_matcher (f : Faults) (db : DB) (streamName : String)
    (fromNumber : Int) (hp : f.prepare = none) (hq : f.query = none)
    (hex : streamName ∈ db.streams) :
    createQuery sha1 f db streamName fromNumber [] =
      Except.ok
        ("SELECT no, event_id, event_name, payload, metadata, created_at, '" ++ streamName ++
          "' as stream FROM " ++ GenerateTableName sha1 streamName ++
          " WHERE no >= ? ORDER BY no ASC", [Value.int fromNumber]) := by
  rw [createQuery_ok sha1 f db streamName fromNumber [] hp hq hex]
  have htext : ∀ X : String,
      X ++ " " ++ ("WHERE " ++ stringsJoin ((createWhereClause []).1 ++ ["no >= ?"]) " AND ") ++
        " ORDER BY no ASC" = X ++ " WHERE no >= ? ORDER BY no ASC" := by
    intro X
    rw [String.append_assoc, String.append_assoc]
    rfl
  rw [htext]
  rfl

/-- C1 (amended): for every batch that `AppendTo` appends (returns `nil`) to a freshly
created, empty stream (catalog row present, physical log just created by `CreateSchema`),
`Load` from sequence number 1 with no matchers and count 0 returns a cursor, and draining it
with `ToList` yields, for every batch size, one event per appended event, in append order,
with the sequence numbers 1, 2, .., N and no error. Each has the identifier, payload and
creation time of the appended event. Its metadata are the appended metadata as
`json.Unmarshal` returns them, every number a `float64` (equal to the appended integer when
that is below `2^53` in magnitude), with the key `stream` set to the stream name. The backend
is assumed to answer the text `SELECT .. WHERE no >= ? ORDER BY no ASC` with parameter 1 as
SQL prescribes (`selectFrom`), the type resolver to decode each stored payload back to the
appended payload, and the identifiers to be UUIDs. -/
theorem C1_append_then_load_decoded_round_trip (eng : Engine) (reg : TypeRegistry)
    (db0 db : DB) (streamName : String) (events : List DomainEvent)
    (hcat : streamName ∈ db.streams)
    (hcreate : CreateSchema sha1 Faults.none db0 streamName = (db, none))
    (happ : (AppendTo sha1 Faults.none db streamName events).2 = none)
    (hsel : eng ("SELECT no, event_id, event_name, payload, metadata, created_at, '" ++
        streamName ++ "' as stream FROM " ++ GenerateTableName sha1 streamName ++
        " WHERE no >= ? ORDER BY no ASC") [Value.int 1] =
      Except.ok (selectFrom
        ((AppendTo sha1 Faults.none db streamName events).1.log sha1 streamName) streamName 1))
    (huuid : ∀ ev ∈ events, isCanonicalUUID ev.uuid = true)
    (hreg : ∀ ev ∈ events, ∀ json, jsonMarshalPayload ev.payload = Except.ok json →
      ∃ decode, reg ev.Name = some decode ∧ decode json = (ev.payload, none)) :
    Load sha1 Faults.none (AppendTo sha1 Faults.none db streamName events).1
        streamName 1 0 [] =
      Except.ok (NewDomainEventIterator
          ("SELECT no, event_id, event_name, payload, metadata, created_at, '" ++
        streamName ++ "' as stream FROM " ++ GenerateTableName sha1 streamName ++
        " WHERE no >= ? ORDER BY no ASC") [Value.int 1] 0) ∧
    (∀ fuel, events.length < fuel →
      ∃ it1, ToList eng.backend reg fuel (NewDomainEventIterator
          ("SELECT no, event_id, event_name, payload, metadata, created_at, '" ++
        streamName ++ "' as stream FROM " ++ GenerateTableName sha1 streamName ++
        " WHERE no >= ? ORDER BY no ASC")
          [Value.int 1] 0) =
        some (it1, Ret.returned (loadedEvents streamName 1 events, none))) ∧
    (loadedEvents streamName 1 events).map (fun e => e.number) =
      (List.range events.length).map (fun (i : Nat) => 1 + (i : Int)) ∧
    (loadedEvents streamName 1 events).map (fun e => (e.uuid, e.payload, e.createdAt)) =
      events.map (fun e => (e.uuid, e.payload, e.createdAt)) ∧
    (loadedEvents streamName 1 events).map (fun e => e.metadata) =
      events.map (fun e =>
        (jsonUnmarshalMetadata e.metadata).set "stream" (Value.str streamName)) ∧
    (∀ n : Int, n.natAbs < 2 ^ 53 → jsonUnmarshalValue (Value.int n) = Value.float n) := by
  have hfresh := CreateSchema_fresh sha1 db0 db streamName hcreate
  obtain ⟨t, view, ht, hloop, hdb⟩ := AppendTo_success sha1 Faults.none db streamName events happ
  rw [hfresh] at ht
  injection ht with ht
  subst ht
  obtain ⟨hview, henc, _⟩ := appendLoop_ok Faults.none events _ 0 view hloop
  have hlog : (AppendTo sha1 Faults.none db streamName events).1.log sha1 streamName =
      insertedRows 1 events := by
    rw [hdb, log_setTable sha1 db _ view _ hfresh (by rw [hview])]
    simp [hview]
  have hstreams : streamName ∈ (AppendTo sha1 Faults.none db streamName events).1.streams := by
    rw [hdb]
    exact hcat
  have hquery := createQuery_no_matcher sha1 Faults.none
    (AppendTo sha1 Faults.none db streamName events).1 streamName 1 rfl rfl hstreams
  rw [hlog, selectFrom_insertedRows] at hsel
  have hfields := loadedEvents_fields streamName events 1
  refine ⟨by simp only [Load, hquery], fun fuel hfuel => ?_, hfields.1, hfields.2.1,
    hfields.2.2, fun n hn => ?_⟩
  · have hclean := materialize_insertedRows reg streamName events 1 henc hreg huuid
    have hlen := loadedEvents_length streamName events 1
    exact ToList_drain eng.backend reg _ _ _ _
      (fun k l o => by simp only [Engine.backend, hsel]) hclean 0 fuel (by omega)
  · simp only [jsonUnmarshalValue, roundFloat64_exact n hn]

end Hash

/-- C1 (counterexample): one event whose metadata hold the integer `2^53 + 1` under the key
`big` is appended to the fresh stream `foo-stream`. `Load` from 1 with no matcher and count 0,
drained with `ToList`, yields one event with sequence number 1 whose metadata hold
`2^53` under `big`, as a `float64`: the event read back is not the event appended. -/
theorem C1_metadata_integer_comes_back_rounded :
    (AppendTo sampleDigest Faults.none freshDB "foo-stream" [bigEvent]).2 = none ∧
    bigEvent.metadata.get? "big" = some (Value.int 9007199254740993) ∧
    (Load sampleDigest Faults.none
        (AppendTo sampleDigest Faults.none freshDB "foo-stream" [bigEvent]).1
        "foo-stream" 1 0 []).toOption =
      some (NewDomainEventIterator
          ("SELECT no, event_id, event_name, payload, metadata, created_at, '" ++
          "foo-stream" ++ "' as stream FROM " ++ GenerateTableName sampleDigest "foo-stream" ++
          " WHERE no >= ? ORDER BY no ASC") [Value.int 1] 0) ∧
    (ToList (Engine.backend (sampleEngine
          (AppendTo sampleDigest Faults.none freshDB "foo-stream" [bigEvent]).1))
        sampleRegistry 2 (NewDomainEventIterator
            ("SELECT no, event_id, event_name, payload, metadata, created_at, '" ++
          "foo-stream" ++ "' as stream FROM " ++ GenerateTableName sampleDigest "foo-stream" ++
          " WHERE no >= ? ORDER BY no ASC")
          [Value.int 1] 0)).map (fun r => r.2) =
      some (Ret.returned ([⟨1, "6ba7b810-9dad-11d1-80b4-00c04fd430c8",
        Payload.value "TestEvent" "\x7b\x7d",
        [("_aggregate_type", Value.str "user"), ("_aggregate_id", Value.str "a1"),
          ("_aggregate_version", Value.float 1), ("big", Value.float 9007199254740992),
          ("stream", Value.str "foo-stream")], 0⟩], none)) := by
  decide

/-- Witness for C1 (amended): two events appended to the fresh stream `foo-stream`. -/
theorem C1_append_then_load_decoded_round_trip_witness :
    (AppendTo sampleDigest Faults.none freshDB "foo-stream"
        [sampleEvent "6ba7b810-9dad-11d1-80b4-00c04fd430c8" 1,
          sampleEvent "6ba7b811-9dad-11d1-80b4-00c04fd430c8" 2]).2 = none ∧
    ∀ fuel, 2 < fuel →
      ∃ it1, ToList (Engine.backend (sampleEngine (AppendTo sampleDigest Faults.none freshDB
          "foo-stream" [sampleEvent "6ba7b810-9dad-11d1-80b4-00c04fd430c8" 1,
            sampleEvent "6ba7b811-9dad-11d1-80b4-00c04fd430c8" 2]).1)) sampleRegistry fuel
          (NewDomainEventIterator
              ("SELECT no, event_id, event_name, payload, metadata, created_at, '" ++
          "foo-stream" ++ "' as stream FROM " ++ GenerateTableName sampleDigest "foo-stream" ++
          " WHERE no >= ? ORDER BY no ASC") [Value.int 1] 0) =
        some (it1, Ret.returned (loadedEvents "foo-stream" 1
          [sampleEvent "6ba7b810-9dad-11d1-80b4-00c04fd430c8" 1,
            sampleEvent "6ba7b811-9dad-11d1-80b4-00c04fd430c8" 2], none)) :=
  ⟨by decide,
    (C1_append_then_load_decoded_round_trip sampleDigest
      (sampleEngine (AppendTo sampleDigest Faults.none freshDB "foo-stream"
        [sampleEvent "6ba7b810-9dad-11d1-80b4-00c04fd430c8" 1,
          sampleEvent "6ba7b811-9dad-11d1-80b4-00c04fd430c8" 2]).1) sampleRegistry
      ⟨["foo-stream"], []⟩ freshDB "foo-stream"
      [sampleEvent "6ba7b810-9dad-11d1-80b4-00c04fd430c8" 1,
        sampleEvent "6ba7b811-9dad-11d1-80b4-00c04fd430c8" 2]
      (by decide) (by decide) (by decide) rfl (by decide)
      (by
        intro ev hev json hj
        simp only [List.mem_cons, List.mem_singleton, List.not_mem_nil, or_false] at hev
        rcases hev with rfl | rfl <;>
        · have := jsonMarshalPayload_ok _ _ hj
          subst this
          exact ⟨_, rfl, rfl⟩)).2.1⟩

theorem materialize_createdAt (reg : TypeRegistry) (r : RawRow) (e : DomainEvent)
    (h : materialize reg r = some e) : e.createdAt = r.createdAt := by
  obtain ⟨_, decode, metadata, _, _, _, he⟩ := materialize_some reg r e h
  rw [he]
  rfl

theorem pairwise_createdAt_of_clean (reg : TypeRegistry) :
    ∀ (rows : List RawRow) (evs : List DomainEvent),
      rows.map (materialize reg) = evs.map some →
      rows.Pairwise (fun a b => a.createdAt ≤ b.createdAt) →
      evs.Pairwise (fun a b => a.createdAt ≤ b.createdAt) := by
  intro rows
  induction rows with
  | nil =>
    intro evs h _
    cases evs with
    | nil => exact List.Pairwise.nil
    | cons e es => simp at h
  | cons r rs ih =>
    intro evs h hp
    cases evs with
    | nil => simp at h
    | cons e es =>
      simp only [List.map_cons, List.cons.injEq] at h
      obtain ⟨hr, hrs⟩ := h
      rw [List.pairwise_cons] at hp ⊢
      refine ⟨fun e2 he2 => ?_, ih es hrs hp.2⟩
      have hmem : some e2 ∈ rs.map (materialize reg) := by
        rw [hrs]
        exact List.mem_map_of_mem _ he2
      obtain ⟨r2, hr2, hm2⟩ := List.mem_map.mp hmem
      rw [materialize_createdAt reg r e hr, materialize_createdAt reg r2 e2 hm2]
      exact hp.1 r2 hr2

section Hash

variable (sha1 : String → List Nat)

theorem mergeLoop_ok (f : Faults) (db : DB) (hp : f.prepare = none) (hq : f.query = none) :
    ∀ (streams : List LoadStreamParameter) (queries : List String) (parameters : List Value),
      (∀ s ∈ streams, s.StreamName ∈ db.streams) →
      ∃ built : List (String × List Value),
        List.Forall₂ (fun s qv =>
          createQuery sha1 f db s.StreamName s.FromNumber s.Matcher = Except.ok qv)
          streams built ∧
        mergeLoop sha1 f db streams queries parameters =
          Except.ok (queries ++ built.map (fun qv => "(" ++ qv.1 ++ ")"),
            parameters ++ built.flatMap (fun qv => qv.2)) := by
  intro streams
  induction streams with
  | nil =>
    intro queries parameters _
    exact ⟨[], List.Forall₂.nil, by simp [mergeLoop]⟩
  | cons s rest ih =>
    intro queries parameters hall
    obtain ⟨⟨q, v⟩, hs⟩ : ∃ qv, createQuery sha1 f db s.StreamName s.FromNumber s.Matcher =
        Except.ok qv :=
      ⟨_, createQuery_ok sha1 f db s.StreamName s.FromNumber s.Matcher hp hq
        (hall s (List.mem_cons_self _ _))⟩
    obtain ⟨built, hb, hm⟩ := ih (queries ++ ["(" ++ q ++ ")"]) (parameters ++ v)
      (fun x hx => hall x (List.mem_cons_of_mem _ hx))
    refine ⟨(q, v) :: built, List.Forall₂.cons hs hb, ?_⟩
    simp only [mergeLoop, hs, hm, List.map_cons, List.flatMap_cons, List.append_assoc,
      List.singleton_append]

/-- C8: when all streams of the specs exist, `MergeAndLoad` builds one query per spec with
`createQuery` (`built`); for two or more specs the cursor's query is the parenthesised queries
joined in spec order with ` UNION ALL ` followed by ` ORDER BY created_at ASC`, and its
parameters are the per-spec parameter lists concatenated in the same order; for a single spec
the query is that spec's parenthesised query alone. Hence, when the backend evaluates the
union query as SQL prescribes (all rows of the per-spec results, ordered by `created_at`),
draining the cursor returns all their events in ascending creation-timestamp order, whatever
their per-stream sequence numbers. -/
theorem C8_merge_and_load_union_query (f : Faults) (db : DB) (count : Int)
    (streams : List LoadStreamParameter) (hp : f.prepare = none) (hq : f.query = none)
    (hall : ∀ s ∈ streams, s.StreamName ∈ db.streams) :
    ∃ built : List (String × List Value),
      List.Forall₂ (fun s qv =>
        createQuery sha1 f db s.StreamName s.FromNumber s.Matcher = Except.ok qv)
        streams built ∧
      (2 ≤ streams.length →
        MergeAndLoad sha1 f db count streams =
          Ret.returned (Except.ok (NewDomainEventIterator
            (stringsJoin (built.map (fun qv => "(" ++ qv.1 ++ ")")) " UNION ALL " ++
              " ORDER BY created_at ASC")
            (built.flatMap (fun qv => qv.2)) count))) ∧
      (streams.length = 1 → ∃ q v, built = [(q, v)] ∧
        MergeAndLoad sha1 f db count streams =
          Ret.returned (Except.ok (NewDomainEventIterator ("(" ++ q ++ ")") v count))) ∧
      (2 ≤ streams.length →
        ∀ (eng : Engine) (reg : TypeRegistry) (perStream : List (List RawRow))
          (merged : List RawRow) (evs : List DomainEvent),
          List.Forall₂ (fun qv rows => eng qv.1 qv.2 = Except.ok rows) built perStream →
          eng (stringsJoin (built.map (fun qv => "(" ++ qv.1 ++ ")")) " UNION ALL " ++
              " ORDER BY created_at ASC") (built.flatMap (fun qv => qv.2)) =
            Except.ok merged →
          merged.Perm perStream.flatten →
          merged.Pairwise (fun a b => a.createdAt ≤ b.createdAt) →
          merged.map (materialize reg) = evs.map some →
          ∀ fuel, merged.length < fuel →
            ∃ it it1, MergeAndLoad sha1 f db count streams = Ret.returned (Except.ok it) ∧
              ToList eng.backend reg fuel it = some (it1, Ret.returned (evs, none)) ∧
              evs.Pairwise (fun a b => a.createdAt ≤ b.createdAt) ∧
              (evs.map some).Perm (perStream.flatten.map (materialize reg))) := by
  obtain ⟨built, hb, hm⟩ := mergeLoop_ok sha1 f db hp hq streams [] [] hall
  have hlen : built.length = streams.length := (List.Forall₂.length_eq hb).symm
  simp only [List.nil_append] at hm
  have hmulti : 2 ≤ streams.length →
      MergeAndLoad sha1 f db count streams =
        Ret.returned (Except.ok (NewDomainEventIterator
          (stringsJoin (built.map (fun qv => "(" ++ qv.1 ++ ")")) " UNION ALL " ++
            " ORDER BY created_at ASC")
          (built.flatMap (fun qv => qv.2)) count)) := by
    intro h2
    unfold MergeAndLoad
    rw [hm]
    cases hbuilt : built with
    | nil => rw [hbuilt] at hlen; simp at hlen; omega
    | cons b bs =>
      have hgt : (List.map (fun qv : String × List Value => "(" ++ qv.1 ++ ")")
          (b :: bs)).length > 1 := by
        rw [List.length_map, ← hbuilt, hlen]
        omega
      simp only [List.map_cons] at hgt ⊢
      simp only [hgt, if_true]
  refine ⟨built, hb, hmulti, ?_, ?_⟩
  · intro h1
    unfold MergeAndLoad
    rw [hm]
    cases hbuilt : built with
    | nil => rw [hbuilt] at hlen; simp at hlen; omega
    | cons b bs =>
      cases bs with
      | nil =>
        refine ⟨b.1, b.2, rfl, ?_⟩
        simp
      | cons b2 bs2 =>
        rw [hbuilt] at hlen
        simp only [List.length_cons] at hlen
        omega
  · intro h2 eng reg perStream merged evs _ heng hperm hsorted hclean fuel hfuel
    have hevlen : evs.length = merged.length := by
      have := congrArg List.length hclean
      simp only [List.length_map] at this
      exact this.symm
    obtain ⟨it1, hlist⟩ := ToList_drain eng.backend reg
      (stringsJoin (built.map (fun qv => "(" ++ qv.1 ++ ")")) " UNION ALL " ++
        " ORDER BY created_at ASC") (built.flatMap (fun qv => qv.2)) merged evs
      (fun k l o => by simp only [Engine.backend, heng]) hclean count fuel (by omega)
    refine ⟨_, it1, hmulti h2, hlist, pairwise_createdAt_of_clean reg merged evs hclean hsorted,
      ?_⟩
    rw [← hclean]
    exact hperm.map _

end Hash

/-- Witness for C8: merging `foo-stream` and `bar-stream`, both in the catalog. -/
theorem C8_merge_and_load_union_query_witness :
    (∀ s ∈ [(⟨"foo-stream", 1, []⟩ : LoadStreamParameter), ⟨"bar-stream", 1, []⟩],
      s.StreamName ∈ mergeDB.streams) ∧
    ∃ built : List (String × List Value),
      List.Forall₂ (fun s qv =>
        createQuery sampleDigest Faults.none mergeDB s.StreamName s.FromNumber s.Matcher =
          Except.ok qv)
        [(⟨"foo-stream", 1, []⟩ : LoadStreamParameter), ⟨"bar-stream", 1, []⟩] built ∧
      MergeAndLoad sampleDigest Faults.none mergeDB 0
          [⟨"foo-stream", 1, []⟩, ⟨"bar-stream", 1, []⟩] =
        Ret.returned (Except.ok (NewDomainEventIterator
          (stringsJoin (built.map (fun qv => "(" ++ qv.1 ++ ")")) " UNION ALL " ++
            " ORDER BY created_at ASC")
          (built.flatMap (fun qv => qv.2)) 0)) :=
  ⟨by decide,
    (C8_merge_and_load_union_query sampleDigest Faults.none mergeDB 0
      [⟨"foo-stream", 1, []⟩, ⟨"bar-stream", 1, []⟩] rfl rfl (by decide)).elim
      (fun built h => ⟨built, h.1, h.2.1 (by decide)⟩)⟩

theorem fetchEvents_issued (bk : Backend) (reg : TypeRegistry) (it : DomainEventIterator)
    (hd : it.done = false) :
    (fetchEvents bk reg it).1.issued =
      it.issued ++ [⟨it.query, pageLimit it, it.offset, it.parameters⟩] := by
  unfold fetchEvents
  simp only [hd, Bool.false_eq_true, if_false]
  cases hbk : bk it.issued.length ⟨it.query, pageLimit it, it.offset, it.parameters⟩ with
  | error e => rfl
  | ok rows =>
    simp only
    generalize happ : appendRows reg _ rows 0 = res
    obtain ⟨it2, r⟩ := res
    have hfr := (appendRows_frame reg rows _ 0 it2 r happ).2
    cases r with
    | panicked => exact hfr
    | returned counter => exact hfr

theorem fetchEvents_error (bk : Backend) (reg : TypeRegistry) (it : DomainEventIterator)
    (e : Error) (hd : it.done = false)
    (hbk : bk it.issued.length ⟨it.query, pageLimit it, it.offset, it.parameters⟩ =
      Except.error e) :
    fetchEvents bk reg it =
      ({ it with
          issued := it.issued ++ [⟨it.query, pageLimit it, it.offset, it.parameters⟩]
          err := some e }, Ret.returned ()) := by
  unfold fetchEvents
  simp only [hd, Bool.false_eq_true, if_false, hbk]

theorem Next_fetch_error (bk : Backend) (reg : TypeRegistry) (it : DomainEventIterator)
    (e : Error) (hd : it.done = false) (hbuf : ¬ it.position + 1 + 1 ≤ it.length)
    (hbk : bk it.issued.length ⟨it.query, pageLimit it, it.offset, it.parameters⟩ =
      Except.error e) :
    Next bk reg it =
      (Close { it with
          position := it.position + 1
          issued := it.issued ++ [⟨it.query, pageLimit it, it.offset, it.parameters⟩]
          err := some e }, Ret.returned false) := by
  have hf := fetchEvents_error bk reg { it with position := it.position + 1 } e hd hbk
  unfold Next
  simp only [ge_iff_le, hbuf, if_false, hf]
  rfl

theorem Next_issued_unbuffered (bk : Backend) (reg : TypeRegistry) (it : DomainEventIterator)
    (hd : it.done = false) (hbuf : ¬ it.position + 1 + 1 ≤ it.length) :
    (Next bk reg it).1.issued =
      it.issued ++ [⟨it.query, pageLimit it, it.offset, it.parameters⟩] := by
  have hi := fetchEvents_issued bk reg { it with position := it.position + 1 } hd
  unfold Next
  simp only [ge_iff_le, hbuf, if_false]
  generalize hf : fetchEvents bk reg { it with position := it.position + 1 } = res at hi
  obtain ⟨it1, r⟩ := res
  cases r with
  | panicked => exact hi
  | returned u =>
    simp only
    split
    · have := positionOn_frame it1 _ _ (Prod.mk.eta (p := positionOn it1)).symm
      rw [this.1]
      exact hi
    · exact hi

theorem appendRows_scan_fail (reg : TypeRegistry) :
    ∀ (rows : List RawRow) (it : DomainEventIterator) (c : Int) (it1 : DomainEventIterator)
      (n : Int), appendRows reg it rows c = (it1, Ret.returned n) →
      (∃ r ∈ rows, r.scanErr ≠ none) →
      n < c + rows.length ∧ ∃ e, it1.err = some e ∧ ∃ r ∈ rows, r.scanErr = some e := by
  intro rows
  induction rows with
  | nil =>
    intro it c it1 n _ hex
    obtain ⟨r, hr, _⟩ := hex
    cases hr
  | cons row rs ih =>
    intro it c it1 n h hex
    unfold appendRows at h
    split at h
    · rename_i e he
      simp only [Prod.mk.injEq, Ret.returned.injEq] at h
      refine ⟨by rw [← h.2]; simp only [List.length_cons]; push_cast; omega, e, ?_, row,
        List.mem_cons_self _ _, he⟩
      rw [← h.1]
    · rename_i hnone
      split at h
      · simp at h
      · split at h
        · simp at h
        · have hex2 : ∃ r ∈ rs, r.scanErr ≠ none := by
            obtain ⟨r, hr, hne⟩ := hex
            rcases List.mem_cons.mp hr with rfl | hr
            · exact absurd hnone hne
            · exact ⟨r, hr, hne⟩
          obtain ⟨h1, e, h2, r, hr, h3⟩ := ih _ _ _ _ h hex2
          refine ⟨by simp only [List.length_cons]; push_cast; omega, e, h2, r,
            List.mem_cons_of_mem _ hr, h3⟩

theorem fetchEvents_scan_fail (bk : Backend) (reg : TypeRegistry)
    (it it1 : DomainEventIterator) (rows : List RawRow) (hd : it.done = false)
    (hbk : bk it.issued.length ⟨it.query, pageLimit it, it.offset, it.parameters⟩ =
      Except.ok rows)
    (hlen : (rows.length : Int) ≤ pageLimit it) (hex : ∃ r ∈ rows, r.scanErr ≠ none)
    (hf : fetchEvents bk reg it = (it1, Ret.returned ())) :
    it1.done = true ∧ ∃ e, it1.err = some e ∧ ∃ r ∈ rows, r.scanErr = some e := by
  unfold fetchEvents at hf
  simp only [hd, Bool.false_eq_true, if_false, hbk] at hf
  generalize happ : appendRows reg _ rows 0 = res at hf
  obtain ⟨it2, r⟩ := res
  cases r with
  | panicked => simp at hf
  | returned counter =>
    simp only [Prod.mk.injEq, and_true] at hf
    obtain ⟨hlt, e, herr, hrow⟩ := appendRows_scan_fail reg rows _ 0 it2 counter happ hex
    rw [← hf]
    have : counter < pageLimit it := by omega
    exact ⟨by simp [this], e, herr, hrow⟩

theorem positionOn_err (it it1 : DomainEventIterator) (r : Ret Bool)
    (h : positionOn it = (it1, r)) : it1.err = it.err := by
  unfold positionOn at h
  split at h <;> simp only [Prod.mk.injEq] at h <;> rw [← h.1]

theorem Next_done_err (bk : Backend) (reg : TypeRegistry) (it : DomainEventIterator)
    (hd : it.done = true) : (Next bk reg it).1.err = it.err := by
  have hfetch : fetchEvents bk reg { it with position := it.position + 1 } =
      ({ it with position := it.position + 1 }, Ret.returned ()) := by
    unfold fetchEvents
    simp [hd]
  unfold Next
  simp only [hfetch]
  split
  · have := positionOn_err { it with position := it.position + 1 } _ _
      (Prod.mk.eta (p := positionOn { it with position := it.position + 1 })).symm
    exact this
  · rfl

theorem NextN_done_err (bk : Backend) (reg : TypeRegistry) :
    ∀ (n : Nat) (it : DomainEventIterator), it.done = true →
      (NextN bk reg n it).1.err = it.err := by
  intro n
  induction n with
  | zero => intro it _; rfl
  | succ m ih =>
    intro it hd
    have h2 := (Next_when_done bk reg it hd).2
    simp only [NextN]
    rw [ih (Next bk reg it).1 h2, Next_done_err bk reg it hd]

theorem Current_done (bk : Backend) (reg : TypeRegistry) (it : DomainEventIterator)
    (hd : it.done = true) :
    (Current bk reg it).1.issued = it.issued ∧ (Current bk reg it).1.err = it.err ∧
      ∀ c e, (Current bk reg it).2 = Ret.returned (c, e) → e = it.err := by
  have h1 := Next_when_done bk reg it hd
  have h2 := Next_done_err bk reg it hd
  unfold Current
  split
  · generalize hn : Next bk reg it = res at h1 h2
    obtain ⟨it1, r⟩ := res
    cases r with
    | panicked => exact ⟨h1.1, h2, fun c e h => by cases h⟩
    | returned b =>
      refine ⟨h1.1, h2, fun c e h => ?_⟩
      simp only [Ret.returned.injEq, Prod.mk.injEq] at h
      rw [← h.2]
      exact h2
  · refine ⟨rfl, rfl, fun c e h => ?_⟩
    simp only [Ret.returned.injEq, Prod.mk.injEq] at h
    exact h.2.symm

/-- C11 (evaluation at the failing input): the first statement of a cursor over a result of
two rows fails with `e`. The failing `Next` returns `false` and records `e`, but the cursor is
not marked done: the next `Next` sends the same statement again, its rows reset the recorded
error, and it positions the cursor on the second row, so the first row is never delivered and
`Error` and `Current` return no error. A payload that fails to decode is recorded too, and the
scan of the next row overwrites it: `Next` and `Current` deliver the zero-valued event with no
error. In general every failed fetch of a cursor that is not done is followed by a retry. What
does latch is a failed row scan: the fetch records `e` and marks the cursor done, and after
any number of `Next` calls no further statement is sent and `Error` and `Current` keep
returning `e`. -/
theorem C11_fetch_error_is_retried_and_forgotten :
    (NextN retryBackend sampleRegistry 1 (NewDomainEventIterator "q" [] 0)).2 =
      [Ret.returned false] ∧
    (NextN retryBackend sampleRegistry 1 (NewDomainEventIterator "q" [] 0)).1.Error =
      some (Error.conn "bad connection") ∧
    (NextN retryBackend sampleRegistry 1 (NewDomainEventIterator "q" [] 0)).1.done = false ∧
    (NextN retryBackend sampleRegistry 2 (NewDomainEventIterator "q" [] 0)).2 =
      [Ret.returned false, Ret.returned true] ∧
    (NextN retryBackend sampleRegistry 2 (NewDomainEventIterator "q" [] 0)).1.issued =
      [⟨"q", 1000, 0, []⟩, ⟨"q", 1000, 0, []⟩] ∧
    (NextN retryBackend sampleRegistry 2 (NewDomainEventIterator "q" [] 0)).1.Error = none ∧
    (Current retryBackend sampleRegistry
      (NextN retryBackend sampleRegistry 2 (NewDomainEventIterator "q" [] 0)).1).2 =
      Ret.returned (some (sampleLoaded 2), none) ∧
    (NextN retryBackend sampleRegistry 3 (NewDomainEventIterator "q" [] 0)).2 =
      [Ret.returned false, Ret.returned true, Ret.returned false] ∧
    (Next (staticBackend [undecodableRow 1, sampleRow 2]) strictRegistry
      (NewDomainEventIterator "q" [] 0)).2 =
      Ret.returned true ∧
    (Next (staticBackend [undecodableRow 1, sampleRow 2]) strictRegistry
      (NewDomainEventIterator "q" [] 0)).1.Error = none ∧
    (Current (staticBackend [undecodableRow 1, sampleRow 2]) strictRegistry
      (Next (staticBackend [undecodableRow 1, sampleRow 2]) strictRegistry
        (NewDomainEventIterator "q" [] 0)).1).2 =
      Ret.returned (some ⟨1, "6ba7b810-9dad-11d1-80b4-00c04fd430c8",
        Payload.value "TestEvent" "\x7b\"foo\":\"\"\x7d",
        [("stream", Value.str "foo-stream")], 0⟩, none) ∧
    (∀ (bk : Backend) (reg : TypeRegistry) (it : DomainEventIterator) (e : Error),
      it.done = false → -1 ≤ it.position → ¬ it.position + 1 + 1 ≤ it.length →
      bk it.issued.length ⟨it.query, pageLimit it, it.offset, it.parameters⟩ =
        Except.error e →
      (Next bk reg it).2 = Ret.returned false ∧
      (Next bk reg it).1.Error = some e ∧
      Current bk reg (Next bk reg it).1 = ((Next bk reg it).1, Ret.returned (none, some e)) ∧
      (Next bk reg it).1.issued =
        it.issued ++ [⟨it.query, pageLimit it, it.offset, it.parameters⟩] ∧
      (Next bk reg (Next bk reg it).1).1.issued =
        it.issued ++ [⟨it.query, pageLimit it, it.offset, it.parameters⟩,
          ⟨it.query, pageLimit it, it.offset, it.parameters⟩]) ∧
    (∀ (bk : Backend) (reg : TypeRegistry) (it it1 : DomainEventIterator) (rows : List RawRow),
      it.done = false →
      bk it.issued.length ⟨it.query, pageLimit it, it.offset, it.parameters⟩ =
        Except.ok rows →
      (rows.length : Int) ≤ pageLimit it → (∃ r ∈ rows, r.scanErr ≠ none) →
      fetchEvents bk reg it = (it1, Ret.returned ()) →
      ∃ e, (∃ r ∈ rows, r.scanErr = some e) ∧ it1.Error = some e ∧ it1.done = true ∧
        (∀ n, (NextN bk reg n it1).1.issued = it1.issued ∧
          (NextN bk reg n it1).1.Error = some e ∧
          (Current bk reg (NextN bk reg n it1).1).1.issued = it1.issued ∧
          ∀ c e2, (Current bk reg (NextN bk reg n it1).1).2 = Ret.returned (c, e2) →
            e2 = some e)) := by
  refine ⟨by decide, by decide, by decide, by decide, by decide, by decide, by decide,
    by decide, by decide, by decide, by decide, ?_, ?_⟩
  · intro bk reg it e hd hlow hbuf hbk
    have hnext := Next_fetch_error bk reg it e hd hbuf hbk
    rw [hnext]
    refine ⟨rfl, rfl, ?_, rfl, ?_⟩
    · unfold Current
      rw [if_neg (by show ¬ it.position + 1 = -1; omega)]
      rfl
    · have := Next_issued_unbuffered bk reg
        (Close { it with
          position := it.position + 1
          issued := it.issued ++ [⟨it.query, pageLimit it, it.offset, it.parameters⟩]
          err := some e }) hd (by show ¬ it.position + 1 + 1 + 1 ≤ it.length; omega)
      rw [this]
      show it.issued ++ [_] ++ [_] = _
      simp only [List.append_assoc, List.singleton_append]
      rfl
  · intro bk reg it it1 rows hd hbk hlen hex hf
    obtain ⟨hdone, e, herr, hrow⟩ := fetchEvents_scan_fail bk reg it it1 rows hd hbk hlen hex hf
    refine ⟨e, hrow, herr, hdone, fun n => ?_⟩
    have h1 := NextN_when_done bk reg n it1 hdone
    have h2 := NextN_done_err bk reg n it1 hdone
    have h3 := Current_done bk reg (NextN bk reg n it1).1 h1.2
    refine ⟨h1.1, by show (NextN bk reg n it1).1.err = some e; rw [h2, herr], by rw [h3.1, h1.1],
      fun c e2 h => ?_⟩
    rw [h3.2.2 c e2 h, h2, herr]

/-- C12 (evaluation at the failing input): a cursor over a result of one row is iterated until
`Next` returns `false`; `Close` has then emptied the buffer while `length` is still 1. After
`Rewind` the next `Next` evaluates `events[0]` on the empty buffer and panics with an index out
of range. A `Rewind` before exhaustion does give a full second pass. -/
theorem C12_rewind_after_exhaustion_panics :
    (NextN (staticBackend [sampleRow 1]) sampleRegistry 2
        (NewDomainEventIterator "q" [] 0)).2 = [Ret.returned true, Ret.returned false] ∧
    (Rewind (NextN (staticBackend [sampleRow 1]) sampleRegistry 2
        (NewDomainEventIterator "q" [] 0)).1).position = -1 ∧
    (Rewind (NextN (staticBackend [sampleRow 1]) sampleRegistry 2
        (NewDomainEventIterator "q" [] 0)).1).events = [] ∧
    (Rewind (NextN (staticBackend [sampleRow 1]) sampleRegistry 2
        (NewDomainEventIterator "q" [] 0)).1).length = 1 ∧
    (Next (staticBackend [sampleRow 1]) sampleRegistry
      (Rewind (NextN (staticBackend [sampleRow 1]) sampleRegistry 2
        (NewDomainEventIterator "q" [] 0)).1)).2 = Ret.panicked ∧
    (NextN (staticBackend [sampleRow 1, sampleRow 2]) sampleRegistry 3
      (Rewind (NextN (staticBackend [sampleRow 1, sampleRow 2]) sampleRegistry 1
        (NewDomainEventIterator "q" [] 0)).1)).2 =
      [Ret.returned true, Ret.returned true, Ret.returned false] := by
  decide

/-- C18 (evaluation at the failing input): a row whose event type name is unknown to the type
resolver. `appendRows` discards the resolver's error and goes on to `reflect.New` with no
type, which panics: `Next`, `Current` and `ToList` panic, and no error is recorded in the
cursor. This holds for every row with an unregistered name that scans. -/
theorem C18_unknown_type_name_panics :
    (Next (staticBackend [unknownRow]) sampleRegistry (NewDomainEventIterator "q" [] 0)).2 =
      Ret.panicked ∧
    (Next (staticBackend [unknownRow]) sampleRegistry
      (NewDomainEventIterator "q" [] 0)).1.Error = none ∧
    (Current (staticBackend [unknownRow]) sampleRegistry
      (NewDomainEventIterator "q" [] 0)).2 = Ret.panicked ∧
    (ToList (staticBackend [unknownRow]) sampleRegistry 5
      (NewDomainEventIterator "q" [] 0)).map (fun r => r.2) = some Ret.panicked ∧
    (∀ (reg : TypeRegistry) (it : DomainEventIterator) (row : RawRow) (rows : List RawRow)
      (c : Int), row.scanErr = none → reg row.name = none →
      appendRows reg it (row :: rows) c = ({ it with err := none }, Ret.panicked)) := by
  refine ⟨by decide, by decide, by decide, by decide, ?_⟩
  intro reg it row rows c h1 h2
  simp only [appendRows, h1, h2]

/-- C19 (evaluation at the failing input): when the page fetch of a `Next` inside `ToList`
fails with `e`, on the first page or on a later one, `Next` returns `false`, the loop ends and
`ToList` returns the list read so far with a `nil` error, although the cursor has recorded
`e`. -/
theorem C19_toList_returns_nil_error_after_failed_fetch :
    (ToList (failingBackend (Error.conn "bad connection")) sampleRegistry 5
      (NewDomainEventIterator "q" [] 0)).map (fun r => r.2) =
        some (Ret.returned ([], none)) ∧
    (ToList (failingBackend (Error.conn "bad connection")) sampleRegistry 5
      (NewDomainEventIterator "q" [] 0)).map (fun r => r.1.Error) =
        some (some (Error.conn "bad connection")) ∧
    (∀ (bk : Backend) (reg : TypeRegistry) (it : DomainEventIterator)
      (list : List DomainEvent) (e : Error) (fuel : Nat), it.done = false →
      ¬ it.position + 1 + 1 ≤ it.length →
      bk it.issued.length ⟨it.query, pageLimit it, it.offset, it.parameters⟩ =
        Except.error e →
      ∃ it1, ToListLoop bk reg (fuel + 1) it list = some (it1, Ret.returned (list, none)) ∧
        it1.Error = some e) := by
  refine ⟨by decide, by decide, ?_⟩
  intro bk reg it list e fuel hd hbuf hbk
  have hnext := Next_fetch_error bk reg it e hd hbuf hbk
  exact ⟨(Next bk reg it).1, by simp only [ToListLoop, hnext], by rw [hnext]; rfl⟩

theorem appendRows_length (reg : TypeRegistry) :
    ∀ (rows : List RawRow) (it : DomainEventIterator) (c : Int) (it1 : DomainEventIterator)
      (r : Ret Int), appendRows reg it rows c = (it1, r) →
      it1.length = it.length ∧ it1.position = it.position ∧ ∀ n, r = Ret.returned n → c ≤ n := by
  intro rows
  induction rows with
  | nil =>
    intro it c it1 r h
    simp only [appendRows, Prod.mk.injEq] at h
    rw [← h.1, ← h.2]
    exact ⟨rfl, rfl, fun n hn => by injection hn with hn; omega⟩
  | cons row rs ih =>
    intro it c it1 r h
    unfold appendRows at h
    split at h
    · simp only [Prod.mk.injEq] at h
      rw [← h.1, ← h.2]
      exact ⟨rfl, rfl, fun n hn => by injection hn with hn; omega⟩
    · split at h
      · simp only [Prod.mk.injEq] at h
        rw [← h.1, ← h.2]
        exact ⟨rfl, rfl, fun n hn => by cases hn⟩
      · split at h
        · simp only [Prod.mk.injEq] at h
          rw [← h.1, ← h.2]
          exact ⟨rfl, rfl, fun n hn => by cases hn⟩
        · have := ih _ _ _ _ h
          exact ⟨this.1, this.2.1, fun n hn => by have := this.2.2 n hn; omega⟩

theorem fetchEvents_length (bk : Backend) (reg : TypeRegistry) (it it1 : DomainEventIterator)
    (u : Unit) (h : fetchEvents bk reg it = (it1, Ret.returned u)) :
    it.length ≤ it1.length ∧ it1.position = it.position := by
  unfold fetchEvents at h
  split at h
  · simp only [Prod.mk.injEq] at h
    rw [← h.1]
    exact ⟨le_refl _, rfl⟩
  · simp only at h
    cases hbk : bk it.issued.length ⟨it.query, pageLimit it, it.offset, it.parameters⟩ with
    | error e =>
      simp only [hbk, Prod.mk.injEq] at h
      rw [← h.1]
      exact ⟨le_refl _, rfl⟩
    | ok rows =>
      simp only [hbk] at h
      generalize happ : appendRows reg _ rows 0 = res at h
      obtain ⟨it2, r⟩ := res
      cases r with
      | panicked => simp at h
      | returned counter =>
        simp only [Prod.mk.injEq, and_true] at h
        obtain ⟨hlen, hpos, hc⟩ := appendRows_length reg rows _ 0 it2 _ happ
        have := hc counter rfl
        rw [← h]
        refine ⟨?_, hpos⟩
        show it.length ≤ it2.length + counter
        rw [hlen]
        show it.length ≤ it.length + counter
        omega

theorem positionOn_length (it it1 : DomainEventIterator) (r : Ret Bool)
    (h : positionOn it = (it1, r)) : it1.length = it.length ∧ (∀ b, r = Ret.returned b → b = true) := by
  unfold positionOn at h
  split at h <;> simp only [Prod.mk.injEq] at h <;> rw [← h.1, ← h.2]
  · exact ⟨rfl, fun b hb => by injection hb with hb; exact hb.symm⟩
  · exact ⟨rfl, fun b hb => by cases hb⟩

theorem IsEmpty_before_first (bk : Backend) (reg : TypeRegistry) (it : DomainEventIterator)
    (b : Bool) (hpos : it.position = -1) (hlen : 0 ≤ it.length)
    (hnext : (Next bk reg it).2 = Ret.returned b) :
    (IsEmpty bk reg it).2 = Ret.returned (!b, (Next bk reg it).1.err) := by
  have hlength : decide ((Next bk reg it).1.length = 0) = !b := by
    revert hnext
    unfold Next
    simp only [hpos, ge_iff_le]
    split
    · rename_i hbuf
      intro hnext
      generalize hp : positionOn { it with position := -1 + 1 } = res at hnext ⊢
      obtain ⟨it1, r⟩ := res
      have := positionOn_length _ _ _ hp
      have hb := this.2 b hnext
      subst hb
      have h1 : it1.length = it.length := this.1
      have h2 : (-1 : Int) + 1 + 1 ≤ it.length := hbuf
      simp only [Bool.not_true, decide_eq_false_iff_not]
      show ¬ it1.length = 0
      omega
    · rename_i hbuf
      generalize hf : fetchEvents bk reg { it with position := -1 + 1 } = res
      obtain ⟨it1, r⟩ := res
      cases r with
      | panicked => intro hnext; cases hnext
      | returned u =>
        have hge := fetchEvents_length bk reg _ it1 u hf
        have hge2 : it.length ≤ it1.length := hge.1
        have hp1 : it1.position = -1 + 1 := hge.2
        simp only
        split
        · rename_i hbuf2
          intro hnext
          generalize hp : positionOn it1 = res at hnext ⊢
          obtain ⟨it2, r2⟩ := res
          have := positionOn_length _ _ _ hp
          have hb := this.2 b hnext
          subst hb
          have h1 : it2.length = it1.length := this.1
          simp only [Bool.not_true, decide_eq_false_iff_not]
          show ¬ it2.length = 0
          rw [hp1] at hbuf2
          omega
        · rename_i hbuf2
          intro hnext
          injection hnext with hnext
          subst hnext
          simp only [Bool.not_false, decide_eq_true_eq]
          show it1.length = 0
          rw [hp1] at hbuf2
          omega
  unfold IsEmpty
  generalize hn : Next bk reg it = res at hnext hlength
  obtain ⟨it1, r⟩ := res
  simp only at hnext
  subst hnext
  simp only [hlength]

/-- C14 (counterexample): a cursor over one row, positioned on that row. The advance of
`IsEmpty` yields no event (its `Next` returns `false`), yet `IsEmpty` returns `false`, because
it tests `length == 0` and one row has been fetched. -/
theorem C14_isEmpty_false_although_advance_yields_nothing :
    (Next (staticBackend [sampleRow 1]) sampleRegistry
      (Next (staticBackend [sampleRow 1]) sampleRegistry
        (NewDomainEventIterator "q" [] 0)).1).2 = Ret.returned false ∧
    (IsEmpty (staticBackend [sampleRow 1]) sampleRegistry
      (Next (staticBackend [sampleRow 1]) sampleRegistry
        (NewDomainEventIterator "q" [] 0)).1).2 = Ret.returned (false, none) := by
  decide

/-- C14 (amended): `IsEmpty` advances once and returns true exactly when no row has been
fetched so far (`length == 0` after the advance). For a cursor positioned before the first
event (position -1, as after construction) this is exactly when its `Next` returns `false`;
in particular on a fresh cursor with no failure `IsEmpty` returns true if and only if the
query result has zero rows. -/
theorem C14_isEmpty_tests_fetched_length (bk : Backend) (reg : TypeRegistry) :
    (∀ (it : DomainEventIterator) (b : Bool), (Next bk reg it).2 = Ret.returned b →
      IsEmpty bk reg it =
        ((Next bk reg it).1,
          Ret.returned (decide ((Next bk reg it).1.length = 0), (Next bk reg it).1.err))) ∧
    (∀ (it : DomainEventIterator) (b : Bool), it.position = -1 → 0 ≤ it.length →
      (Next bk reg it).2 = Ret.returned b →
      (IsEmpty bk reg it).2 = Ret.returned (!b, (Next bk reg it).1.err)) ∧
    (∀ (q : String) (params : List Value) (rows : List RawRow) (evs : List DomainEvent)
      (count : Int),
      (∀ k l o, bk k ⟨q, l, o, params⟩ = Except.ok ((rows.drop o.toNat).take l.toNat)) →
      rows.map (materialize reg) = evs.map some →
      (IsEmpty bk reg (NewDomainEventIterator q params count)).2 =
        Ret.returned (rows.isEmpty, none)) := by
  refine ⟨?_, fun it b hpos hlen hnext => IsEmpty_before_first bk reg it b hpos hlen hnext, ?_⟩
  · intro it b hnext
    unfold IsEmpty
    generalize hn : Next bk reg it = res at hnext
    obtain ⟨it1, r⟩ := res
    simp only at hnext
    subst hnext
    rfl
  · intro q params rows evs count hbk hclean
    have hinv : CursorInv q params evs (NewDomainEventIterator q params count) 0 :=
      ⟨rfl, rfl, rfl, rfl, rfl, rfl, Nat.zero_le _, rfl, by simp [NewDomainEventIterator],
        by simp [NewDomainEventIterator], by intro h; cases h⟩
    have hlen : rows.length = evs.length := by
      have := congrArg List.length hclean
      simpa using this
    cases hrows : rows with
    | nil =>
      have hevs : evs = [] := by
        rw [hrows] at hlen
        exact List.length_eq_zero.mp hlen.symm
      subst hevs
      have hf := fetchEvents_clean bk reg q params rows [] hbk hclean
        { NewDomainEventIterator q params count with
          position := (NewDomainEventIterator q params count).position + 1 } rfl rfl rfl rfl
      unfold IsEmpty Next
      simp only [hf]
      simp [NewDomainEventIterator, pageOf, Close]
    | cons r rs =>
      have hpos : (NewDomainEventIterator q params count).position + 1 < evs.length := by
        rw [← hlen, hrows]
        simp [NewDomainEventIterator]
      obtain ⟨it1, L1, e, hnext, hinv1, _, _, _⟩ :=
        (Next_step bk reg q params rows evs hbk hclean _ 0 hinv).1 hpos
      have := IsEmpty_before_first bk reg (NewDomainEventIterator q params count) true rfl
        (by simp [NewDomainEventIterator]) (by rw [hnext])
      rw [this, hnext]
      simp [hinv1.err]

/-- Witness for C14 (amended): a fresh cursor over an empty result. -/
theorem C14_isEmpty_tests_fetched_length_witness :
    (IsEmpty (staticBackend []) sampleRegistry (NewDomainEventIterator "q" [] 0)).2 =
      Ret.returned (true, none) :=
  (C14_isEmpty_tests_fetched_length (staticBackend []) sampleRegistry).2.2 "q" [] [] [] 0
    (fun _ _ _ => rfl) rfl

theorem pagesIssued_succ (q : String) (params : List Value) (k : Nat) :
    pagesIssued q params (k + 1) =
      pagesIssued q params k ++ [⟨q, 1000, 1000 * (k : Int), params⟩] := by
  simp [pagesIssued, List.range_succ]

theorem pageLimit_count_zero (it : DomainEventIterator) (h1 : it.limit = 1000)
    (h2 : it.count ≤ 0) : pageLimit it = 1000 := by
  unfold pageLimit
  rw [if_neg (by omega), h1]

theorem Next_fetch_frame (bk : Backend) (reg : TypeRegistry) (q : String)
    (params : List Value) (rows : List RawRow) (evs : List DomainEvent)
    (hbk : ∀ k l o, bk k ⟨q, l, o, params⟩ = Except.ok ((rows.drop o.toNat).take l.toNat))
    (hclean : rows.map (materialize reg) = evs.map some)
    (it : DomainEventIterator) (hq : it.query = q) (hp : it.parameters = params)
    (herr : it.err = none) (hd : it.done = false) (hbuf : ¬ it.position + 1 + 1 ≤ it.length) :
    (Next bk reg it).1.count = it.count - (pageOf evs it).length ∧
    (Next bk reg it).1.done = decide (((pageOf evs it).length : Int) < pageLimit it) ∧
    (Next bk reg it).1.length = it.length + (pageOf evs it).length := by
  have hfetch := fetchEvents_clean bk reg q params rows evs hbk hclean
    { it with position := it.position + 1 } hq hp herr hd
  unfold Next
  simp only [ge_iff_le, hbuf, if_false, hfetch]
  split
  · unfold positionOn
    split
    · exact ⟨rfl, rfl, rfl⟩
    · exact ⟨rfl, rfl, rfl⟩
  · exact ⟨rfl, rfl, rfl⟩

theorem Next_step_pages (bk : Backend) (reg : TypeRegistry) (q : String)
    (params : List Value) (rows : List RawRow) (evs : List DomainEvent)
    (hbk : ∀ k l o, bk k ⟨q, l, o, params⟩ = Except.ok ((rows.drop o.toNat).take l.toNat))
    (hclean : rows.map (materialize reg) = evs.map some)
    (it : DomainEventIterator) (L k : Nat) (hpinv : PageInv q params evs it L k) :
    (it.position + 1 < evs.length →
      ∃ it1 L1 k1 e, Next bk reg it = (it1, Ret.returned true) ∧
        PageInv q params evs it1 L1 k1 ∧
        it1.position = it.position + 1 ∧ it1.current = some e ∧
        evs.get? (it.position + 1).toNat = some e) ∧
    ((evs.length : Int) ≤ it.position + 1 →
      ∃ it1, Next bk reg it = (it1, Ret.returned false) ∧
        it1.issued = pagesIssued q params (evs.length / 1000 + 1)) := by
  obtain ⟨hinv, hcount, hissued, hfull, hlast⟩ := hpinv
  have hinv0 := hinv
  obtain ⟨hq, hp, hlim, herr, hlen, hoff, hle, hev, hlow, hhigh, hdone⟩ := hinv
  have hpl := pageLimit_count_zero it hlim hcount
  by_cases hbuf : it.position + 1 + 1 ≤ it.length
  · obtain ⟨e, he1, he2⟩ := index_take evs L (it.position + 1) (by omega) (by omega) hle
    have hnext : Next bk reg it =
        ({ it with position := it.position + 1, current := some e }, Ret.returned true) := by
      unfold Next
      simp only [ge_iff_le, hbuf, if_true, positionOn, hev, he1]
    refine ⟨fun _ => ⟨_, L, k, e, hnext,
      ⟨⟨hq, hp, hlim, herr, hlen, hoff, hle, hev, ?_, ?_, hdone⟩, hcount, hissued, hfull, hlast⟩,
      rfl, rfl, he2⟩, fun h => ?_⟩
    · show -1 ≤ it.position + 1
      omega
    · show it.position + 1 + 1 ≤ L
      omega
    · omega
  · by_cases hd : it.done = true
    · have hL := hdone hd
      have hfetch : fetchEvents bk reg { it with position := it.position + 1 } =
          ({ it with position := it.position + 1 }, Ret.returned ()) := by
        unfold fetchEvents
        simp [hd]
      have hnext : Next bk reg it =
          (Close { it with position := it.position + 1 }, Ret.returned false) := by
        unfold Next
        simp only [ge_iff_le, hbuf, if_false, hfetch]
      refine ⟨fun h => by omega, fun _ => ⟨_, hnext, ?_⟩⟩
      show it.issued = _
      rw [hissued, hlast hd]
    · have hd2 : it.done = false := by simpa using hd
      have hLk := hfull hd2
      have hiss := Next_issued_unbuffered bk reg it hd2 hbuf
      rw [hpl, hq, hp, hoff, hissued, hLk] at hiss
      have hiss2 : (Next bk reg it).1.issued = pagesIssued q params (k + 1) := by
        rw [hiss, pagesIssued_succ]
        push_cast
        rfl
      obtain ⟨h1, h2⟩ := Next_step bk reg q params rows evs hbk hclean it L hinv0
      constructor
      · intro hlt
        obtain ⟨it1, L1, e, hnext, hinv1, hpos1, hcur1, hget⟩ := h1 hlt
        rw [hnext] at hiss2
        have hfr := Next_fetch_frame bk reg q params rows evs hbk hclean it hq hp herr hd2 hbuf
        have hclen : (pageOf evs it).length = min 1000 (evs.length - L) := by
          unfold pageOf
          rw [hpl, hoff]
          simp
        rw [hnext, hpl, hclen] at hfr
        obtain ⟨hc1, hdone1, hlen1⟩ := hfr
        have hL1 : (L1 : Int) = L + (min 1000 (evs.length - L) : Nat) := by
          rw [← hinv1.length, hlen1, hlen]
        refine ⟨it1, L1, k + 1, e, hnext, ⟨hinv1, ?_, hiss2, ?_, ?_⟩, hpos1, hcur1, hget⟩
        · rw [hc1]
          omega
        · intro hdf
          rw [hdone1] at hdf
          simp only [decide_eq_false_iff_not, not_lt] at hdf
          omega
        · intro hdt
          rw [hdone1] at hdt
          simp only [decide_eq_true_eq] at hdt
          omega
      · intro hge
        obtain ⟨it1, hnext⟩ := h2 hge
        refine ⟨it1, hnext, ?_⟩
        rw [hnext] at hiss2
        rw [hiss2]
        congr 1
        omega

theorem ToListLoop_pages (bk : Backend) (reg : TypeRegistry) (q : String)
    (params : List Value) (rows : List RawRow) (evs : List DomainEvent)
    (hbk : ∀ k l o, bk k ⟨q, l, o, params⟩ = Except.ok ((rows.drop o.toNat).take l.toNat))
    (hclean : rows.map (materialize reg) = evs.map some) :
    ∀ (n : Nat) (it : DomainEventIterator) (L k : Nat) (list : List DomainEvent) (fuel : Nat),
      PageInv q params evs it L k → evs.length - (it.position + 1).toNat = n → n < fuel →
      ∃ it1, ToListLoop bk reg fuel it list =
          some (it1, Ret.returned (list ++ evs.drop (it.position + 1).toNat, none)) ∧
        it1.issued = pagesIssued q params (evs.length / 1000 + 1) := by
  intro n
  induction n with
  | zero =>
    intro it L k list fuel hinv hn hfuel
    obtain ⟨f, rfl⟩ : ∃ f, fuel = f + 1 := ⟨fuel - 1, by omega⟩
    have hlow := hinv.base.low
    obtain ⟨it1, hnext, hiss⟩ :=
      (Next_step_pages bk reg q params rows evs hbk hclean it L k hinv).2 (by omega)
    refine ⟨it1, ?_, hiss⟩
    rw [List.drop_eq_nil_of_le (by omega)]
    simp [ToListLoop, hnext]
  | succ m ih =>
    intro it L k list fuel hinv hn hfuel
    obtain ⟨f, rfl⟩ : ∃ f, fuel = f + 1 := ⟨fuel - 1, by omega⟩
    have hlow := hinv.base.low
    obtain ⟨it1, L1, k1, e, hnext, hinv1, hpos1, hcur1, hget⟩ :=
      (Next_step_pages bk reg q params rows evs hbk hclean it L k hinv).1 (by omega)
    have hlt : (it.position + 1).toNat < evs.length := by omega
    rw [List.get?_eq_getElem?, List.getElem?_eq_getElem hlt] at hget
    injection hget with hget
    obtain ⟨it2, h2, hiss⟩ := ih it1 L1 k1 (list ++ [e]) f hinv1 (by rw [hpos1]; omega) (by omega)
    refine ⟨it2, ?_, hiss⟩
    have hdrop : evs.drop (it.position + 1).toNat =
        e :: evs.drop (it1.position + 1).toNat := by
      rw [List.drop_eq_getElem_cons hlt, hget, hpos1]
      congr 2
      omega
    rw [hdrop]
    simp only [ToListLoop, hnext, hinv1.base.err, hcur1, h2, List.append_assoc,
      List.singleton_append]

/-- C13: a fresh cursor with count 0 over a query result of `n` rows, none of which fails to
scan or decode: for every `n` (also beyond the page size and at exact multiples of 1000),
`ToList` returns with enough fuel (`n + 1` calls of `Next`), its result is exactly the `n` rows
materialised, each once and in the row order of the query, with a `nil` error, and the
statements sent are `LIMIT 1000` at the offsets 0, 1000, 2000, up to `1000 * (n / 1000)`. -/
theorem C13_toList_returns_all_rows_in_order (bk : Backend) (reg : TypeRegistry) (q : String)
    (params : List Value) (rows : List RawRow) (evs : List DomainEvent)
    (hbk : ∀ k l o, bk k ⟨q, l, o, params⟩ = Except.ok ((rows.drop o.toNat).take l.toNat))
    (hclean : rows.map (materialize reg) = evs.map some) (fuel : Nat)
    (hfuel : rows.length < fuel) :
    ∃ it1, ToList bk reg fuel (NewDomainEventIterator q params 0) =
        some (it1, Ret.returned (evs, none)) ∧
      evs.length = rows.length ∧
      it1.issued = pagesIssued q params (rows.length / 1000 + 1) ∧
      it1.issued.map (fun p => p.offset) =
        (List.range (rows.length / 1000 + 1)).map (fun i => 1000 * (i : Int)) := by
  have hlen : evs.length = rows.length := by
    have := congrArg List.length hclean
    simp only [List.length_map] at this
    exact this.symm
  have hinv : PageInv q params evs (NewDomainEventIterator q params 0) 0 0 :=
    ⟨⟨rfl, rfl, rfl, rfl, rfl, rfl, Nat.zero_le _, rfl, by simp [NewDomainEventIterator],
      by simp [NewDomainEventIterator], by intro h; cases h⟩, le_refl _, rfl, fun _ => rfl,
      by intro h; cases h⟩
  obtain ⟨it1, h, hiss⟩ := ToListLoop_pages bk reg q params rows evs hbk hclean evs.length
    (NewDomainEventIterator q params 0) 0 0 [] fuel hinv (by simp [NewDomainEventIterator])
    (by omega)
  refine ⟨it1, ?_, hlen, by rw [hiss, hlen], ?_⟩
  · unfold ToList
    rw [h]
    simp [NewDomainEventIterator]
  · rw [hiss, hlen]
    simp [pagesIssued]

/-- Witness for C13: a result of two rows. -/
theorem C13_toList_returns_all_rows_in_order_witness :
    ∃ it1, ToList (staticBackend [sampleRow 1, sampleRow 2]) sampleRegistry 3
        (NewDomainEventIterator "q" [] 0) =
        some (it1, Ret.returned ([sampleLoaded 1, sampleLoaded 2], none)) ∧
      it1.issued = pagesIssued "q" [] 1 :=
  (C13_toList_returns_all_rows_in_order (staticBackend [sampleRow 1, sampleRow 2])
    sampleRegistry "q" [] [sampleRow 1, sampleRow 2] [sampleLoaded 1, sampleLoaded 2]
    (fun _ _ _ => rfl) (by decide) 3 (by decide)).elim
    (fun it1 h => ⟨it1, h.1, h.2.2.1⟩)

theorem find?_name_append_new (rows : List ProjectionRow) (row : ProjectionRow) (name : String)
    (habs : rows.any (fun r => r.name = name) = false) (hrow : row.name = name) :
    (rows ++ [row]).find? (fun r => r.name = name) = some row := by
  have hnone : rows.find? (fun r => decide (r.name = name)) = none := by
    rw [List.find?_eq_none]
    intro r hr
    simp only [List.any_eq_false, decide_eq_true_eq] at habs
    simpa using habs r hr
  simp [List.find?_append, hnone, hrow]

theorem find?_name_map (rows : List ProjectionRow) (name : String)
    (change : ProjectionRow → ProjectionRow) (hname : ∀ r, (change r).name = r.name) :
    (rows.map (fun r => if r.name = name then change r else r)).find?
        (fun r => r.name = name) =
      (rows.find? (fun r => r.name = name)).map change := by
  induction rows with
  | nil => rfl
  | cons r rest ih =>
    by_cases h : r.name = name
    · simp [List.find?_cons, h, hname]
    · simp only [List.map_cons, h, if_false, List.find?_cons, decide_False, ih]

theorem rowsAffectedTail_none (name : String) (r : Option Nat)
    (h : rowsAffectedTail name r = Ret.returned none) : ∃ c, r = some c ∧ c ≠ 0 := by
  unfold rowsAffectedTail at h
  cases r with
  | none => cases h
  | some c =>
    by_cases hc : c = 0
    · simp [hc] at h
    · exact ⟨c, rfl, hc⟩

theorem execUpdate_affected (f : Faults) (db : ProjectionDB) (name : String)
    (change : ProjectionRow → ProjectionRow) (c : Nat)
    (h : (execUpdate f db name change).2.1 = some c) (hc : c ≠ 0) :
    f.exec = none ∧
      (execUpdate f db name change).1 =
        { db with rows := db.rows.map (fun r => if r.name = name then change r else r) } ∧
      ∃ r, db.rows.find? (fun r => r.name = name) = some r := by
  unfold execUpdate at h
  cases hf : f.exec with
  | some ke => simp [hf] at h
  | none =>
    simp only [hf] at h
    refine ⟨rfl, by simp only [execUpdate, hf], ?_⟩
    have hfound : db.rows.filter (fun r => decide (r.name = name)) ≠ [] := by
      intro hnil
      simp only [hnil, List.filter_nil, List.length_nil, ite_self, Option.some.injEq] at h
      exact hc h.symm
    cases hfind : db.rows.find? (fun r => decide (r.name = name)) with
    | some r => exact ⟨r, rfl⟩
    | none =>
      exfalso
      apply hfound
      rw [List.filter_eq_nil_iff]
      intro r hr
      have := List.find?_eq_none.mp hfind r hr
      exact this

theorem PersistProjection_success (f : Faults) (db db2 : ProjectionDB) (name : String)
    (state : StateValue) (q : List (String × Int))
    (h : PersistProjection f db name state q = (db2, Ret.returned none)) :
    ∃ json r, jsonMarshalState state = Except.ok json ∧
      db.rows.find? (fun r => r.name = name) = some r ∧
      db2.rows.find? (fun r => r.name = name) =
        some { r with status := StatusIdle, state := json, position := q } := by
  unfold PersistProjection at h
  cases hm : jsonMarshalState state with
  | error e => simp [hm] at h
  | ok json =>
    simp only [hm, Prod.mk.injEq] at h
    obtain ⟨hdb, htail⟩ := h
    obtain ⟨c, hc, hne⟩ := rowsAffectedTail_none _ _ htail
    obtain ⟨_, hdb1, r, hr⟩ := execUpdate_affected f db name _ c hc hne
    refine ⟨json, r, rfl, hr, ?_⟩
    rw [← hdb, hdb1]
    have hmap := find?_name_map db.rows name
      (fun r => { r with status := StatusIdle, state := json, position := q }) (fun _ => rfl)
    rw [hr] at hmap
    exact hmap

/-- C15: projection checkpoint round trip. After a successful
`CreateProjection(name, s0, idle)`, `LoadProjection(name)` returns the empty position and the
decoded JSON document of `s0`, with no error; after a following successful
`PersistProjection(name, s1, p)`, it returns the position `p` and the decoded document of `s1`
with no error, and `FetchProjectionStatus(name)` returns idle. -/
theorem C15_projection_checkpoint_round_trip (f1 f3 : Faults) (db db1 : ProjectionDB)
    (name : String) (s0 : StateValue) (hq : f3.query = none)
    (hcreate : CreateProjection f1 db name s0 StatusIdle = (db1, none)) :
    (∃ json0, jsonMarshalState s0 = Except.ok json0 ∧
      LoadProjection f3 db1 name = ([], some json0, none)) ∧
    (∀ (f2 : Faults) (s1 : StateValue) (p : List (String × Int)) (db2 : ProjectionDB),
      PersistProjection f2 db1 name s1 p = (db2, Ret.returned none) →
      ∃ json1, jsonMarshalState s1 = Except.ok json1 ∧
        LoadProjection f3 db2 name = (p, some json1, none) ∧
        FetchProjectionStatus f3 db2 name = (StatusIdle, none)) := by
  have hrow : ∃ json0, jsonMarshalState s0 = Except.ok json0 ∧
      db1.rows.find? (fun r => r.name = name) =
        some ⟨name, [], json0, StatusIdle, none⟩ := by
    unfold CreateProjection at hcreate
    cases hm : jsonMarshalState s0 with
    | error e => simp [hm] at hcreate
    | ok json0 =>
      simp only [hm] at hcreate
      cases hf : f1.exec with
      | some ke => simp [hf] at hcreate
      | none =>
        simp only [hf] at hcreate
        by_cases hany : db.rows.any (fun r => decide (r.name = name)) = true
        · simp [hany] at hcreate
        · simp only [hany, Bool.false_eq_true, if_false, Prod.mk.injEq, and_true] at hcreate
          refine ⟨json0, rfl, ?_⟩
          rw [← hcreate]
          exact find?_name_append_new db.rows _ name (by simpa using hany) rfl
  obtain ⟨json0, hm0, hfind0⟩ := hrow
  refine ⟨⟨json0, hm0, by simp only [LoadProjection, hq, hfind0]⟩, ?_⟩
  intro f2 s1 p db2 hpersist
  obtain ⟨json1, r, hm1, _, hfind2⟩ := PersistProjection_success f2 db1 db2 name s1 p hpersist
  exact ⟨json1, hm1, by simp only [LoadProjection, hq, hfind2],
    by simp only [FetchProjectionStatus, hq, hfind2]⟩

/-- Witness for C15: projection `statusPersist`, created idle with state `{"state":0}` and
persisted with state `{"state":1}` at position `test: 5`, as in the repository's test. -/
theorem C15_projection_checkpoint_round_trip_witness :
    ∃ json1, jsonMarshalState (StateValue.encodable "\x7b\"state\":1\x7d") = Except.ok json1 ∧
      LoadProjection Faults.none
        ⟨[⟨"statusPersist", [("test", 5)], "\x7b\"state\":1\x7d", StatusIdle, none⟩], false⟩
        "statusPersist" = ([("test", 5)], some json1, none) ∧
      FetchProjectionStatus Faults.none
        ⟨[⟨"statusPersist", [("test", 5)], "\x7b\"state\":1\x7d", StatusIdle, none⟩], false⟩
        "statusPersist" = (StatusIdle, none) :=
  (C15_projection_checkpoint_round_trip Faults.none Faults.none ⟨[], false⟩
    ⟨[⟨"statusPersist", [], "\x7b\"state\":0\x7d", StatusIdle, none⟩], false⟩
    "statusPersist" (StateValue.encodable "\x7b\"state\":0\x7d") rfl (by decide)).2 Faults.none
    (StateValue.encodable "\x7b\"state\":1\x7d") [("test", 5)]
    ⟨[⟨"statusPersist", [("test", 5)], "\x7b\"state\":1\x7d", StatusIdle, none⟩], false⟩
    (by decide)

theorem rows_absent_map (rows : List ProjectionRow) (name : String)
    (change : ProjectionRow → ProjectionRow)
    (habs : rows.any (fun r => r.name = name) = false) :
    rows.map (fun r => if r.name = name then change r else r) = rows := by
  induction rows with
  | nil => rfl
  | cons r rest ih =>
    simp only [List.any_cons, Bool.or_eq_false_iff, decide_eq_false_iff_not] at habs
    simp only [List.map_cons, habs.1, if_false, ih habs.2]

theorem rows_absent_filter (rows : List ProjectionRow) (name : String)
    (habs : rows.any (fun r => r.name = name) = false) :
    rows.filter (fun r => r.name = name) = [] ∧
      rows.filter (fun r => ¬ r.name = name) = rows := by
  induction rows with
  | nil => exact ⟨rfl, rfl⟩
  | cons r rest ih =>
    simp only [List.any_cons, Bool.or_eq_false_iff, decide_eq_false_iff_not] at habs
    obtain ⟨h1, h2⟩ := ih habs.2
    constructor
    · rw [List.filter_cons_of_neg (by simpa using habs.1)]
      exact h1
    · rw [List.filter_cons_of_pos (by simpa using habs.1), h2]

theorem rows_present_filter (rows : List ProjectionRow) (name : String)
    (hpres : rows.any (fun r => r.name = name) = true) :
    (rows.filter (fun r => r.name = name)).length ≠ 0 := by
  intro h
  have hnil : rows.filter (fun r => decide (r.name = name)) = [] := List.length_eq_zero.mp h
  rw [List.filter_eq_nil_iff] at hnil
  rw [List.any_eq_true] at hpres
  obtain ⟨r, hr, hname⟩ := hpres
  exact hnil r hr hname

theorem execUpdate_absent (f : Faults) (db : ProjectionDB) (name : String)
    (change : ProjectionRow → ProjectionRow) (hexec : f.exec = none)
    (habs : db.rows.any (fun r => r.name = name) = false) :
    execUpdate f db name change = (db, some 0, none) := by
  simp only [execUpdate, hexec, rows_absent_map db.rows name change habs,
    (rows_absent_filter db.rows name habs).1, List.filter_nil, List.length_nil, ite_self]

theorem execUpdate_found (f : Faults) (db : ProjectionDB) (name : String)
    (change : ProjectionRow → ProjectionRow) (hflag : db.clientFoundRows = true)
    (hpres : db.rows.any (fun r => r.name = name) = true) :
    rowsAffectedTail name (execUpdate f db name change).2.1 ≠
      Ret.returned (some (Error.ProjectionNotFound name)) := by
  unfold execUpdate
  cases hf : f.exec with
  | some ke =>
    simp only [rowsAffectedTail]
    intro h
    cases h
  | none =>
    simp only [hflag, if_true, rowsAffectedTail, rows_present_filter db.rows name hpres, if_false]
    intro h
    cases h

/-- C16 (evaluation at the failing input): the projection `p` has a row, idle, with empty
position and state `{}`, on a connection with the default flags. `UpdateProjectionStatus` to
idle, `PersistProjection` and `ResetProjection` with the stored values change no column, the
affected-rows count is 0 and each returns `ProjectionNotFound` for `p`. The rest of the claim
holds: for a name without a row the four operations return `ProjectionNotFound` and leave
the registry unchanged and `LoadProjection` returns it with an empty position; for a name
with a row `DeleteProjection` and `LoadProjection` never return it, and on a connection that
counts matched rows neither do the three updates. -/
theorem C16_unchanged_row_reports_projection_not_found :
    LoadProjection Faults.none idleRegistry "p" = ([], some "\x7b\x7d", none) ∧
    UpdateProjectionStatus Faults.none idleRegistry "p" StatusIdle =
      (idleRegistry, Ret.returned (some (Error.ProjectionNotFound "p"))) ∧
    PersistProjection Faults.none idleRegistry "p" (StateValue.encodable "\x7b\x7d") [] =
      (idleRegistry, Ret.returned (some (Error.ProjectionNotFound "p"))) ∧
    ResetProjection Faults.none idleRegistry "p" (StateValue.encodable "\x7b\x7d") =
      (idleRegistry, Ret.returned (some (Error.ProjectionNotFound "p"))) ∧
    (∀ (f : Faults) (db : ProjectionDB) (name : String), f.exec = none → f.query = none →
      db.rows.any (fun r => r.name = name) = false →
      DeleteProjection f db name =
        (db, Ret.returned (some (Error.ProjectionNotFound name))) ∧
      (∀ json, ResetProjection f db name (StateValue.encodable json) =
        (db, Ret.returned (some (Error.ProjectionNotFound name)))) ∧
      (∀ json p, PersistProjection f db name (StateValue.encodable json) p =
        (db, Ret.returned (some (Error.ProjectionNotFound name)))) ∧
      (∀ status, UpdateProjectionStatus f db name status =
        (db, Ret.returned (some (Error.ProjectionNotFound name)))) ∧
      LoadProjection f db name = ([], none, some (Error.ProjectionNotFound name))) ∧
    (∀ (f : Faults) (db : ProjectionDB) (name : String),
      db.rows.any (fun r => r.name = name) = true →
      (DeleteProjection f db name).2 ≠ Ret.returned (some (Error.ProjectionNotFound name)) ∧
      (f.query = none → (LoadProjection f db name).2.2 = none) ∧
      (db.clientFoundRows = true →
        (∀ state, (ResetProjection f db name state).2 ≠
          Ret.returned (some (Error.ProjectionNotFound name))) ∧
        (∀ state p, (PersistProjection f db name state p).2 ≠
          Ret.returned (some (Error.ProjectionNotFound name))) ∧
        (∀ status, (UpdateProjectionStatus f db name status).2 ≠
          Ret.returned (some (Error.ProjectionNotFound name))))) := by
  refine ⟨by decide, by decide, by decide, by decide, ?_, ?_⟩
  · intro f db name hexec hquery habs
    have hfind : db.rows.find? (fun r => decide (r.name = name)) = none := by
      rw [List.find?_eq_none]
      intro r hr
      simp only [List.any_eq_false, decide_eq_true_eq] at habs
      simpa using habs r hr
    refine ⟨?_, ?_, ?_, ?_, ?_⟩
    · have hdel : execDelete f db name = (db, some 0, none) := by
        simp only [execDelete, hexec, (rows_absent_filter db.rows name habs).1,
          (rows_absent_filter db.rows name habs).2, List.length_nil]
      simp only [DeleteProjection, hdel]
      rfl
    · intro json
      simp only [ResetProjection, jsonMarshalState, execUpdate_absent f db name _ hexec habs]
      rfl
    · intro json p
      simp only [PersistProjection, jsonMarshalState, execUpdate_absent f db name _ hexec habs]
      rfl
    · intro status
      simp only [UpdateProjectionStatus, execUpdate_absent f db name _ hexec habs]
      rfl
    · simp only [LoadProjection, hquery, hfind]
  · intro f db name hpres
    refine ⟨?_, ?_, ?_⟩
    · simp only [DeleteProjection, execDelete]
      cases hf : f.exec with
      | some ke =>
        simp only [rowsAffectedTail]
        intro h
        cases h
      | none =>
        simp only [rowsAffectedTail, rows_present_filter db.rows name hpres, if_false]
        intro h
        cases h
    · intro hquery
      cases hfind : db.rows.find? (fun r => decide (r.name = name)) with
      | none =>
        exfalso
        rw [List.any_eq_true] at hpres
        obtain ⟨r, hr, hname⟩ := hpres
        exact List.find?_eq_none.mp hfind r hr hname
      | some r => simp only [LoadProjection, hquery, hfind]
    · intro hflag
      refine ⟨?_, ?_, ?_⟩
      · intro state
        cases state with
        | encodable json =>
          simp only [ResetProjection, jsonMarshalState]
          exact execUpdate_found f db name _ hflag hpres
        | unencodable reason =>
          simp only [ResetProjection, jsonMarshalState]
          intro h
          cases h
      · intro state p
        cases state with
        | encodable json =>
          simp only [PersistProjection, jsonMarshalState]
          exact execUpdate_found f db name _ hflag hpres
        | unencodable reason =>
          simp only [PersistProjection, jsonMarshalState]
          intro h
          cases h
      · intro status
        exact execUpdate_found f db name _ hflag hpres

/-- C17 (counterexample): the projection `p` is stored at position `s: 5`; a
`PersistProjection` with position `s: 3` succeeds and the position stored afterwards is
`s: 3`, below the previous one; a following one with the empty position succeeds as well and
drops the stream. -/
theorem C17_persist_lowers_and_drops_a_position :
    LoadProjection Faults.none checkpointRegistry "p" = ([("s", 5)], some "\x7b\x7d", none) ∧
    (PersistProjection Faults.none checkpointRegistry "p" (StateValue.encodable "\x7b\x7d")
      [("s", 3)]).2 = Ret.returned none ∧
    LoadProjection Faults.none
      (PersistProjection Faults.none checkpointRegistry "p" (StateValue.encodable "\x7b\x7d")
        [("s", 3)]).1 "p" = ([("s", 3)], some "\x7b\x7d", none) ∧
    (PersistProjection Faults.none
      (PersistProjection Faults.none checkpointRegistry "p" (StateValue.encodable "\x7b\x7d")
        [("s", 3)]).1 "p" (StateValue.encodable "\x7b\x7d") []).2 = Ret.returned none ∧
    LoadProjection Faults.none
      (PersistProjection Faults.none
        (PersistProjection Faults.none checkpointRegistry "p" (StateValue.encodable "\x7b\x7d")
          [("s", 3)]).1 "p" (StateValue.encodable "\x7b\x7d") []).1 "p" =
      ([], some "\x7b\x7d", none) := by
  decide

/-- C17 (amended): a successful `PersistProjection` with position `q` replaces the stored
position: whatever position was stored before, the position `LoadProjection` returns
afterwards is exactly `q`, with no error. -/
theorem C17_persist_overwrites_position (f f3 : Faults) (db db2 : ProjectionDB)
    (name : String) (state : StateValue) (q : List (String × Int))
    (hquery : f3.query = none)
    (hpersist : PersistProjection f db name state q = (db2, Ret.returned none)) :
    (LoadProjection f3 db2 name).1 = q ∧ (LoadProjection f3 db2 name).2.2 = none := by
  obtain ⟨json, r, _, _, hfind⟩ := PersistProjection_success f db db2 name state q hpersist
  simp only [LoadProjection, hquery, hfind, and_self]

/-- Witness for C17 (amended): the position `s: 5` overwritten by `s: 3`. -/
theorem C17_persist_overwrites_position_witness :
    (LoadProjection Faults.none
      ⟨[⟨"p", [("s", 3)], "\x7b\x7d", StatusIdle, none⟩], false⟩ "p").1 = [("s", 3)] ∧
    (LoadProjection Faults.none
      ⟨[⟨"p", [("s", 3)], "\x7b\x7d", StatusIdle, none⟩], false⟩ "p").2.2 = none :=
  C17_persist_overwrites_position Faults.none Faults.none checkpointRegistry
    ⟨[⟨"p", [("s", 3)], "\x7b\x7d", StatusIdle, none⟩], false⟩ "p"
    (StateValue.encodable "\x7b\x7d") [("s", 3)] (by decide) (by decide)

/-- C20 (evaluation at the failing input): when `ExecContext` fails with `e` and returns no
result, each of `DeleteProjection`, `ResetProjection`, `PersistProjection` and
`UpdateProjectionStatus` calls `RowsAffected` on the `nil` result and panics instead of
returning `e`, and so does `RemoveStreamFromStreamsTable`; the registry and the catalog are
unchanged. `CreateProjection`, which ignores the result, returns `e`. -/
theorem C20_failed_exec_panics_on_missing_result :
    DeleteProjection ⟨none, none, none, some (0, Error.conn "context canceled"), none⟩
      idleRegistry "p" = (idleRegistry, Ret.panicked) ∧
    (∀ (f : Faults) (db : ProjectionDB) (name : String) (k : Nat) (e : Error),
      f.exec = some (k, e) →
      DeleteProjection f db name = (db, Ret.panicked) ∧
      (∀ json, ResetProjection f db name (StateValue.encodable json) = (db, Ret.panicked)) ∧
      (∀ json p, PersistProjection f db name (StateValue.encodable json) p =
        (db, Ret.panicked)) ∧
      (∀ status, UpdateProjectionStatus f db name status = (db, Ret.panicked)) ∧
      (∀ json status, CreateProjection f db name (StateValue.encodable json) status =
        (db, some e))) ∧
    (∀ (f : Faults) (db : DB) (streamName : String) (k : Nat) (e : Error),
      f.prepare = none → f.exec = some (k, e) →
      RemoveStreamFromStreamsTable f db streamName = (db, Run.panicked)) := by
  refine ⟨by decide, ?_, ?_⟩
  · intro f db name k e hexec
    refine ⟨?_, ?_, ?_, ?_, ?_⟩
    · simp only [DeleteProjection, execDelete, hexec, rowsAffectedTail]
    · intro json
      simp only [ResetProjection, jsonMarshalState, execUpdate, hexec, rowsAffectedTail]
    · intro json p
      simp only [PersistProjection, jsonMarshalState, execUpdate, hexec, rowsAffectedTail]
    · intro status
      simp only [UpdateProjectionStatus, execUpdate, hexec, rowsAffectedTail]
    · intro json status
      simp only [CreateProjection, jsonMarshalState, hexec]
  · intro f db streamName k e hprep hexec
    simp only [RemoveStreamFromStreamsTable, hprep, hexec]

theorem parenDepth_free_append (rest : List Char) :
    ∀ (cs : List Char) (d : Nat), cs.all (fun c => c ≠ '(' ∧ c ≠ ')') = true →
      parenDepth (cs ++ rest) d = parenDepth rest d := by
  intro cs
  induction cs with
  | nil => intro d _; rfl
  | cons c cs ih =>
    intro d h
    simp only [List.all_cons, Bool.and_eq_true, decide_eq_true_eq] at h
    simp only [List.cons_append, parenDepth, h.1.1, h.1.2, if_false]
    exact ih d h.2

theorem parenDepth_free (cs : List Char) (d : Nat)
    (h : cs.all (fun c => c ≠ '(' ∧ c ≠ ')') = true) : parenDepth cs d = some d := by
  have := parenDepth_free_append [] cs d h
  simpa [parenDepth] using this

theorem parenFree_append (a b : String) (ha : parenFree a = true) (hb : parenFree b = true) :
    parenFree (a ++ b) = true := by
  unfold parenFree at *
  simp only [String.toList, String.data_append, List.all_append, Bool.and_eq_true]
  exact ⟨ha, hb⟩

theorem parenFree_expression (op value : String) (hop : parenFree op = true)
    (hv : parenFree value = true) : parenFree (expression op value) = true := by
  unfold expression
  split_ifs
  · exact parenFree_append _ _ (by decide) hv
  · exact parenFree_append _ _ (by decide) hv
  · exact parenFree_append _ _ (by decide) hv
  · exact parenFree_append _ _ (parenFree_append _ _ hop (by decide)) hv

theorem parenDepth_open_call (rest : List Char) :
    parenDepth ("JSON_UNQUOTE(metadata->>\"$.".toList ++ rest) 0 = parenDepth rest 1 := by
  rfl

/-- C21 (evaluation at the failing input): for the matcher of the repository's test, metadata
`integer <= 2` and metadata `bool = true`, `createWhereClause` emits the fragment
`JSON_UNQUOTE(metadata->>"$.integer" <= ?`, which opens one parenthesis and closes none, and
the condition joined from the fragments is unbalanced too. This holds for every
metadata-domain matcher with a non-boolean value whose field and operator hold no
parenthesis: its single fragment ends at depth 1. The fragments of boolean matchers of both
domains are balanced. -/
theorem C21_metadata_fragment_leaves_call_open :
    (createWhereClause integerBoolMatcher).1 =
      ["JSON_UNQUOTE(metadata->>\"$.integer\" <= ?", "metadata->\"$.bool\" = true"] ∧
    parenDepth "JSON_UNQUOTE(metadata->>\"$.integer\" <= ?".toList 0 = some 1 ∧
    balanced "JSON_UNQUOTE(metadata->>\"$.integer\" <= ?" = false ∧
    balanced (stringsJoin (createWhereClause integerBoolMatcher).1 " AND ") = false ∧
    (∀ (m : MetadataMatch), m.FieldType = FieldType.MetadataField →
      (∀ b, m.Value ≠ Value.bool b) → parenFree m.Field = true →
      parenFree m.Operation = true →
      ∃ fragment, (createWhereClause [m]).1 = [fragment] ∧
        parenDepth fragment.toList 0 = some 1 ∧ balanced fragment = false) ∧
    (∀ (m : MetadataMatch) (b : Bool), m.Value = Value.bool b →
      parenFree m.Field = true → parenFree m.Operation = true →
      ∀ fragment ∈ (createWhereClause [m]).1, balanced fragment = true) := by
  refine ⟨by decide, by decide, by decide, by decide, ?_, ?_⟩
  · intro m hty hval hfield hop
    have hfrag : (createWhereClause [m]).1 =
        ["JSON_UNQUOTE(metadata->>\"$." ++ m.Field ++ "\" " ++ expression m.Operation "?"] := by
      obtain ⟨field, ty, value, op⟩ := m
      simp only at hty hval
      subst hty
      cases value with
      | bool b => exact absurd rfl (hval b)
      | int n => rfl
      | str s => rfl
      | float v => rfl
    have htail : parenFree (m.Field ++ "\" " ++ expression m.Operation "?") = true :=
      parenFree_append _ _ (parenFree_append _ _ hfield (by decide))
        (parenFree_expression _ _ hop (by decide))
    have hdepth : parenDepth
        ("JSON_UNQUOTE(metadata->>\"$." ++ m.Field ++ "\" " ++ expression m.Operation "?").toList
        0 = some 1 := by
      have hsplit : ("JSON_UNQUOTE(metadata->>\"$." ++ m.Field ++ "\" " ++
          expression m.Operation "?").toList =
          "JSON_UNQUOTE(metadata->>\"$.".toList ++
            (m.Field ++ "\" " ++ expression m.Operation "?").toList := by
        simp only [String.toList, String.data_append, List.append_assoc]
      rw [hsplit, parenDepth_open_call]
      exact parenDepth_free _ 1 htail
    refine ⟨_, hfrag, hdepth, ?_⟩
    simp only [balanced, hdepth]
    decide
  · intro m b hval hfield hop fragment hmem
    obtain ⟨field, ty, value, op⟩ := m
    simp only at hval hfield hop
    subst hval
    have hexpr := parenFree_expression op (FormatBool b) hop (by cases b <;> decide)
    cases ty with
    | MetadataField =>
      have hfrag : (createWhereClause [⟨field, FieldType.MetadataField, Value.bool b, op⟩]).1 =
          ["metadata->\"$." ++ field ++ "\" " ++ expression op (FormatBool b)] := rfl
      rw [hfrag, List.mem_singleton] at hmem
      subst hmem
      have hfree : parenFree ("metadata->\"$." ++ field ++ "\" " ++
          expression op (FormatBool b)) = true :=
        parenFree_append _ _ (parenFree_append _ _ (parenFree_append _ _ (by decide) hfield)
          (by decide)) hexpr
      simp only [balanced, parenDepth_free _ 0 hfree]
      decide
    | MessagePropertyField =>
      have hfrag : (createWhereClause
          [⟨field, FieldType.MessagePropertyField, Value.bool b, op⟩]).1 =
          [field ++ " " ++ expression op (FormatBool b)] := rfl
      rw [hfrag, List.mem_singleton] at hmem
      subst hmem
      have hfree : parenFree (field ++ " " ++ expression op (FormatBool b)) = true :=
        parenFree_append _ _ (parenFree_append _ _ hfield (by decide)) hexpr
      simp only [balanced, parenDepth_free _ 0 hfree]
      decide
    | other tag =>
      have hfrag : (createWhereClause [⟨field, FieldType.other tag, Value.bool b, op⟩]).1 =
          [] := rfl
      rw [hfrag] at hmem
      cases hmem

end EventStore
